import Mathlib

/-!
Verification development for the protohcl bridge: a schema-driven mapping
between HCL configuration bodies and protobuf messages.  The definitions
below are shallow embeddings of the Go source (field-annotation resolution,
schema compilation, body-to-message decoding, message-to-value reflection,
and the error taxonomy); external collaborators (the HCL host library, the
cty value/convert library and its wire codecs, protobuf reflection) are
modelled from their documented behaviour where marked.
-/

namespace ProtoHCL

/-- Protobuf field kinds (protoreflect.Kind), restricted to the kinds the
package distinguishes.  `group` stands for every kind outside the named
set, which the package rejects. -/
inductive FieldKind where
  | bool | enum
  | int32 | sint32 | sfixed32
  | int64 | sint64 | sfixed64
  | uint32 | fixed32
  | uint64 | fixed64
  | float | double
  | string | bytes | message | group
deriving DecidableEq, Repr

/-- Raw encoding modes for bytes-kind attribute fields
(protohclext.Attribute_RawMode). -/
inductive RawMode where
  | notRaw | messagepack | json
deriving DecidableEq, Repr

/-- Collection kinds for repeated nested-block fields
(protohclext.NestedBlock_CollectionKind).  `other` models out-of-range
enum numbers arriving over the wire. -/
inductive CollectionKind where
  | auto | tuple | list | set | other (n : Nat)
deriving DecidableEq, Repr

/-- Source position (hcl.Pos). -/
structure SourcePos where
  line : Nat
  column : Nat
  byte : Nat
deriving DecidableEq, Repr

/-- Source range (hcl.Range). -/
structure SourceRange where
  filename : String
  start : SourcePos
  stop : SourcePos
deriving DecidableEq, Repr

/-- Rendering of a source range, following hcl.Range.String: the end line
is omitted when it equals the start line. -/
def SourceRange.render (r : SourceRange) : String :=
  if r.start.line = r.stop.line then
    r.filename ++ ":" ++ toString r.start.line ++ "," ++ toString r.start.column
      ++ "-" ++ toString r.stop.column
  else
    r.filename ++ ":" ++ toString r.start.line ++ "," ++ toString r.start.column
      ++ "-" ++ toString r.stop.line ++ "," ++ toString r.stop.column

/-- Range spanning from the start of the first range to the end of the
second (hcl.RangeBetween). -/
def rangeBetween (a b : SourceRange) : SourceRange :=
  { filename := a.filename, start := a.start, stop := b.stop }

/-- Diagnostic severity (hcl.DiagError / hcl.DiagWarning). -/
inductive DiagSeverity where
  | error | warning
deriving DecidableEq, Repr

/-- A user-facing diagnostic (hcl.Diagnostic).  The expression and
evaluation-context handles of the Go structure carry no information the
claims depend on and are omitted. -/
structure Diagnostic where
  severity : DiagSeverity
  summary : String
  detail : String
  subject : Option SourceRange
  context : Option SourceRange
deriving DecidableEq, Repr

/-- Whether a diagnostics list contains at least one error
(hcl.Diagnostics.HasErrors). -/
def diagsHasErrors (ds : List Diagnostic) : Bool :=
  ds.any (fun d => d.severity == DiagSeverity.error)

/-- Summary string shared by all unsuitable-value diagnostics. -/
def unsuitableValueSummary : String := "Unsuitable attribute value"

/-- The cty type system as the package uses it.  `nilType` is cty.NilType,
the zero Type, distinct from `dynamic` (cty.DynamicPseudoType).  Object
attribute types are kept as a list of name/type pairs; the construction
functions below keep that list sorted by name so that equality of the
embedded types coincides with equality of the Go map-based types. -/
inductive CtyType where
  | bool | number | string | dynamic | nilType
  | list (elem : CtyType)
  | set (elem : CtyType)
  | map (elem : CtyType)
  | tuple (elems : List CtyType)
  | object (atys : List (String × CtyType))
deriving Repr

mutual

/-- Structural equality of cty types (cty Type.Equals). -/
def CtyType.beq : CtyType → CtyType → Bool
  | .bool, .bool => true
  | .number, .number => true
  | .string, .string => true
  | .dynamic, .dynamic => true
  | .nilType, .nilType => true
  | .list a, .list b => CtyType.beq a b
  | .set a, .set b => CtyType.beq a b
  | .map a, .map b => CtyType.beq a b
  | .tuple a, .tuple b => CtyType.beqList a b
  | .object a, .object b => CtyType.beqAtys a b
  | _, _ => false

/-- Elementwise equality for tuple element lists. -/
def CtyType.beqList : List CtyType → List CtyType → Bool
  | [], [] => true
  | a :: as_, b :: bs => CtyType.beq a b && CtyType.beqList as_ bs
  | _, _ => false

/-- Elementwise equality for object attribute lists. -/
def CtyType.beqAtys : List (String × CtyType) → List (String × CtyType) → Bool
  | [], [] => true
  | (n, a) :: as_, (m, b) :: bs => n == m && CtyType.beq a b && CtyType.beqAtys as_ bs
  | _, _ => false

end

mutual

/-- Whether a type has any dynamic parts (cty Type.HasDynamicTypes). -/
def CtyType.hasDynamicTypes : CtyType → Bool
  | .dynamic => true
  | .list e => e.hasDynamicTypes
  | .set e => e.hasDynamicTypes
  | .map e => e.hasDynamicTypes
  | .tuple es => CtyType.hasDynamicTypesList es
  | .object atys => CtyType.hasDynamicTypesAtys atys
  | _ => false

/-- Helper for tuple element lists. -/
def CtyType.hasDynamicTypesList : List CtyType → Bool
  | [] => false
  | t :: ts => t.hasDynamicTypes || CtyType.hasDynamicTypesList ts

/-- Helper for object attribute lists. -/
def CtyType.hasDynamicTypesAtys : List (String × CtyType) → Bool
  | [] => false
  | (_, t) :: ts => t.hasDynamicTypes || CtyType.hasDynamicTypesAtys ts

end

/-- The cty value model.  Numbers are represented as rationals, matching the
arbitrary-precision big.Float values the library uses for all numeric values
the package manipulates (every value the decoder sees originates from a
decimal literal or an integer).  `nullV ty` is cty.NullVal(ty) and
`unknown ty` is cty.UnknownVal(ty). -/
inductive CtyValue where
  | bool (b : Bool)
  | number (q : ℚ)
  | string (s : String)
  | nullV (ty : CtyType)
  | unknown (ty : CtyType)
  | list (ety : CtyType) (elems : List CtyValue)
  | set (ety : CtyType) (elems : List CtyValue)
  | map (ety : CtyType) (elems : List (String × CtyValue))
  | tuple (elems : List CtyValue)
  | object (attrs : List (String × CtyValue))
deriving Repr

mutual

/-- The type of a cty value (cty Value.Type). -/
def ctyTypeOf : CtyValue → CtyType
  | .bool _ => .bool
  | .number _ => .number
  | .string _ => .string
  | .nullV ty => ty
  | .unknown ty => ty
  | .list ety _ => .list ety
  | .set ety _ => .set ety
  | .map ety _ => .map ety
  | .tuple es => .tuple (ctyTypeOfList es)
  | .object as_ => .object (ctyTypeOfAtys as_)

/-- Types of a tuple's elements. -/
def ctyTypeOfList : List CtyValue → List CtyType
  | [] => []
  | v :: vs => ctyTypeOf v :: ctyTypeOfList vs

/-- Types of an object's attributes. -/
def ctyTypeOfAtys : List (String × CtyValue) → List (String × CtyType)
  | [] => []
  | (n, v) :: vs => (n, ctyTypeOf v) :: ctyTypeOfAtys vs

end

/-- Whether a value is null (cty Value.IsNull). -/
def CtyValue.isNull : CtyValue → Bool
  | .nullV _ => true
  | _ => false

/-- Whether a value is known (cty Value.IsKnown; shallow, like the
library: a known collection may still contain unknown elements). -/
def CtyValue.isKnown : CtyValue → Bool
  | .unknown _ => false
  | _ => true

/-- Modelled from the spec: conversion of a value against a type constraint,
provided by the external cty value library (spec section 1).  The model
covers the behaviours the package relies on — conversion to the dynamic
pseudo-type is the identity, null and unknown inputs convert to null and
unknown of the target type, and a value already of the target type is
unchanged — and reports failure for every other combination. -/
def convert (v : CtyValue) (ty : CtyType) : Except String CtyValue :=
  if CtyType.beq ty CtyType.dynamic then .ok v
  else
    match v with
    | .nullV _ => .ok (.nullV ty)
    | .unknown _ => .ok (.unknown ty)
    | _ =>
      if CtyType.beq (ctyTypeOf v) ty then .ok v
      else .error "incorrect value type"

/-- Payload of the (hcl.attr) field option (protohclext.Attribute). -/
structure AttributeOptions where
  name : String
  required : Bool
  type : String
  raw : RawMode
deriving DecidableEq, Repr

/-- Payload of the (hcl.block) field option (protohclext.NestedBlock). -/
structure NestedBlockOptions where
  typeName : String
  kind : CollectionKind
deriving DecidableEq, Repr

/-- Payload of the (hcl.label) field option (protohclext.BlockLabel). -/
structure BlockLabelOptions where
  name : String
deriving DecidableEq, Repr

/-- The four HCL-specific extensions carried on a field's options.  An
absent extension is `none`; the getters below return the payload's zero
value for an absent extension, matching proto.GetExtension. -/
structure FieldOptions where
  attr : Option AttributeOptions
  block : Option NestedBlockOptions
  flatten : Bool
  label : Option BlockLabelOptions
deriving DecidableEq, Repr

/-- Attribute name, or empty when the extension is absent. -/
def FieldOptions.attrName (o : FieldOptions) : String :=
  match o.attr with
  | some a => a.name
  | none => ""

/-- Attribute required flag, or false when absent. -/
def FieldOptions.attrRequired (o : FieldOptions) : Bool :=
  match o.attr with
  | some a => a.required
  | none => false

/-- Attribute type-expression string, or empty when absent. -/
def FieldOptions.attrType (o : FieldOptions) : String :=
  match o.attr with
  | some a => a.type
  | none => ""

/-- Attribute raw mode, or NOT_RAW when absent. -/
def FieldOptions.attrRaw (o : FieldOptions) : RawMode :=
  match o.attr with
  | some a => a.raw
  | none => .notRaw

/-- Nested-block type name, or empty when absent. -/
def FieldOptions.blockTypeName (o : FieldOptions) : String :=
  match o.block with
  | some b => b.typeName
  | none => ""

/-- Nested-block collection kind, or AUTO when absent. -/
def FieldOptions.blockKind (o : FieldOptions) : CollectionKind :=
  match o.block with
  | some b => b.kind
  | none => .auto

/-- Block-label name, or empty when absent. -/
def FieldOptions.labelName (o : FieldOptions) : String :=
  match o.label with
  | some l => l.name
  | none => ""

/-- A oneof declaration of a message (protoreflect.OneofDescriptor). -/
structure OneofDescriptor where
  fullName : String
  isSynthetic : Bool
deriving DecidableEq, Repr

mutual

/-- A protobuf message descriptor: fully-qualified name, fields in
declaration order, and oneof declarations. -/
inductive MessageDescriptor where
  | mk (fullName : String) (fields : List FieldDescriptor)
       (oneofs : List OneofDescriptor)

/-- A protobuf field descriptor.  Following protoreflect, a map field has
kind `message` (its entry type) with the key and value kinds recorded
separately, and a repeated field's kind is its element kind.  `message`
is the field's message descriptor when the kind is `message` (for a map
field the value type is not recorded here; the package never needs it). -/
inductive FieldDescriptor where
  | mk (fullName : String) (kind : FieldKind) (isList : Bool) (isMap : Bool)
       (mapKeyKind : FieldKind) (mapValueKind : FieldKind)
       (message : Option MessageDescriptor) (options : FieldOptions)

end

/-- Fully-qualified name of a message descriptor. -/
def MessageDescriptor.fullName : MessageDescriptor → String
  | .mk n _ _ => n

/-- Fields of a message descriptor, in declaration order. -/
def MessageDescriptor.fields : MessageDescriptor → List FieldDescriptor
  | .mk _ fs _ => fs

/-- Oneof declarations of a message descriptor. -/
def MessageDescriptor.oneofs : MessageDescriptor → List OneofDescriptor
  | .mk _ _ os => os

/-- Fully-qualified name of a field descriptor. -/
def FieldDescriptor.fullName : FieldDescriptor → String
  | .mk n _ _ _ _ _ _ _ => n

/-- Kind of a field descriptor. -/
def FieldDescriptor.kind : FieldDescriptor → FieldKind
  | .mk _ k _ _ _ _ _ _ => k

/-- Whether the field is a repeated (list) field. -/
def FieldDescriptor.isList : FieldDescriptor → Bool
  | .mk _ _ l _ _ _ _ _ => l

/-- Whether the field is a map field. -/
def FieldDescriptor.isMap : FieldDescriptor → Bool
  | .mk _ _ _ m _ _ _ _ => m

/-- Kind of a map field's keys. -/
def FieldDescriptor.mapKeyKind : FieldDescriptor → FieldKind
  | .mk _ _ _ _ k _ _ _ => k

/-- Kind of a map field's values. -/
def FieldDescriptor.mapValueKind : FieldDescriptor → FieldKind
  | .mk _ _ _ _ _ v _ _ => v

/-- Message descriptor of a message-kind field. -/
def FieldDescriptor.message : FieldDescriptor → Option MessageDescriptor
  | .mk _ _ _ _ _ _ m _ => m

/-- HCL options of a field descriptor. -/
def FieldDescriptor.options : FieldDescriptor → FieldOptions
  | .mk _ _ _ _ _ _ _ o => o

/-- Synthetic field descriptor standing for field.MapValue(): the hidden
value field of a map field's entry message. -/
def FieldDescriptor.mapValueField (f : FieldDescriptor) : FieldDescriptor :=
  .mk (f.fullName ++ ".value") f.mapValueKind false false .bool .bool none
    ⟨none, none, false, none⟩

/-- A schema error: an inconsistency in the message descriptor, always the
fault of whoever provided the schema (type schemaError).  The underlying
error is kept as its rendered message string. -/
structure SchemaError where
  decl : String
  err : String
deriving DecidableEq, Repr

/-- Constructor for schema errors (schemaErrorf); formatting is performed
at the call sites. -/
def schemaErrorf (decl : String) (msg : String) : SchemaError :=
  ⟨decl, msg⟩

/-- Go %q quoting of a name (claims never depend on escaping inside the
quoted text). -/
def quoteGo (s : String) : String := "\"" ++ s ++ "\""

/-- Resolved attribute annotation (FieldAttribute). -/
structure FieldAttribute where
  name : String
  required : Bool
  typeExprString : String
  rawMode : RawMode
  targetField : FieldDescriptor

/-- Resolved nested-block annotation (FieldNestedBlockType). -/
structure FieldNestedBlockType where
  typeName : String
  nested : MessageDescriptor
  repeated : Bool
  collectionKind : CollectionKind

/-- The HCL-specific behaviour a field is annotated with (the closed
FieldElem interface): attribute, nested block type, flatten, or block
label. -/
inductive FieldElem where
  | attr (a : FieldAttribute)
  | block (b : FieldNestedBlockType)
  | flattened (nested : MessageDescriptor)
  | label (name : String)

/-- Promotion of the AUTO collection kind to TUPLE for repeated
nested-block fields (the inline adjustment in GetFieldElem). -/
def resolvedCollectionKind (k : CollectionKind) : CollectionKind :=
  if k = CollectionKind.auto then CollectionKind.tuple else k

/-- Resolution of a field's HCL annotations (GetFieldElem).  Returns
`none` when the field carries no annotation, and an error when the
annotations are contradictory or unsupported.  Mirrors the priority order
attribute, nested block, flatten, label, with the validity checks of each
branch in source order. -/
def getFieldElem (field : FieldDescriptor) : Except SchemaError (Option FieldElem) :=
  if field.options.attrName ≠ "" then
    if field.options.blockTypeName ≠ "" then
      .error (schemaErrorf field.fullName ("cannot be both attribute " ++ quoteGo field.options.attrName ++ " and nested block type " ++ quoteGo field.options.blockTypeName))
    else if field.options.flatten then
      .error (schemaErrorf field.fullName ("cannot be attribute " ++ quoteGo field.options.attrName ++ " and also flatten into the current body"))
    else if field.options.labelName ≠ "" then
      .error (schemaErrorf field.fullName ("cannot be both attribute " ++ quoteGo field.options.attrName ++ " and block label " ++ quoteGo field.options.labelName))
    else if field.isMap && field.mapKeyKind ≠ FieldKind.string then
      .error (schemaErrorf field.fullName "HCL only supports maps with string keys")
    else if field.options.attrRaw ≠ RawMode.notRaw then
      if field.isList then
        .error (schemaErrorf field.fullName "cannot use raw mode with 'repeated' field")
      else if field.isMap then
        .error (schemaErrorf field.fullName "cannot use raw mode with map field")
      else if field.kind ≠ FieldKind.bytes then
        .error (schemaErrorf field.fullName "raw mode is allowed only for 'bytes' fields")
      else if field.options.attrType = "" then
        .error (schemaErrorf field.fullName "must specify (hcl.attr).type for this raw-mode field")
      else
        .ok (some (.attr ⟨field.options.attrName, field.options.attrRequired, field.options.attrType, field.options.attrRaw, field⟩))
    else if field.kind = FieldKind.bytes then
      .error (schemaErrorf field.fullName "'bytes' fields must have raw mode enabled")
    else
      .ok (some (.attr ⟨field.options.attrName, field.options.attrRequired, field.options.attrType, field.options.attrRaw, field⟩))
  else if field.options.blockTypeName ≠ "" then
    if field.options.flatten then
      .error (schemaErrorf field.fullName ("cannot be nested block type " ++ quoteGo field.options.attrName ++ " and also flatten into the current body"))
    else if field.options.labelName ≠ "" then
      .error (schemaErrorf field.fullName ("cannot be both nested block type " ++ quoteGo field.options.attrName ++ " and block label " ++ quoteGo field.options.labelName))
    else if field.kind ≠ FieldKind.message then
      .error (schemaErrorf field.fullName "field representing nested block must have message type")
    else if field.isMap then
      .error (schemaErrorf field.fullName "field representing nested block must not be a map")
    else
      match field.message with
      | none =>
        .error (schemaErrorf field.fullName "field representing nested block must have message type")
      | some m =>
        if field.isList then
          if resolvedCollectionKind field.options.blockKind ≠ CollectionKind.tuple ∧ resolvedCollectionKind field.options.blockKind ≠ CollectionKind.list ∧ resolvedCollectionKind field.options.blockKind ≠ CollectionKind.set then
            .error (schemaErrorf field.fullName "unsupported collection kind")
          else
            .ok (some (.block ⟨field.options.blockTypeName, m, true, resolvedCollectionKind field.options.blockKind⟩))
        else
          if field.options.blockKind ≠ CollectionKind.auto then
            .error (schemaErrorf field.fullName "only repeated fields can have explicit block collection mode")
          else
            .ok (some (.block ⟨field.options.blockTypeName, m, false, field.options.blockKind⟩))
  else if field.options.flatten then
    if field.options.labelName ≠ "" then
      .error (schemaErrorf field.fullName ("cannot be block label " ++ quoteGo field.options.labelName ++ " and also flatten into the current body"))
    else if field.kind ≠ FieldKind.message then
      .error (schemaErrorf field.fullName "field to be flattened must have message type")
    else if field.isList || field.isMap then
      .error (schemaErrorf field.fullName "field to be flattened must not be 'repeated'")
    else
      match field.message with
      | none =>
        .error (schemaErrorf field.fullName "field to be flattened must have message type")
      | some m => .ok (some (.flattened m))
  else if field.options.labelName ≠ "" then
    .ok (some (.label field.options.labelName))
  else
    .ok none

set_option maxHeartbeats 1600000 in
/-- Resolving a field to an attribute element records the field itself as
the attribute's target. -/
theorem getFieldElem_attr_target {f : FieldDescriptor} {a : FieldAttribute}
    (h : getFieldElem f = .ok (some (.attr a))) : a.targetField = f := by
  unfold getFieldElem at h
  repeat' split at h
  all_goals (try exact (Except.noConfusion h))
  all_goals (injection h with h)
  all_goals (try exact (Option.noConfusion h))
  all_goals (injection h with h)
  all_goals (try exact (FieldElem.noConfusion h))
  all_goals (injection h with h)
  all_goals (cases h; rfl)

set_option maxHeartbeats 1600000 in
/-- Resolving a field to a nested-block element extracts the child
descriptor from the field's own message descriptor. -/
theorem getFieldElem_block_message {f : FieldDescriptor} {b : FieldNestedBlockType}
    (h : getFieldElem f = .ok (some (.block b))) : f.message = some b.nested := by
  unfold getFieldElem at h
  repeat' split at h
  all_goals (try exact (Except.noConfusion h))
  all_goals (injection h with h)
  all_goals (try exact (Option.noConfusion h))
  all_goals (injection h with h)
  all_goals (try exact (FieldElem.noConfusion h))
  all_goals (injection h with h)
  all_goals (cases h; assumption)

set_option maxHeartbeats 1600000 in
/-- Resolving a field to a flatten element extracts the child descriptor
from the field's own message descriptor. -/
theorem getFieldElem_flattened_message {f : FieldDescriptor} {m : MessageDescriptor}
    (h : getFieldElem f = .ok (some (.flattened m))) : f.message = some m := by
  unfold getFieldElem at h
  repeat' split at h
  all_goals (try exact (Except.noConfusion h))
  all_goals (injection h with h)
  all_goals (try exact (Option.noConfusion h))
  all_goals (injection h with h)
  all_goals (try exact (FieldElem.noConfusion h))
  all_goals (injection h with h)
  all_goals (cases h; assumption)

/-- Whether a character can start a protobuf identifier segment
(protoreflect Name validity). -/
def isGoProtoLetter (c : Char) : Bool := c.isAlpha || c = '_'

/-- Whether a character can continue a protobuf identifier segment. -/
def isGoProtoLetterDigit (c : Char) : Bool := isGoProtoLetter c || c.isDigit

/-- Validity of a single protobuf name segment (protoreflect Name.IsValid),
over the segment's characters. -/
def protoNameCharsValid : List Char → Bool
  | [] => false
  | c :: rest => isGoProtoLetter c && rest.all isGoProtoLetterDigit

/-- Splitting of a character list at a separator character, keeping empty
segments, as String.Split does for protobuf full names. -/
def splitOnChar (sep : Char) : List Char → List (List Char)
  | [] => [[]]
  | c :: rest =>
    if c = sep then [] :: splitOnChar sep rest
    else
      match splitOnChar sep rest with
      | [] => [[c]]
      | seg :: segs => (c :: seg) :: segs

/-- Validity of a protobuf fully-qualified name (protoreflect
FullName.IsValid): every period-separated segment is a valid name. -/
def protoFullNameIsValid (s : String) : Bool :=
  (splitOnChar (Char.ofNat 46) s.toList).all protoNameCharsValid

/-- Rendering of a schema error (schemaError.Error).  Faithful to the
source: when the declaration name is non-empty and valid the name is left
out of the message, and the branch that includes the name runs only for an
empty or invalid declaration name. -/
def SchemaError.errorString (e : SchemaError) : String :=
  if e.decl ≠ "" && protoFullNameIsValid e.decl then
    "unsupported protobuf schema: " ++ e.err
  else
    "unsupported protobuf schema in " ++ e.decl ++ ": " ++ e.err

/-- Whether one character list occurs contiguously inside another. -/
def charsInfix (needle : List Char) : List Char → Bool
  | [] => needle.isPrefixOf []
  | c :: rest => needle.isPrefixOf (c :: rest) || charsInfix needle rest

/-- Whether `needle` occurs as a substring of `hay`. -/
def occursIn (needle hay : String) : Bool :=
  charsInfix needle.toList hay.toList

/-- Diagnostic produced from a schema error (schemaError.Diagnostic). -/
def SchemaError.diagnostic (e : SchemaError) : Diagnostic :=
  { severity := .error
    summary := "Invalid configuration schema"
    detail := "Invalid HCL annotations in protobuf schema for " ++ e.decl ++ ": "
      ++ e.err
      ++ ".\n\nThis is a bug in the component that defined this schema, and not an error in the given configuration."
    subject := none
    context := none }

/-- Diagnostic wrapper for errors bubbling out of schema construction
(schemaErrorDiagnostic).  Every error the package routes through it is a
schemaError, so the model keeps only that branch. -/
def schemaErrorDiagnostic (e : SchemaError) : Diagnostic := e.diagnostic

/-- An attribute-value error (type attrValueError): a problem with user
input, wrapping a cty path error.  The wrapped error is kept as its
rendered message string. -/
structure AttrValueError where
  err : String
deriving DecidableEq, Repr

/-- Step-indexed evaluation of attrValueError.Error.  The body of the Go
method is `return err.Error()`, which re-invokes the very same method on
the same receiver; each unfolding therefore consumes one call frame and
performs no other computation, which the fuel parameter makes explicit.
Exhausting any amount of fuel yields no result. -/
def attrValueErrorMessageFuel : Nat → AttrValueError → Option String
  | 0, _ => none
  | n + 1, e => attrValueErrorMessageFuel n e

/-- Schema of a single attribute (hcl.AttributeSchema). -/
structure AttributeSchema where
  name : String
  required : Bool
deriving DecidableEq, Repr

/-- Schema of a block header (hcl.BlockHeaderSchema). -/
structure BlockHeaderSchema where
  type : String
  labelNames : List String
deriving DecidableEq, Repr

/-- A surface body schema (hcl.BodySchema). -/
structure BodySchema where
  attributes : List AttributeSchema
  blocks : List BlockHeaderSchema
deriving DecidableEq, Repr

/-- Attribute schema for a resolved attribute element (attributeSchema). -/
def attributeSchema (elem : FieldAttribute) : AttributeSchema :=
  ⟨elem.name, elem.required⟩

/-- Label names of a nested block type, scanning the child message's
fields in declaration order for block-label annotations and ignoring
resolution errors, which the caller reports (blockTypeSchema). -/
def blockLabelNames : List FieldDescriptor → List String
  | [] => []
  | f :: rest =>
    match getFieldElem f with
    | .ok (some (.label n)) => n :: blockLabelNames rest
    | _ => blockLabelNames rest

/-- Block header schema for a resolved nested-block element
(blockTypeSchema). -/
def blockTypeSchema (elem : FieldNestedBlockType) : BlockHeaderSchema :=
  ⟨elem.typeName, blockLabelNames elem.nested.fields⟩

/-- Accumulator state of schema compilation: the schema lists built so far
together with the three name registries, each mapping a used name to the
fully-qualified name of the declaring field. -/
structure SchemaBuildState where
  attributes : List AttributeSchema
  blocks : List BlockHeaderSchema
  attrs : List (String × String)
  blockTypes : List (String × String)
  blockLabels : List (String × String)
deriving Repr

/-- Lookup in a name registry. -/
def regLookup (m : List (String × String)) (k : String) : Option String :=
  (m.find? (fun p => p.1 == k)).map (fun p => p.2)

/-- Registration of an attribute schema into the state, with the three
conflict checks of the attribute case of bodySchema. -/
def registerAttr (field : FieldDescriptor) (attrS : AttributeSchema)
    (st : SchemaBuildState) : Except SchemaError SchemaBuildState :=
  match regLookup st.attrs attrS.name with
  | some existingName =>
    .error (schemaErrorf field.fullName ("declaration of attribute " ++ quoteGo attrS.name ++ " conflicts with " ++ existingName))
  | none =>
  match regLookup st.blockTypes attrS.name with
  | some existingName =>
    .error (schemaErrorf field.fullName ("declaration of attribute " ++ quoteGo attrS.name ++ " conflicts with block type declared by " ++ existingName))
  | none =>
  match regLookup st.blockLabels attrS.name with
  | some existingName =>
    .error (schemaErrorf field.fullName ("declaration of attribute " ++ quoteGo attrS.name ++ " conflicts with block label name declared by " ++ existingName))
  | none =>
    .ok { st with attributes := st.attributes ++ [attrS],
                  attrs := st.attrs ++ [(attrS.name, field.fullName)] }

/-- Registration of a block header schema into the state, with the three
conflict checks of the nested-block case of bodySchema. -/
def registerBlock (field : FieldDescriptor) (blockS : BlockHeaderSchema)
    (st : SchemaBuildState) : Except SchemaError SchemaBuildState :=
  match regLookup st.attrs blockS.type with
  | some existingName =>
    .error (schemaErrorf field.fullName ("declaration of block type " ++ quoteGo blockS.type ++ " conflicts with attribute declared by " ++ existingName))
  | none =>
  match regLookup st.blockTypes blockS.type with
  | some existingName =>
    .error (schemaErrorf field.fullName ("declaration of block type " ++ quoteGo blockS.type ++ " conflicts with " ++ existingName))
  | none =>
  match regLookup st.blockLabels blockS.type with
  | some existingName =>
    .error (schemaErrorf field.fullName ("declaration of block type " ++ quoteGo blockS.type ++ " conflicts with block label name declared by " ++ existingName))
  | none =>
    .ok { st with blocks := st.blocks ++ [blockS],
                  blockTypes := st.blockTypes ++ [(blockS.type, field.fullName)] }

/-- Registration of a block-label name into the state, with the three
conflict checks of the block-label case of bodySchema; labels are recorded
for conflict detection only and never emitted into the schema. -/
def registerLabel (field : FieldDescriptor) (name : String)
    (st : SchemaBuildState) : Except SchemaError SchemaBuildState :=
  match regLookup st.attrs name with
  | some existingName =>
    .error (schemaErrorf field.fullName ("block label name " ++ quoteGo name ++ " conflicts with attribute declared by " ++ existingName))
  | none =>
  match regLookup st.blockTypes name with
  | some existingName =>
    .error (schemaErrorf field.fullName ("block label name " ++ quoteGo name ++ " conflicts with " ++ existingName))
  | none =>
  match regLookup st.blockLabels name with
  | some existingName =>
    .error (schemaErrorf field.fullName ("block label name " ++ quoteGo name ++ " conflicts " ++ existingName))
  | none =>
    .ok { st with blockLabels := st.blockLabels ++ [(name, field.fullName)] }

/-- Merge of a flattened-in attribute list into the state, one item at a
time with the三 conflict checks of the flatten case of bodySchema. -/
def mergeFlattenedAttrs (field : FieldDescriptor) (items : List AttributeSchema)
    (st : SchemaBuildState) : Except SchemaError SchemaBuildState :=
  match items with
  | [] => .ok st
  | attrS :: rest =>
    match regLookup st.attrs attrS.name with
    | some existingName =>
      .error (schemaErrorf field.fullName ("flattened-in attribute " ++ quoteGo attrS.name ++ " conflicts with " ++ existingName))
    | none =>
    match regLookup st.blockTypes attrS.name with
    | some existingName =>
      .error (schemaErrorf field.fullName ("flattened-in attribute " ++ quoteGo attrS.name ++ " conflicts with block type declared by " ++ existingName))
    | none =>
    match regLookup st.blockLabels attrS.name with
    | some existingName =>
      .error (schemaErrorf field.fullName ("flattened-in attribute " ++ quoteGo attrS.name ++ " conflicts with block label name declared by " ++ existingName))
    | none =>
      mergeFlattenedAttrs field rest
        { st with attributes := st.attributes ++ [attrS],
                  attrs := st.attrs ++ [(attrS.name, field.fullName)] }

/-- Merge of a flattened-in block list into the state, one item at a time
with the three conflict checks of the flatten case of bodySchema. -/
def mergeFlattenedBlocks (field : FieldDescriptor) (items : List BlockHeaderSchema)
    (st : SchemaBuildState) : Except SchemaError SchemaBuildState :=
  match items with
  | [] => .ok st
  | blockS :: rest =>
    match regLookup st.attrs blockS.type with
    | some existingName =>
      .error (schemaErrorf field.fullName ("flattened-in block type " ++ quoteGo blockS.type ++ " conflicts with attribute declared by " ++ existingName))
    | none =>
    match regLookup st.blockTypes blockS.type with
    | some existingName =>
      .error (schemaErrorf field.fullName ("flattened-in block type " ++ quoteGo blockS.type ++ " conflicts with " ++ existingName))
    | none =>
    match regLookup st.blockLabels blockS.type with
    | some existingName =>
      .error (schemaErrorf field.fullName ("flattened-in block type " ++ quoteGo blockS.type ++ " conflicts with block label name declared by " ++ existingName))
    | none =>
      mergeFlattenedBlocks field rest
        { st with blocks := st.blocks ++ [blockS],
                  blockTypes := st.blockTypes ++ [(blockS.type, field.fullName)] }

/-- Proper subterm bound: the field list of a message descriptor is
smaller than the descriptor. -/
theorem sizeOf_fields_lt (desc : MessageDescriptor) :
    sizeOf desc.fields < sizeOf desc := by
  cases desc
  simp [MessageDescriptor.fields]
  omega

/-- Proper subterm bound: the message descriptor carried by a field is
smaller than the field. -/
theorem sizeOf_message_lt {f : FieldDescriptor} {m : MessageDescriptor}
    (h : f.message = some m) : sizeOf m < sizeOf f := by
  cases f
  simp [FieldDescriptor.message] at h
  subst h
  simp
  omega

mutual

/-- Compilation of an HCL body schema from a message descriptor
(bodySchema).  Rejects non-synthetic oneofs, then walks the fields in
declaration order threading the conflict-checking state. -/
def bodySchema (desc : MessageDescriptor) : Except SchemaError BodySchema :=
  match desc.oneofs.find? (fun o => !o.isSynthetic) with
  | some o =>
    .error (schemaErrorf o.fullName "oneof declarations are not yet supported in messages used for HCL decoding")
  | none =>
    match bodySchemaFields desc desc.fields ⟨[], [], [], [], []⟩ with
    | .error e => .error e
    | .ok st => .ok ⟨st.attributes, st.blocks⟩
termination_by sizeOf desc
decreasing_by
  simp_wf
  exact sizeOf_fields_lt desc

/-- The field walk of bodySchema. -/
def bodySchemaFields (desc : MessageDescriptor) (fields : List FieldDescriptor)
    (st : SchemaBuildState) : Except SchemaError SchemaBuildState :=
  match fields with
  | [] => .ok st
  | field :: rest =>
    match hElem : getFieldElem field with
    | .error e => .error e
    | .ok none => bodySchemaFields desc rest st
    | .ok (some (.label name)) =>
      match registerLabel field name st with
      | .error e => .error e
      | .ok st => bodySchemaFields desc rest st
    | .ok (some (.attr a)) =>
      match registerAttr field (attributeSchema a) st with
      | .error e => .error e
      | .ok st => bodySchemaFields desc rest st
    | .ok (some (.block b)) =>
      match registerBlock field (blockTypeSchema b) st with
      | .error e => .error e
      | .ok st => bodySchemaFields desc rest st
    | .ok (some (.flattened child)) =>
      match bodySchema child with
      | .error e =>
        .error (schemaErrorf desc.fullName ("invalid message to flatten: " ++ e.errorString))
      | .ok nest =>
        match mergeFlattenedAttrs field nest.attributes st with
        | .error e => .error e
        | .ok st =>
          match mergeFlattenedBlocks field nest.blocks st with
          | .error e => .error e
          | .ok st => bodySchemaFields desc rest st
termination_by sizeOf fields
decreasing_by
  all_goals simp_wf
  all_goals first
    | omega
    | (have h1 := sizeOf_message_lt (getFieldElem_flattened_message hElem)
       omega)

end

/-- Boolean duplicate-freedom of a name list. -/
def nodupB : List String → Bool
  | [] => true
  | x :: xs => !(xs.contains x) && nodupB xs

/-- Boolean duplicate-freedom agrees with List.Nodup. -/
theorem nodupB_iff (l : List String) : nodupB l = true ↔ l.Nodup := by
  induction l with
  | nil => simp [nodupB]
  | cons x xs ih =>
    simp [nodupB, ih, List.contains, List.elem_eq_mem]

mutual

/-- The attribute schemas that compiling a field list contributes, in
registration order: one per attribute element, and for a flatten element
the attribute schemas of the child, recursively. -/
def fieldsAttrSchemas : List FieldDescriptor → List AttributeSchema
  | [] => []
  | f :: rest =>
    (match h : getFieldElem f with
     | .ok (some (.attr a)) => [attributeSchema a]
     | .ok (some (.flattened child)) => fieldsAttrSchemas child.fields
     | _ => []) ++ fieldsAttrSchemas rest
termination_by fields => sizeOf fields
decreasing_by
  all_goals simp_wf
  all_goals first
    | omega
    | (have h1 := sizeOf_message_lt (getFieldElem_flattened_message h)
       have h2 := sizeOf_fields_lt child
       omega)

/-- The block header schemas that compiling a field list contributes, in
registration order. -/
def fieldsBlockSchemas : List FieldDescriptor → List BlockHeaderSchema
  | [] => []
  | f :: rest =>
    (match h : getFieldElem f with
     | .ok (some (.block b)) => [blockTypeSchema b]
     | .ok (some (.flattened child)) => fieldsBlockSchemas child.fields
     | _ => []) ++ fieldsBlockSchemas rest
termination_by fields => sizeOf fields
decreasing_by
  all_goals simp_wf
  all_goals first
    | omega
    | (have h1 := sizeOf_message_lt (getFieldElem_flattened_message h)
       have h2 := sizeOf_fields_lt child
       omega)

end

/-- The block-label names that compiling a field list registers.  Flatten
children contribute none: the compiler merges only a child's attribute and
block schemas into the parent, never its label registry. -/
def fieldsLabelNames : List FieldDescriptor → List String
  | [] => []
  | f :: rest =>
    (match getFieldElem f with
     | .ok (some (.label n)) => [n]
     | _ => []) ++ fieldsLabelNames rest

/-- All names that compiling a field list registers, in registration
order: attribute names, block type names and label names as each field is
visited, and for a flatten element the child's attribute names followed by
its block type names (the order of the two merge loops). -/
def fieldsRegSeq : List FieldDescriptor → List String
  | [] => []
  | f :: rest =>
    (match getFieldElem f with
     | .ok (some (.attr a)) => [a.name]
     | .ok (some (.block b)) => [b.typeName]
     | .ok (some (.label n)) => [n]
     | .ok (some (.flattened child)) =>
       (fieldsAttrSchemas child.fields).map AttributeSchema.name
         ++ (fieldsBlockSchemas child.fields).map BlockHeaderSchema.type
     | _ => []) ++ fieldsRegSeq rest

mutual

/-- Absence of annotation conflicts in a message descriptor: every oneof
is synthetic, every field's annotations resolve, flatten children are
recursively conflict-free, and the names the compiler would register are
pairwise distinct. -/
def descWellFormed (desc : MessageDescriptor) : Bool :=
  desc.oneofs.all (fun o => o.isSynthetic)
    && fieldsWellFormed desc.fields
    && nodupB (fieldsRegSeq desc.fields)
termination_by sizeOf desc
decreasing_by
  simp_wf
  exact sizeOf_fields_lt desc

/-- Per-field part of descWellFormed. -/
def fieldsWellFormed : List FieldDescriptor → Bool
  | [] => true
  | f :: rest =>
    (match h : getFieldElem f with
     | .error _ => false
     | .ok (some (.flattened child)) => descWellFormed child
     | .ok _ => true) && fieldsWellFormed rest
termination_by fields => sizeOf fields
decreasing_by
  all_goals simp_wf
  all_goals first
    | omega
    | (have h1 := sizeOf_message_lt (getFieldElem_flattened_message h)
       omega)

end

/-- All names held by the registries of a schema-compilation state. -/
def stNames (st : SchemaBuildState) : List String :=
  st.attrs.map Prod.fst ++ st.blockTypes.map Prod.fst ++ st.blockLabels.map Prod.fst

/-- A registry lookup misses exactly when the name is not registered. -/
theorem regLookup_eq_none_iff (m : List (String × String)) (k : String) :
    regLookup m k = none ↔ k ∉ m.map Prod.fst := by
  simp only [regLookup, Option.map_eq_none', List.find?_eq_none, beq_iff_eq, List.mem_map]
  constructor
  · rintro h ⟨a, ha, hk⟩
    exact h a ha hk
  · intro h a ha hk
    exact h ⟨a, ha, hk⟩

/-- Successful attribute registration appends the schema and registers the
name, leaving everything else unchanged. -/
theorem registerAttr_ok_inv {f : FieldDescriptor} {aS : AttributeSchema}
    {st st2 : SchemaBuildState} (h : registerAttr f aS st = .ok st2) :
    st2 = { st with attributes := st.attributes ++ [aS],
                    attrs := st.attrs ++ [(aS.name, f.fullName)] }
      ∧ aS.name ∉ stNames st := by
  unfold registerAttr at h
  repeat' split at h
  all_goals (try exact (Except.noConfusion h))
  injection h with h
  subst h
  refine ⟨rfl, ?_⟩
  simp only [stNames, List.mem_append]
  push_neg
  refine ⟨⟨?_, ?_⟩, ?_⟩
  · exact (regLookup_eq_none_iff _ _).1 (by assumption)
  · exact (regLookup_eq_none_iff _ _).1 (by assumption)
  · exact (regLookup_eq_none_iff _ _).1 (by assumption)

/-- Successful block registration appends the schema and registers the
type name, leaving everything else unchanged. -/
theorem registerBlock_ok_inv {f : FieldDescriptor} {bS : BlockHeaderSchema}
    {st st2 : SchemaBuildState} (h : registerBlock f bS st = .ok st2) :
    st2 = { st with blocks := st.blocks ++ [bS],
                    blockTypes := st.blockTypes ++ [(bS.type, f.fullName)] }
      ∧ bS.type ∉ stNames st := by
  unfold registerBlock at h
  repeat' split at h
  all_goals (try exact (Except.noConfusion h))
  injection h with h
  subst h
  refine ⟨rfl, ?_⟩
  simp only [stNames, List.mem_append]
  push_neg
  refine ⟨⟨?_, ?_⟩, ?_⟩
  · exact (regLookup_eq_none_iff _ _).1 (by assumption)
  · exact (regLookup_eq_none_iff _ _).1 (by assumption)
  · exact (regLookup_eq_none_iff _ _).1 (by assumption)

/-- Successful label registration records the name in the label registry
only. -/
theorem registerLabel_ok_inv {f : FieldDescriptor} {n : String}
    {st st2 : SchemaBuildState} (h : registerLabel f n st = .ok st2) :
    st2 = { st with blockLabels := st.blockLabels ++ [(n, f.fullName)] }
      ∧ n ∉ stNames st := by
  unfold registerLabel at h
  repeat' split at h
  all_goals (try exact (Except.noConfusion h))
  injection h with h
  subst h
  refine ⟨rfl, ?_⟩
  simp only [stNames, List.mem_append]
  push_neg
  refine ⟨⟨?_, ?_⟩, ?_⟩
  · exact (regLookup_eq_none_iff _ _).1 (by assumption)
  · exact (regLookup_eq_none_iff _ _).1 (by assumption)
  · exact (regLookup_eq_none_iff _ _).1 (by assumption)

/-- Attribute registration succeeds whenever the name is unregistered. -/
theorem registerAttr_ok {f : FieldDescriptor} {aS : AttributeSchema}
    {st : SchemaBuildState} (h : aS.name ∉ stNames st) :
    registerAttr f aS st
      = .ok { st with attributes := st.attributes ++ [aS],
                      attrs := st.attrs ++ [(aS.name, f.fullName)] } := by
  simp only [stNames, List.mem_append] at h
  push_neg at h
  have e1 : regLookup st.attrs aS.name = none := (regLookup_eq_none_iff _ _).2 h.1.1
  have e2 : regLookup st.blockTypes aS.name = none := (regLookup_eq_none_iff _ _).2 h.1.2
  have e3 : regLookup st.blockLabels aS.name = none := (regLookup_eq_none_iff _ _).2 h.2
  simp [registerAttr, e1, e2, e3]

/-- Block registration succeeds whenever the type name is unregistered. -/
theorem registerBlock_ok {f : FieldDescriptor} {bS : BlockHeaderSchema}
    {st : SchemaBuildState} (h : bS.type ∉ stNames st) :
    registerBlock f bS st
      = .ok { st with blocks := st.blocks ++ [bS],
                      blockTypes := st.blockTypes ++ [(bS.type, f.fullName)] } := by
  simp only [stNames, List.mem_append] at h
  push_neg at h
  have e1 : regLookup st.attrs bS.type = none := (regLookup_eq_none_iff _ _).2 h.1.1
  have e2 : regLookup st.blockTypes bS.type = none := (regLookup_eq_none_iff _ _).2 h.1.2
  have e3 : regLookup st.blockLabels bS.type = none := (regLookup_eq_none_iff _ _).2 h.2
  simp [registerBlock, e1, e2, e3]

/-- Label registration succeeds whenever the name is unregistered. -/
theorem registerLabel_ok {f : FieldDescriptor} {n : String}
    {st : SchemaBuildState} (h : n ∉ stNames st) :
    registerLabel f n st
      = .ok { st with blockLabels := st.blockLabels ++ [(n, f.fullName)] } := by
  simp only [stNames, List.mem_append] at h
  push_neg at h
  have e1 : regLookup st.attrs n = none := (regLookup_eq_none_iff _ _).2 h.1.1
  have e2 : regLookup st.blockTypes n = none := (regLookup_eq_none_iff _ _).2 h.1.2
  have e3 : regLookup st.blockLabels n = none := (regLookup_eq_none_iff _ _).2 h.2
  simp [registerLabel, e1, e2, e3]

/-- Successful merging of flattened-in attributes appends them all and
registers their names in order. -/
theorem mergeFlattenedAttrs_ok {f : FieldDescriptor} (items : List AttributeSchema)
    (st : SchemaBuildState)
    (hnd : (items.map AttributeSchema.name).Nodup)
    (hdisj : ∀ n ∈ items.map AttributeSchema.name, n ∉ stNames st) :
    mergeFlattenedAttrs f items st
      = .ok { st with attributes := st.attributes ++ items,
                      attrs := st.attrs ++ items.map (fun a => (a.name, f.fullName)) } := by
  induction items generalizing st with
  | nil => simp [mergeFlattenedAttrs]
  | cons aS rest ih =>
    have hmem : aS.name ∉ stNames st := hdisj aS.name (by simp)
    simp only [stNames, List.mem_append] at hmem
    push_neg at hmem
    have e1 : regLookup st.attrs aS.name = none := (regLookup_eq_none_iff _ _).2 hmem.1.1
    have e2 : regLookup st.blockTypes aS.name = none := (regLookup_eq_none_iff _ _).2 hmem.1.2
    have e3 : regLookup st.blockLabels aS.name = none := (regLookup_eq_none_iff _ _).2 hmem.2
    rw [mergeFlattenedAttrs]
    simp only [e1, e2, e3]
    rw [ih]
    · simp
    · simpa using hnd.of_cons
    · intro n hn
      simp only [stNames, List.map_append, List.mem_append, List.map_cons]
      push_neg
      have hnst : n ∉ stNames st := hdisj n (by simp [hn])
      simp only [stNames, List.mem_append] at hnst
      push_neg at hnst
      refine ⟨⟨⟨hnst.1.1, ?_⟩, hnst.1.2⟩, hnst.2⟩
      have : n ≠ aS.name := by
        intro hcontra
        have hh : aS.name ∉ rest.map AttributeSchema.name := (List.nodup_cons.1 hnd).1
        exact hh (hcontra ▸ hn)
      simp [this]

/-- Successful merging of flattened-in blocks appends them all and
registers their type names in order. -/
theorem mergeFlattenedBlocks_ok {f : FieldDescriptor} (items : List BlockHeaderSchema)
    (st : SchemaBuildState)
    (hnd : (items.map BlockHeaderSchema.type).Nodup)
    (hdisj : ∀ n ∈ items.map BlockHeaderSchema.type, n ∉ stNames st) :
    mergeFlattenedBlocks f items st
      = .ok { st with blocks := st.blocks ++ items,
                      blockTypes := st.blockTypes ++ items.map (fun b => (b.type, f.fullName)) } := by
  induction items generalizing st with
  | nil => simp [mergeFlattenedBlocks]
  | cons bS rest ih =>
    have hmem : bS.type ∉ stNames st := hdisj bS.type (by simp)
    simp only [stNames, List.mem_append] at hmem
    push_neg at hmem
    have e1 : regLookup st.attrs bS.type = none := (regLookup_eq_none_iff _ _).2 hmem.1.1
    have e2 : regLookup st.blockTypes bS.type = none := (regLookup_eq_none_iff _ _).2 hmem.1.2
    have e3 : regLookup st.blockLabels bS.type = none := (regLookup_eq_none_iff _ _).2 hmem.2
    rw [mergeFlattenedBlocks]
    simp only [e1, e2, e3]
    rw [ih]
    · simp
    · simpa using hnd.of_cons
    · intro n hn
      simp only [stNames, List.map_append, List.mem_append, List.map_cons]
      push_neg
      have hnst : n ∉ stNames st := hdisj n (by simp [hn])
      simp only [stNames, List.mem_append] at hnst
      push_neg at hnst
      refine ⟨⟨hnst.1.1, ⟨hnst.1.2, ?_⟩⟩, hnst.2⟩
      have : n ≠ bS.type := by
        intro hcontra
        have hh : bS.type ∉ rest.map BlockHeaderSchema.type := (List.nodup_cons.1 hnd).1
        exact hh (hcontra ▸ hn)
      simp [this]

/-- Successful merging of flattened-in attributes, inverted: the state can
only have grown by exactly the merged items. -/
theorem mergeFlattenedAttrs_ok_inv {f : FieldDescriptor} {items : List AttributeSchema}
    {st st2 : SchemaBuildState} (h : mergeFlattenedAttrs f items st = .ok st2) :
    st2.attributes = st.attributes ++ items
      ∧ st2.attrs.map Prod.fst = st.attrs.map Prod.fst ++ items.map AttributeSchema.name
      ∧ st2.blocks = st.blocks ∧ st2.blockTypes = st.blockTypes
      ∧ st2.blockLabels = st.blockLabels := by
  induction items generalizing st with
  | nil =>
    rw [mergeFlattenedAttrs] at h
    injection h with h
    subst h
    simp
  | cons aS rest ih =>
    rw [mergeFlattenedAttrs] at h
    repeat' split at h
    all_goals (try exact (Except.noConfusion h))
    have := ih h
    simpa using this

/-- Successful merging of flattened-in blocks, inverted. -/
theorem mergeFlattenedBlocks_ok_inv {f : FieldDescriptor} {items : List BlockHeaderSchema}
    {st st2 : SchemaBuildState} (h : mergeFlattenedBlocks f items st = .ok st2) :
    st2.blocks = st.blocks ++ items
      ∧ st2.blockTypes.map Prod.fst = st.blockTypes.map Prod.fst ++ items.map BlockHeaderSchema.type
      ∧ st2.attributes = st.attributes ∧ st2.attrs = st.attrs
      ∧ st2.blockLabels = st.blockLabels := by
  induction items generalizing st with
  | nil =>
    rw [mergeFlattenedBlocks] at h
    injection h with h
    subst h
    simp
  | cons bS rest ih =>
    rw [mergeFlattenedBlocks] at h
    repeat' split at h
    all_goals (try exact (Except.noConfusion h))
    have := ih h
    simpa using this

/-- Inserting a fresh name anywhere in a duplicate-free list keeps it
duplicate-free. -/
theorem nodup_insert_fresh {l₁ l₂ : List String} {n : String}
    (h : (l₁ ++ l₂).Nodup) (hn : n ∉ l₁ ++ l₂) : (l₁ ++ n :: l₂).Nodup :=
  List.nodup_middle.2 (List.nodup_cons.2 ⟨by simpa using hn, h⟩)

/-- Successful attribute registration preserves duplicate-freedom of the
registered names. -/
theorem registerAttr_nodup {f : FieldDescriptor} {aS : AttributeSchema}
    {st st2 : SchemaBuildState} (h : registerAttr f aS st = .ok st2)
    (hnd : (stNames st).Nodup) : (stNames st2).Nodup := by
  obtain ⟨hst, hmem⟩ := registerAttr_ok_inv h
  subst hst
  simp only [stNames, List.map_append] at hnd hmem ⊢
  simp only [List.append_assoc] at hnd hmem ⊢
  simpa using @nodup_insert_fresh (st.attrs.map Prod.fst)
    (st.blockTypes.map Prod.fst ++ st.blockLabels.map Prod.fst) _ hnd hmem

/-- Successful block registration preserves duplicate-freedom of the
registered names. -/
theorem registerBlock_nodup {f : FieldDescriptor} {bS : BlockHeaderSchema}
    {st st2 : SchemaBuildState} (h : registerBlock f bS st = .ok st2)
    (hnd : (stNames st).Nodup) : (stNames st2).Nodup := by
  obtain ⟨hst, hmem⟩ := registerBlock_ok_inv h
  subst hst
  simp only [stNames, List.map_append] at hnd hmem ⊢
  simp only [List.append_assoc] at hnd hmem ⊢
  have h2 : ((st.attrs.map Prod.fst ++ st.blockTypes.map Prod.fst)
      ++ st.blockLabels.map Prod.fst).Nodup := by simpa [List.append_assoc] using hnd
  have m2 : bS.type ∉ (st.attrs.map Prod.fst ++ st.blockTypes.map Prod.fst)
      ++ st.blockLabels.map Prod.fst := by simpa [List.append_assoc] using hmem
  have := @nodup_insert_fresh (st.attrs.map Prod.fst ++ st.blockTypes.map Prod.fst)
    (st.blockLabels.map Prod.fst) _ h2 m2
  simpa [List.append_assoc] using this

/-- Successful label registration preserves duplicate-freedom of the
registered names. -/
theorem registerLabel_nodup {f : FieldDescriptor} {n : String}
    {st st2 : SchemaBuildState} (h : registerLabel f n st = .ok st2)
    (hnd : (stNames st).Nodup) : (stNames st2).Nodup := by
  obtain ⟨hst, hmem⟩ := registerLabel_ok_inv h
  subst hst
  simp only [stNames, List.map_append] at hnd hmem ⊢
  simp only [List.append_assoc] at hnd hmem ⊢
  have h2 : ((st.attrs.map Prod.fst ++ (st.blockTypes.map Prod.fst
      ++ st.blockLabels.map Prod.fst)) ++ []).Nodup := by simpa using hnd
  have m2 : n ∉ (st.attrs.map Prod.fst ++ (st.blockTypes.map Prod.fst
      ++ st.blockLabels.map Prod.fst)) ++ [] := by simpa using hmem
  have := @nodup_insert_fresh _ [] _ h2 m2
  simpa [List.append_assoc] using this

/-- Successful flattened-attribute merging preserves duplicate-freedom of
the registered names. -/
theorem mergeFlattenedAttrs_nodup {f : FieldDescriptor} {items : List AttributeSchema}
    {st st2 : SchemaBuildState} (h : mergeFlattenedAttrs f items st = .ok st2)
    (hnd : (stNames st).Nodup) : (stNames st2).Nodup := by
  induction items generalizing st with
  | nil =>
    rw [mergeFlattenedAttrs] at h
    injection h with h
    subst h
    exact hnd
  | cons aS rest ih =>
    rw [mergeFlattenedAttrs] at h
    repeat' split at h
    all_goals (try exact (Except.noConfusion h))
    refine ih h ?_
    have hmem : aS.name ∉ stNames st := by
      simp only [stNames, List.mem_append]
      push_neg
      refine ⟨⟨?_, ?_⟩, ?_⟩
      · exact (regLookup_eq_none_iff _ _).1 (by assumption)
      · exact (regLookup_eq_none_iff _ _).1 (by assumption)
      · exact (regLookup_eq_none_iff _ _).1 (by assumption)
    simp only [stNames, List.map_append] at hnd hmem ⊢
    simp only [List.append_assoc] at hnd hmem ⊢
    simpa using @nodup_insert_fresh (st.attrs.map Prod.fst)
      (st.blockTypes.map Prod.fst ++ st.blockLabels.map Prod.fst) _ hnd hmem

/-- Successful flattened-block merging preserves duplicate-freedom of the
registered names. -/
theorem mergeFlattenedBlocks_nodup {f : FieldDescriptor} {items : List BlockHeaderSchema}
    {st st2 : SchemaBuildState} (h : mergeFlattenedBlocks f items st = .ok st2)
    (hnd : (stNames st).Nodup) : (stNames st2).Nodup := by
  induction items generalizing st with
  | nil =>
    rw [mergeFlattenedBlocks] at h
    injection h with h
    subst h
    exact hnd
  | cons bS rest ih =>
    rw [mergeFlattenedBlocks] at h
    repeat' split at h
    all_goals (try exact (Except.noConfusion h))
    refine ih h ?_
    have hmem : bS.type ∉ stNames st := by
      simp only [stNames, List.mem_append]
      push_neg
      refine ⟨⟨?_, ?_⟩, ?_⟩
      · exact (regLookup_eq_none_iff _ _).1 (by assumption)
      · exact (regLookup_eq_none_iff _ _).1 (by assumption)
      · exact (regLookup_eq_none_iff _ _).1 (by assumption)
    simp only [stNames, List.map_append] at hnd hmem ⊢
    simp only [List.append_assoc] at hnd hmem ⊢
    have h2 : ((st.attrs.map Prod.fst ++ st.blockTypes.map Prod.fst)
        ++ st.blockLabels.map Prod.fst).Nodup := by simpa [List.append_assoc] using hnd
    have m2 : bS.type ∉ (st.attrs.map Prod.fst ++ st.blockTypes.map Prod.fst)
        ++ st.blockLabels.map Prod.fst := by simpa [List.append_assoc] using hmem
    have := @nodup_insert_fresh (st.attrs.map Prod.fst ++ st.blockTypes.map Prod.fst)
      (st.blockLabels.map Prod.fst) _ h2 m2
    simpa [List.append_assoc] using this

/-- Reduction of the attribute contributions at an attribute field. -/
theorem fieldsAttrSchemas_cons_attr {f : FieldDescriptor} {a : FieldAttribute}
    (hf : getFieldElem f = .ok (some (.attr a))) (rest : List FieldDescriptor) :
    fieldsAttrSchemas (f :: rest) = attributeSchema a :: fieldsAttrSchemas rest := by
  rw [fieldsAttrSchemas]
  split <;> simp_all

/-- Reduction of the attribute contributions at a flatten field. -/
theorem fieldsAttrSchemas_cons_flattened {f : FieldDescriptor} {child : MessageDescriptor}
    (hf : getFieldElem f = .ok (some (.flattened child))) (rest : List FieldDescriptor) :
    fieldsAttrSchemas (f :: rest) = fieldsAttrSchemas child.fields ++ fieldsAttrSchemas rest := by
  rw [fieldsAttrSchemas]
  split <;> simp_all

/-- Reduction of the attribute contributions at a nested-block field. -/
theorem fieldsAttrSchemas_cons_block {f : FieldDescriptor} {b : FieldNestedBlockType}
    (hf : getFieldElem f = .ok (some (.block b))) (rest : List FieldDescriptor) :
    fieldsAttrSchemas (f :: rest) = fieldsAttrSchemas rest := by
  rw [fieldsAttrSchemas]
  split <;> simp_all

/-- Reduction of the attribute contributions at a block-label field. -/
theorem fieldsAttrSchemas_cons_label {f : FieldDescriptor} {n : String}
    (hf : getFieldElem f = .ok (some (.label n))) (rest : List FieldDescriptor) :
    fieldsAttrSchemas (f :: rest) = fieldsAttrSchemas rest := by
  rw [fieldsAttrSchemas]
  split <;> simp_all

/-- Reduction of the attribute contributions at an unannotated field. -/
theorem fieldsAttrSchemas_cons_none {f : FieldDescriptor}
    (hf : getFieldElem f = .ok none) (rest : List FieldDescriptor) :
    fieldsAttrSchemas (f :: rest) = fieldsAttrSchemas rest := by
  rw [fieldsAttrSchemas]
  split <;> simp_all

/-- Reduction of the block contributions at a nested-block field. -/
theorem fieldsBlockSchemas_cons_block {f : FieldDescriptor} {b : FieldNestedBlockType}
    (hf : getFieldElem f = .ok (some (.block b))) (rest : List FieldDescriptor) :
    fieldsBlockSchemas (f :: rest) = blockTypeSchema b :: fieldsBlockSchemas rest := by
  rw [fieldsBlockSchemas]
  split <;> simp_all

/-- Reduction of the block contributions at a flatten field. -/
theorem fieldsBlockSchemas_cons_flattened {f : FieldDescriptor} {child : MessageDescriptor}
    (hf : getFieldElem f = .ok (some (.flattened child))) (rest : List FieldDescriptor) :
    fieldsBlockSchemas (f :: rest) = fieldsBlockSchemas child.fields ++ fieldsBlockSchemas rest := by
  rw [fieldsBlockSchemas]
  split <;> simp_all

/-- Reduction of the block contributions at an attribute field. -/
theorem fieldsBlockSchemas_cons_attr {f : FieldDescriptor} {a : FieldAttribute}
    (hf : getFieldElem f = .ok (some (.attr a))) (rest : List FieldDescriptor) :
    fieldsBlockSchemas (f :: rest) = fieldsBlockSchemas rest := by
  rw [fieldsBlockSchemas]
  split <;> simp_all

/-- Reduction of the block contributions at a block-label field. -/
theorem fieldsBlockSchemas_cons_label {f : FieldDescriptor} {n : String}
    (hf : getFieldElem f = .ok (some (.label n))) (rest : List FieldDescriptor) :
    fieldsBlockSchemas (f :: rest) = fieldsBlockSchemas rest := by
  rw [fieldsBlockSchemas]
  split <;> simp_all

/-- Reduction of the block contributions at an unannotated field. -/
theorem fieldsBlockSchemas_cons_none {f : FieldDescriptor}
    (hf : getFieldElem f = .ok none) (rest : List FieldDescriptor) :
    fieldsBlockSchemas (f :: rest) = fieldsBlockSchemas rest := by
  rw [fieldsBlockSchemas]
  split <;> simp_all

/-- Characterization of successful schema compilation and of the field
walk, proved together by strong induction on descriptor size.  The first
clause: a compiled schema consists exactly of the fields' contributions
and its attribute names, block type names, and label names are pairwise
distinct.  The second clause: a successful field walk grows the state by
exactly the fields' contributions and preserves duplicate-freedom of the
registered names. -/
theorem schemaCharAll (n : Nat) :
    (∀ (desc : MessageDescriptor) (s : BodySchema), sizeOf desc < n →
      bodySchema desc = .ok s →
      s.attributes = fieldsAttrSchemas desc.fields
        ∧ s.blocks = fieldsBlockSchemas desc.fields
        ∧ ((s.attributes.map AttributeSchema.name)
            ++ (s.blocks.map BlockHeaderSchema.type)
            ++ fieldsLabelNames desc.fields).Nodup)
    ∧ (∀ (desc : MessageDescriptor) (fields : List FieldDescriptor)
        (st st' : SchemaBuildState), sizeOf fields < n →
      bodySchemaFields desc fields st = .ok st' →
      st'.attributes = st.attributes ++ fieldsAttrSchemas fields
        ∧ st'.blocks = st.blocks ++ fieldsBlockSchemas fields
        ∧ st'.attrs.map Prod.fst
            = st.attrs.map Prod.fst ++ (fieldsAttrSchemas fields).map AttributeSchema.name
        ∧ st'.blockTypes.map Prod.fst
            = st.blockTypes.map Prod.fst ++ (fieldsBlockSchemas fields).map BlockHeaderSchema.type
        ∧ st'.blockLabels.map Prod.fst
            = st.blockLabels.map Prod.fst ++ fieldsLabelNames fields
        ∧ ((stNames st).Nodup → (stNames st').Nodup)) := by
  induction n using Nat.strong_induction_on with
  | _ n ih =>
  constructor
  · intro desc s hn h
    rw [bodySchema] at h
    split at h
    · exact (Except.noConfusion h)
    · split at h
      · exact (Except.noConfusion h)
      · rename_i st hst
        injection h with h
        subst h
        have hflt := sizeOf_fields_lt desc
        obtain ⟨h1, h2, h3, h4, h5, h6⟩ :=
          (ih (sizeOf desc) hn).2 desc desc.fields _ st hflt hst
        have hnd : (stNames st).Nodup := h6 (by simp [stNames])
        simp only [stNames] at hnd
        have g1 : st.attributes = fieldsAttrSchemas desc.fields := by simpa using h1
        have g2 : st.blocks = fieldsBlockSchemas desc.fields := by simpa using h2
        refine ⟨g1, g2, ?_⟩
        have e3 : st.attrs.map Prod.fst
            = (fieldsAttrSchemas desc.fields).map AttributeSchema.name := by simpa using h3
        have e4 : st.blockTypes.map Prod.fst
            = (fieldsBlockSchemas desc.fields).map BlockHeaderSchema.type := by simpa using h4
        have e5 : st.blockLabels.map Prod.fst = fieldsLabelNames desc.fields := by simpa using h5
        rw [e3, e4, e5] at hnd
        rw [g1, g2]
        simpa [List.append_assoc] using hnd
  · intro desc fields st st' hn h
    cases fields with
    | nil =>
      rw [bodySchemaFields] at h
      injection h with h
      subst h
      simp [fieldsAttrSchemas, fieldsBlockSchemas, fieldsLabelNames]
    | cons f rest =>
      have hrest : sizeOf rest < sizeOf (f :: rest) := by
        simp only [List.cons.sizeOf_spec]
        omega
      rw [bodySchemaFields] at h
      split at h
      case _ heq => exact (Except.noConfusion h)
      case _ heq =>
        obtain ⟨h1, h2, h3, h4, h5, h6⟩ :=
          (ih (sizeOf (f :: rest)) hn).2 desc rest _ st' hrest h
        rw [fieldsAttrSchemas_cons_none heq, fieldsBlockSchemas_cons_none heq]
        simp only [fieldsLabelNames, heq]
        exact ⟨h1, h2, h3, h4, by simpa using h5, h6⟩
      case _ heq =>
        split at h
        · exact (Except.noConfusion h)
        rename_i nm st2 hreg
        obtain ⟨h1, h2, h3, h4, h5, h6⟩ :=
          (ih (sizeOf (f :: rest)) hn).2 desc rest _ st' hrest h
        obtain ⟨hst2, _⟩ := registerLabel_ok_inv hreg
        subst hst2
        rw [fieldsAttrSchemas_cons_label heq, fieldsBlockSchemas_cons_label heq]
        simp only [fieldsLabelNames, heq]
        refine ⟨by simpa using h1, by simpa using h2, by simpa using h3,
          by simpa using h4, by simpa [List.append_assoc] using h5, ?_⟩
        intro hnd
        exact h6 (registerLabel_nodup hreg hnd)
      case _ heq =>
        split at h
        · exact (Except.noConfusion h)
        rename_i a st2 hreg
        obtain ⟨h1, h2, h3, h4, h5, h6⟩ :=
          (ih (sizeOf (f :: rest)) hn).2 desc rest _ st' hrest h
        obtain ⟨hst2, _⟩ := registerAttr_ok_inv hreg
        subst hst2
        rw [fieldsAttrSchemas_cons_attr heq, fieldsBlockSchemas_cons_attr heq]
        simp only [fieldsLabelNames, heq]
        refine ⟨by simpa [List.append_assoc] using h1, by simpa using h2,
          by simpa [List.append_assoc] using h3, by simpa using h4,
          by simpa using h5, ?_⟩
        intro hnd
        exact h6 (registerAttr_nodup hreg hnd)
      case _ heq =>
        split at h
        · exact (Except.noConfusion h)
        rename_i b st2 hreg
        obtain ⟨h1, h2, h3, h4, h5, h6⟩ :=
          (ih (sizeOf (f :: rest)) hn).2 desc rest _ st' hrest h
        obtain ⟨hst2, _⟩ := registerBlock_ok_inv hreg
        subst hst2
        rw [fieldsAttrSchemas_cons_block heq, fieldsBlockSchemas_cons_block heq]
        simp only [fieldsLabelNames, heq]
        refine ⟨by simpa using h1, by simpa [List.append_assoc] using h2,
          by simpa using h3, by simpa [List.append_assoc] using h4,
          by simpa using h5, ?_⟩
        intro hnd
        exact h6 (registerBlock_nodup hreg hnd)
      case _ child heq =>
        split at h
        case _ hchild => exact (Except.noConfusion h)
        case _ nest hchild =>
          split at h
          · exact (Except.noConfusion h)
          rename_i stA hma
          split at h
          · exact (Except.noConfusion h)
          rename_i stB hmb
          have hsz : sizeOf child < sizeOf (f :: rest) := by
            have hh := sizeOf_message_lt (getFieldElem_flattened_message heq)
            have hf : sizeOf f < sizeOf (f :: rest) := by
              simp only [List.cons.sizeOf_spec]
              omega
            omega
          obtain ⟨hcc1, hcc2, _⟩ :=
            (ih (sizeOf (f :: rest)) hn).1 child nest hsz hchild
          have hA := mergeFlattenedAttrs_ok_inv hma
          have hB := mergeFlattenedBlocks_ok_inv hmb
          obtain ⟨h1, h2, h3, h4, h5, h6⟩ :=
            (ih (sizeOf (f :: rest)) hn).2 desc rest _ st' hrest h
          rw [fieldsAttrSchemas_cons_flattened heq, fieldsBlockSchemas_cons_flattened heq]
          simp only [fieldsLabelNames, heq]
          refine ⟨?_, ?_, ?_, ?_, ?_, ?_⟩
          · rw [h1, hB.2.2.1, hA.1, hcc1]
            simp [List.append_assoc]
          · rw [h2, hB.1, hA.2.2.1, hcc2]
            simp [List.append_assoc]
          · rw [h3, hB.2.2.2.1, hA.2.1, hcc1]
            simp [List.append_assoc]
          · rw [h4, hB.2.1]
            rw [show stA.blockTypes = st.blockTypes from hA.2.2.2.1, hcc2]
            simp [List.append_assoc]
          · rw [h5, hB.2.2.2.2, hA.2.2.2.2]
            simp [List.append_assoc]
          · intro hnd
            exact h6 (mergeFlattenedBlocks_nodup hmb (mergeFlattenedAttrs_nodup hma hnd))

/-- Characterization of a successful schema compilation (instantiation of
schemaCharAll). -/
theorem bodySchema_char {desc : MessageDescriptor} {s : BodySchema}
    (h : bodySchema desc = .ok s) :
    s.attributes = fieldsAttrSchemas desc.fields
      ∧ s.blocks = fieldsBlockSchemas desc.fields
      ∧ ((s.attributes.map AttributeSchema.name)
          ++ (s.blocks.map BlockHeaderSchema.type)
          ++ fieldsLabelNames desc.fields).Nodup :=
  (schemaCharAll (sizeOf desc + 1)).1 desc s (Nat.lt_succ_self _) h

/-- Characterization of a successful field walk (instantiation of
schemaCharAll). -/
theorem bodySchemaFields_char {desc : MessageDescriptor} {fields : List FieldDescriptor}
    {st st' : SchemaBuildState} (h : bodySchemaFields desc fields st = .ok st') :
    st'.attributes = st.attributes ++ fieldsAttrSchemas fields
      ∧ st'.blocks = st.blocks ++ fieldsBlockSchemas fields
      ∧ st'.attrs.map Prod.fst
          = st.attrs.map Prod.fst ++ (fieldsAttrSchemas fields).map AttributeSchema.name
      ∧ st'.blockTypes.map Prod.fst
          = st.blockTypes.map Prod.fst ++ (fieldsBlockSchemas fields).map BlockHeaderSchema.type
      ∧ st'.blockLabels.map Prod.fst
          = st.blockLabels.map Prod.fst ++ fieldsLabelNames fields
      ∧ ((stNames st).Nodup → (stNames st').Nodup) :=
  (schemaCharAll (sizeOf fields + 1)).2 desc fields st st' (Nat.lt_succ_self _) h

/-- Reduction of the field walk at a resolution error. -/
theorem bodySchemaFields_cons_error {desc : MessageDescriptor} {f : FieldDescriptor}
    {e : SchemaError} (heq : getFieldElem f = .error e)
    (rest : List FieldDescriptor) (st : SchemaBuildState) :
    bodySchemaFields desc (f :: rest) st = .error e := by
  rw [bodySchemaFields]
  split <;> simp_all

/-- Reduction of the field walk at an unannotated field. -/
theorem bodySchemaFields_cons_none {desc : MessageDescriptor} {f : FieldDescriptor}
    (heq : getFieldElem f = .ok none)
    (rest : List FieldDescriptor) (st : SchemaBuildState) :
    bodySchemaFields desc (f :: rest) st = bodySchemaFields desc rest st := by
  rw [bodySchemaFields]
  split <;> simp_all

/-- Reduction of the field walk at a block-label field. -/
theorem bodySchemaFields_cons_label {desc : MessageDescriptor} {f : FieldDescriptor}
    {n : String} (heq : getFieldElem f = .ok (some (.label n)))
    (rest : List FieldDescriptor) (st : SchemaBuildState) :
    bodySchemaFields desc (f :: rest) st
      = match registerLabel f n st with
        | .error e => .error e
        | .ok st2 => bodySchemaFields desc rest st2 := by
  rw [bodySchemaFields]
  split <;> simp_all

/-- Reduction of the field walk at an attribute field. -/
theorem bodySchemaFields_cons_attr {desc : MessageDescriptor} {f : FieldDescriptor}
    {a : FieldAttribute} (heq : getFieldElem f = .ok (some (.attr a)))
    (rest : List FieldDescriptor) (st : SchemaBuildState) :
    bodySchemaFields desc (f :: rest) st
      = match registerAttr f (attributeSchema a) st with
        | .error e => .error e
        | .ok st2 => bodySchemaFields desc rest st2 := by
  rw [bodySchemaFields]
  split <;> simp_all

/-- Reduction of the field walk at a nested-block field. -/
theorem bodySchemaFields_cons_block {desc : MessageDescriptor} {f : FieldDescriptor}
    {b : FieldNestedBlockType} (heq : getFieldElem f = .ok (some (.block b)))
    (rest : List FieldDescriptor) (st : SchemaBuildState) :
    bodySchemaFields desc (f :: rest) st
      = match registerBlock f (blockTypeSchema b) st with
        | .error e => .error e
        | .ok st2 => bodySchemaFields desc rest st2 := by
  rw [bodySchemaFields]
  split <;> simp_all

/-- Reduction of the field walk at a flatten field. -/
theorem bodySchemaFields_cons_flattened {desc : MessageDescriptor} {f : FieldDescriptor}
    {child : MessageDescriptor} (heq : getFieldElem f = .ok (some (.flattened child)))
    (rest : List FieldDescriptor) (st : SchemaBuildState) :
    bodySchemaFields desc (f :: rest) st
      = match bodySchema child with
        | .error e =>
          .error (schemaErrorf desc.fullName ("invalid message to flatten: " ++ e.errorString))
        | .ok nest =>
          match mergeFlattenedAttrs f nest.attributes st with
          | .error e => .error e
          | .ok stA =>
            match mergeFlattenedBlocks f nest.blocks stA with
            | .error e => .error e
            | .ok stB => bodySchemaFields desc rest stB := by
  rw [bodySchemaFields]
  split <;> simp_all

/-- Reduction of well-formedness at a resolution error. -/
theorem fieldsWellFormed_cons_error {f : FieldDescriptor} {e : SchemaError}
    (heq : getFieldElem f = .error e) (rest : List FieldDescriptor) :
    fieldsWellFormed (f :: rest) = false := by
  rw [fieldsWellFormed]
  split <;> simp_all

/-- Reduction of well-formedness at an unannotated field. -/
theorem fieldsWellFormed_cons_none {f : FieldDescriptor}
    (heq : getFieldElem f = .ok none) (rest : List FieldDescriptor) :
    fieldsWellFormed (f :: rest) = fieldsWellFormed rest := by
  rw [fieldsWellFormed]
  split <;> simp_all

/-- Reduction of well-formedness at a block-label field. -/
theorem fieldsWellFormed_cons_label {f : FieldDescriptor} {n : String}
    (heq : getFieldElem f = .ok (some (.label n))) (rest : List FieldDescriptor) :
    fieldsWellFormed (f :: rest) = fieldsWellFormed rest := by
  rw [fieldsWellFormed]
  split <;> simp_all

/-- Reduction of well-formedness at an attribute field. -/
theorem fieldsWellFormed_cons_attr {f : FieldDescriptor} {a : FieldAttribute}
    (heq : getFieldElem f = .ok (some (.attr a))) (rest : List FieldDescriptor) :
    fieldsWellFormed (f :: rest) = fieldsWellFormed rest := by
  rw [fieldsWellFormed]
  split <;> simp_all

/-- Reduction of well-formedness at a nested-block field. -/
theorem fieldsWellFormed_cons_block {f : FieldDescriptor} {b : FieldNestedBlockType}
    (heq : getFieldElem f = .ok (some (.block b))) (rest : List FieldDescriptor) :
    fieldsWellFormed (f :: rest) = fieldsWellFormed rest := by
  rw [fieldsWellFormed]
  split <;> simp_all

/-- Reduction of well-formedness at a flatten field. -/
theorem fieldsWellFormed_cons_flattened {f : FieldDescriptor} {child : MessageDescriptor}
    (heq : getFieldElem f = .ok (some (.flattened child))) (rest : List FieldDescriptor) :
    fieldsWellFormed (f :: rest) = (descWellFormed child && fieldsWellFormed rest) := by
  rw [fieldsWellFormed]
  split <;> simp_all

/-- Duplicate-freedom transfers along equality of underlying multisets. -/
theorem nodup_of_multiset_eq {l1 l2 : List String}
    (e : (↑l1 : Multiset String) = ↑l2) (h : l1.Nodup) : l2.Nodup := by
  rw [← Multiset.coe_nodup] at h ⊢
  rwa [e] at h

/-- Membership in the middle chunk of a three-part append gives a
duplicate-free chunk. -/
theorem nodup_middle_chunk {pre mid post : List String}
    (h : (pre ++ (mid ++ post)).Nodup) : mid.Nodup :=
  (((List.sublist_append_left mid post).trans
    (List.sublist_append_right pre (mid ++ post))).nodup h)

/-- A name in the middle chunk of a three-part append is absent from the
prefix. -/
theorem nodup_middle_disjoint {pre mid post : List String}
    (h : (pre ++ (mid ++ post)).Nodup) : ∀ n ∈ mid, n ∉ pre := by
  intro n hn hpre
  have hd := (List.nodup_append.1 h).2.2
  exact hd hpre (by simp [hn])

/-- Compilation succeeds on well-formed descriptors: proved together with
the corresponding statement for the field walk by strong induction on
descriptor size. -/
theorem schemaOkAll (n : Nat) :
    (∀ desc : MessageDescriptor, sizeOf desc < n → descWellFormed desc = true →
      ∃ s, bodySchema desc = .ok s)
    ∧ (∀ (desc : MessageDescriptor) (fields : List FieldDescriptor) (st : SchemaBuildState),
      sizeOf fields < n → fieldsWellFormed fields = true →
      (stNames st ++ fieldsRegSeq fields).Nodup →
      ∃ st', bodySchemaFields desc fields st = .ok st') := by
  induction n using Nat.strong_induction_on with
  | _ n ih =>
  constructor
  · intro desc hn hwfd
    rw [descWellFormed] at hwfd
    simp only [Bool.and_eq_true] at hwfd
    obtain ⟨⟨hsyn, hwff⟩, hndb⟩ := hwfd
    have hfind : desc.oneofs.find? (fun o => !o.isSynthetic) = none := by
      apply List.find?_eq_none.2
      intro o ho
      simp only [List.all_eq_true] at hsyn
      simp [hsyn o ho]
    have hflt := sizeOf_fields_lt desc
    obtain ⟨st', hst'⟩ := (ih (sizeOf desc) hn).2 desc desc.fields ⟨[], [], [], [], []⟩
      hflt hwff (by simpa [stNames] using (nodupB_iff _).1 hndb)
    refine ⟨⟨st'.attributes, st'.blocks⟩, ?_⟩
    rw [bodySchema, hfind, hst']
  · intro desc fields st hn hwf hnd
    cases fields with
    | nil => exact ⟨st, by rw [bodySchemaFields]⟩
    | cons f rest =>
      have hrest : sizeOf rest < sizeOf (f :: rest) := by
        simp only [List.cons.sizeOf_spec]
        omega
      cases hE : getFieldElem f with
      | error e =>
        rw [fieldsWellFormed_cons_error hE] at hwf
        exact absurd hwf (by simp)
      | ok oelem =>
        cases oelem with
        | none =>
          rw [fieldsWellFormed_cons_none hE] at hwf
          simp only [fieldsRegSeq, hE, List.nil_append] at hnd
          obtain ⟨st', hok⟩ := (ih (sizeOf (f :: rest)) hn).2 desc rest st hrest hwf hnd
          exact ⟨st', by rw [bodySchemaFields_cons_none hE]; exact hok⟩
        | some elem =>
          cases elem with
          | label nm =>
            rw [fieldsWellFormed_cons_label hE] at hwf
            simp only [fieldsRegSeq, hE] at hnd
            have hnotin : nm ∉ stNames st :=
              @nodup_middle_disjoint _ [nm] _ hnd nm (by simp)
            have hnd2 : (stNames { st with blockLabels := st.blockLabels ++ [(nm, f.fullName)] } ++ fieldsRegSeq rest).Nodup := by
              refine nodup_of_multiset_eq ?_ hnd
              simp only [stNames, List.map_append, List.map_cons, List.map_nil,
                ← Multiset.coe_add]
              abel
            obtain ⟨st', hok⟩ :=
              (ih (sizeOf (f :: rest)) hn).2 desc rest _ hrest hwf hnd2
            refine ⟨st', ?_⟩
            rw [bodySchemaFields_cons_label hE, registerLabel_ok hnotin]
            exact hok
          | attr a =>
            rw [fieldsWellFormed_cons_attr hE] at hwf
            simp only [fieldsRegSeq, hE] at hnd
            have hnotin : (attributeSchema a).name ∉ stNames st :=
              @nodup_middle_disjoint _ [a.name] _ hnd a.name (by simp)
            have hnd2 : (stNames { st with attributes := st.attributes ++ [attributeSchema a], attrs := st.attrs ++ [((attributeSchema a).name, f.fullName)] } ++ fieldsRegSeq rest).Nodup := by
              refine nodup_of_multiset_eq ?_ hnd
              simp only [stNames, attributeSchema, List.map_append, List.map_cons, List.map_nil,
                ← Multiset.coe_add]
              abel
            obtain ⟨st', hok⟩ :=
              (ih (sizeOf (f :: rest)) hn).2 desc rest _ hrest hwf hnd2
            refine ⟨st', ?_⟩
            rw [bodySchemaFields_cons_attr hE, registerAttr_ok hnotin]
            exact hok
          | block b =>
            rw [fieldsWellFormed_cons_block hE] at hwf
            simp only [fieldsRegSeq, hE] at hnd
            have hnotin : (blockTypeSchema b).type ∉ stNames st :=
              @nodup_middle_disjoint _ [b.typeName] _ hnd b.typeName (by simp)
            have hnd2 : (stNames { st with blocks := st.blocks ++ [blockTypeSchema b], blockTypes := st.blockTypes ++ [((blockTypeSchema b).type, f.fullName)] } ++ fieldsRegSeq rest).Nodup := by
              refine nodup_of_multiset_eq ?_ hnd
              simp only [stNames, blockTypeSchema, List.map_append, List.map_cons, List.map_nil,
                ← Multiset.coe_add]
              abel
            obtain ⟨st', hok⟩ :=
              (ih (sizeOf (f :: rest)) hn).2 desc rest _ hrest hwf hnd2
            refine ⟨st', ?_⟩
            rw [bodySchemaFields_cons_block hE, registerBlock_ok hnotin]
            exact hok
          | flattened child =>
            rw [fieldsWellFormed_cons_flattened hE] at hwf
            simp only [Bool.and_eq_true] at hwf
            obtain ⟨hcwf, hrwf⟩ := hwf
            have hsz : sizeOf child < sizeOf (f :: rest) := by
              have hh := sizeOf_message_lt (getFieldElem_flattened_message hE)
              have hf2 : sizeOf f < sizeOf (f :: rest) := by
                simp only [List.cons.sizeOf_spec]
                omega
              omega
            obtain ⟨sC, hC⟩ := (ih (sizeOf (f :: rest)) hn).1 child hsz hcwf
            obtain ⟨hc1, hc2, _⟩ := bodySchema_char hC
            simp only [fieldsRegSeq, hE, List.append_assoc] at hnd
            have hndA : ((fieldsAttrSchemas child.fields).map AttributeSchema.name).Nodup :=
              nodup_middle_chunk hnd
            have hdisjA : ∀ m ∈ (fieldsAttrSchemas child.fields).map AttributeSchema.name,
                m ∉ stNames st := nodup_middle_disjoint hnd
            have hmerge1 := @mergeFlattenedAttrs_ok f sC.attributes st
              (by rw [hc1]; exact hndA) (by rw [hc1]; exact hdisjA)
            have hnd' : ((stNames st ++ (fieldsAttrSchemas child.fields).map AttributeSchema.name)
                ++ ((fieldsBlockSchemas child.fields).map BlockHeaderSchema.type
                    ++ fieldsRegSeq rest)).Nodup := by
              simpa [List.append_assoc] using hnd
            have hndB : ((fieldsBlockSchemas child.fields).map BlockHeaderSchema.type).Nodup :=
              nodup_middle_chunk hnd'
            have hdisjB : ∀ m ∈ (fieldsBlockSchemas child.fields).map BlockHeaderSchema.type,
                m ∉ stNames st ++ (fieldsAttrSchemas child.fields).map AttributeSchema.name :=
              nodup_middle_disjoint hnd'
            have hdisjB2 : ∀ m ∈ sC.blocks.map BlockHeaderSchema.type,
                m ∉ stNames { st with attributes := st.attributes ++ sC.attributes, attrs := st.attrs ++ sC.attributes.map (fun a => (a.name, f.fullName)) } := by
              intro m hm hmem
              have hm2 : m ∈ (fieldsBlockSchemas child.fields).map BlockHeaderSchema.type := by
                rw [← hc2]
                exact hm
              refine hdisjB m hm2 ?_
              simp only [stNames, List.map_append, List.mem_append] at hmem ⊢
              rcases hmem with ((h1 | h1) | h1) | h1
              · exact Or.inl (Or.inl (Or.inl h1))
              · refine Or.inr ?_
                rw [← hc1]
                simpa using h1
              · exact Or.inl (Or.inl (Or.inr h1))
              · exact Or.inl (Or.inr h1)
            have hmerge2 := @mergeFlattenedBlocks_ok f sC.blocks _
              (by rw [hc2]; exact hndB) hdisjB2
            have hnd2 : (stNames { st with attributes := (st.attributes ++ sC.attributes), blocks := st.blocks ++ sC.blocks, attrs := st.attrs ++ sC.attributes.map (fun a => (a.name, f.fullName)), blockTypes := st.blockTypes ++ sC.blocks.map (fun b => (b.type, f.fullName)) } ++ fieldsRegSeq rest).Nodup := by
              refine nodup_of_multiset_eq ?_ hnd
              rw [hc1, hc2]
              simp only [stNames, List.map_append, List.map_map, ← Multiset.coe_add]
              have em1 : (fieldsAttrSchemas child.fields).map
                    ((fun p => p.1) ∘ (fun a => (a.name, f.fullName)))
                  = (fieldsAttrSchemas child.fields).map AttributeSchema.name := by
                apply List.map_congr_left
                intro x _
                rfl
              have em2 : (fieldsBlockSchemas child.fields).map
                    ((fun p => p.1) ∘ (fun b => (b.type, f.fullName)))
                  = (fieldsBlockSchemas child.fields).map BlockHeaderSchema.type := by
                apply List.map_congr_left
                intro x _
                rfl
              rw [em1, em2]
              abel
            obtain ⟨st', hok⟩ :=
              (ih (sizeOf (f :: rest)) hn).2 desc rest _ hrest hrwf hnd2
            refine ⟨st', ?_⟩
            rw [bodySchemaFields_cons_flattened hE]
            simp only [hC, hmerge1, hmerge2]
            exact hok

/-- The field walk over an appended list runs the first part and feeds
its state into the second. -/
theorem bodySchemaFields_append (desc : MessageDescriptor)
    (l1 l2 : List FieldDescriptor) (st : SchemaBuildState) :
    bodySchemaFields desc (l1 ++ l2) st
      = match bodySchemaFields desc l1 st with
        | .error e => .error e
        | .ok st1 => bodySchemaFields desc l2 st1 := by
  induction l1 generalizing st with
  | nil =>
    rw [show bodySchemaFields desc [] st = .ok st from by rw [bodySchemaFields]]
    simp
  | cons f rest ih =>
    rw [List.cons_append]
    cases hE : getFieldElem f with
    | error e =>
      rw [bodySchemaFields_cons_error hE, bodySchemaFields_cons_error hE]
    | ok oelem =>
      cases oelem with
      | none =>
        rw [bodySchemaFields_cons_none hE, bodySchemaFields_cons_none hE, ih]
      | some elem =>
        cases elem with
        | label nm =>
          rw [bodySchemaFields_cons_label hE, bodySchemaFields_cons_label hE]
          cases hr : registerLabel f nm st <;> simp [ih]
        | attr a =>
          rw [bodySchemaFields_cons_attr hE, bodySchemaFields_cons_attr hE]
          cases hr : registerAttr f (attributeSchema a) st <;> simp [ih]
        | block b =>
          rw [bodySchemaFields_cons_block hE, bodySchemaFields_cons_block hE]
          cases hr : registerBlock f (blockTypeSchema b) st <;> simp [ih]
        | flattened child =>
          rw [bodySchemaFields_cons_flattened hE, bodySchemaFields_cons_flattened hE]
          cases hr : bodySchema child with
          | error e => simp
          | ok nest =>
            simp only []
            cases hma : mergeFlattenedAttrs f nest.attributes st with
            | error e => simp
            | ok stA =>
              simp only []
              cases hmb : mergeFlattenedBlocks f nest.blocks stA <;> simp [ih]

/-- A successful field walk does not depend on which descriptor is passed
for error attribution. -/
theorem bodySchemaFields_desc_irrel {d1 d2 : MessageDescriptor}
    {fields : List FieldDescriptor} {st st' : SchemaBuildState}
    (h : bodySchemaFields d1 fields st = .ok st') :
    bodySchemaFields d2 fields st = .ok st' := by
  induction fields generalizing st with
  | nil =>
    rw [bodySchemaFields] at h ⊢
    exact h
  | cons f rest ih =>
    cases hE : getFieldElem f with
    | error e =>
      rw [bodySchemaFields_cons_error hE] at h
      exact (Except.noConfusion h)
    | ok oelem =>
      cases oelem with
      | none =>
        rw [bodySchemaFields_cons_none hE] at h ⊢
        exact ih h
      | some elem =>
        cases elem with
        | label nm =>
          rw [bodySchemaFields_cons_label hE] at h ⊢
          cases hr : registerLabel f nm st <;> simp [hr] at h ⊢
          · exact ih h
        | attr a =>
          rw [bodySchemaFields_cons_attr hE] at h ⊢
          cases hr : registerAttr f (attributeSchema a) st <;> simp [hr] at h ⊢
          · exact ih h
        | block b =>
          rw [bodySchemaFields_cons_block hE] at h ⊢
          cases hr : registerBlock f (blockTypeSchema b) st <;> simp [hr] at h ⊢
          · exact ih h
        | flattened child =>
          rw [bodySchemaFields_cons_flattened hE] at h ⊢
          cases hr : bodySchema child with
          | error e => simp [hr] at h
          | ok nest =>
            simp only [hr] at h ⊢
            cases hma : mergeFlattenedAttrs f nest.attributes st with
            | error e => simp [hma] at h
            | ok stA =>
              simp only [hma] at h ⊢
              cases hmb : mergeFlattenedBlocks f nest.blocks stA with
              | error e => simp [hmb] at h
              | ok stB =>
                simp only [hmb] at h ⊢
                exact ih h

/-- C4: (1) every descriptor free of annotation conflicts compiles to a
body schema, and every attribute name, block type name, and block label
name appears exactly once across the union of those three name sets;
(2) flattening is transparent: when a parent consists of its own fields
plus a flatten field whose child schema has no name collisions with the
parent's own schema, the parent's compiled schema is the union
(concatenation) of its own schema and the child's schema. -/
theorem bodySchema_conflictFree_and_flatten_transparent :
    (∀ desc : MessageDescriptor, descWellFormed desc = true →
      ∃ s, bodySchema desc = .ok s ∧
        ((s.attributes.map AttributeSchema.name)
          ++ (s.blocks.map BlockHeaderSchema.type)
          ++ fieldsLabelNames desc.fields).Nodup)
    ∧ (∀ (nm : String) (own : List FieldDescriptor) (oneofs : List OneofDescriptor)
        (ff : FieldDescriptor) (child : MessageDescriptor) (sP sC : BodySchema),
      getFieldElem ff = .ok (some (.flattened child)) →
      bodySchema (.mk nm own oneofs) = .ok sP →
      bodySchema child = .ok sC →
      (∀ x ∈ (sC.attributes.map AttributeSchema.name) ++ (sC.blocks.map BlockHeaderSchema.type),
        x ∉ (sP.attributes.map AttributeSchema.name) ++ (sP.blocks.map BlockHeaderSchema.type)
            ++ fieldsLabelNames own) →
      bodySchema (.mk nm (own ++ [ff]) oneofs)
        = .ok ⟨sP.attributes ++ sC.attributes, sP.blocks ++ sC.blocks⟩) := by
  constructor
  · intro desc hwf
    obtain ⟨s, hs⟩ := (schemaOkAll (sizeOf desc + 1)).1 desc (Nat.lt_succ_self _) hwf
    exact ⟨s, hs, (bodySchema_char hs).2.2⟩
  · intro nm own oneofs ff child sP sC hff hP hC hdisj
    rw [bodySchema] at hP
    split at hP
    · exact (Except.noConfusion hP)
    rename_i hfind
    split at hP
    · exact (Except.noConfusion hP)
    rename_i stP hwalk
    injection hP with hP
    have hsPa : sP.attributes = stP.attributes := by rw [← hP]
    have hsPb : sP.blocks = stP.blocks := by rw [← hP]
    obtain ⟨c1, c2, c3, c4, c5, _⟩ := bodySchemaFields_char hwalk
    simp only [MessageDescriptor.fields] at c1 c2 c3 c4 c5 hwalk
    simp only [MessageDescriptor.oneofs] at hfind
    have e1 : stP.attributes = fieldsAttrSchemas own := by simpa using c1
    have e2 : stP.blocks = fieldsBlockSchemas own := by simpa using c2
    have eA : stP.attrs.map Prod.fst = (fieldsAttrSchemas own).map AttributeSchema.name := by
      simpa using c3
    have eB : stP.blockTypes.map Prod.fst
        = (fieldsBlockSchemas own).map BlockHeaderSchema.type := by simpa using c4
    have eC : stP.blockLabels.map Prod.fst = fieldsLabelNames own := by simpa using c5
    obtain ⟨_, _, d3⟩ := bodySchema_char hC
    have hndA : (sC.attributes.map AttributeSchema.name).Nodup :=
      (d3.of_append_left).of_append_left
    have hndB : (sC.blocks.map BlockHeaderSchema.type).Nodup :=
      (d3.of_append_left).of_append_right
    have hdisjAttrBlock : ∀ x ∈ sC.blocks.map BlockHeaderSchema.type,
        x ∉ sC.attributes.map AttributeSchema.name := by
      intro x hx hax
      exact (List.nodup_append.1 d3.of_append_left).2.2 hax hx
    have hmemP : ∀ x, x ∈ stNames stP ↔
        (x ∈ sP.attributes.map AttributeSchema.name
          ∨ x ∈ sP.blocks.map BlockHeaderSchema.type
          ∨ x ∈ fieldsLabelNames own) := by
      intro x
      simp only [stNames, List.mem_append, eA, eB, eC, hsPa, hsPb, e1, e2]
      tauto
    have hdisjA : ∀ x ∈ sC.attributes.map AttributeSchema.name, x ∉ stNames stP := by
      intro x hx hmem
      have hh := hdisj x (List.mem_append_left _ hx)
      rw [hmemP x] at hmem
      simp only [List.mem_append] at hh
      tauto
    have hmerge1 := @mergeFlattenedAttrs_ok ff sC.attributes stP hndA hdisjA
    have hdisjB : ∀ x ∈ sC.blocks.map BlockHeaderSchema.type,
        x ∉ stNames { stP with attributes := stP.attributes ++ sC.attributes, attrs := stP.attrs ++ sC.attributes.map (fun a => (a.name, ff.fullName)) } := by
      intro x hx hmem
      simp only [stNames, List.map_append, List.mem_append, List.map_map] at hmem
      have hxP := hdisj x (List.mem_append_right _ hx)
      simp only [List.mem_append] at hxP
      rcases hmem with ((h1 | h1) | h1) | h1
      · refine hxP (Or.inl (Or.inl ?_))
        rw [eA] at h1
        rw [hsPa, e1]
        exact h1
      · have hmm : x ∈ sC.attributes.map AttributeSchema.name := by
          simpa using h1
        exact hdisjAttrBlock x hx hmm
      · refine hxP (Or.inl (Or.inr ?_))
        rw [eB] at h1
        rw [hsPb, e2]
        exact h1
      · refine hxP (Or.inr ?_)
        rwa [eC] at h1
    have hmerge2 := @mergeFlattenedBlocks_ok ff sC.blocks _ hndB hdisjB
    have hnil : ∀ (d : MessageDescriptor) (st : SchemaBuildState),
        bodySchemaFields d [] st = .ok st := fun d st => by rw [bodySchemaFields]
    rw [bodySchema]
    simp only [MessageDescriptor.oneofs, MessageDescriptor.fields]
    rw [hfind]
    rw [bodySchemaFields_append]
    rw [bodySchemaFields_desc_irrel hwalk]
    simp only [bodySchemaFields_cons_flattened hff, hC, hmerge1, hmerge2, hnil, hsPa, hsPb]

/-- C8: evaluation of schemaError.Error at a schema error whose
declaration name is the valid fully-qualified field name example.Foo.bar.
Contrary to the claim, the rendered message does not contain the name: the
guard in the source is inverted, so the branch that omits the declaration
runs exactly when the declaration is valid, and the branch that prints it
runs only for an empty or invalid declaration. -/
theorem schemaError_message_omits_valid_decl :
    protoFullNameIsValid "example.Foo.bar" = true ∧
    SchemaError.errorString ⟨"example.Foo.bar", "cannot use raw mode with map field"⟩
      = "unsupported protobuf schema: cannot use raw mode with map field" ∧
    occursIn "example.Foo.bar"
      (SchemaError.errorString ⟨"example.Foo.bar", "cannot use raw mode with map field"⟩)
      = false := by
  refine ⟨by decide, by decide, by decide⟩

/-- C10: rendering an attribute-value error never returns.  The method
body re-invokes itself on the same receiver, so the step-indexed
evaluation yields no result for any amount of fuel: no finite number of
call frames suffices to produce the underlying path error's message. -/
theorem attrValueError_message_never_returns (n : Nat) (e : AttrValueError) :
    attrValueErrorMessageFuel n e = none := by
  induction n with
  | zero => rfl
  | succ k ih => exact ih

/-- Options carrying only an attribute annotation. -/
def sampleAttrOptions (nm : String) : FieldOptions :=
  ⟨some ⟨nm, false, "", .notRaw⟩, none, false, none⟩

/-- A plain string attribute field. -/
def sampleAttrField (fq nm : String) : FieldDescriptor :=
  .mk fq .string false false .bool .bool none (sampleAttrOptions nm)

/-- Child message with a single species attribute. -/
def sampleChildDesc : MessageDescriptor :=
  .mk "test.Child" [sampleAttrField "test.Child.species" "species"] []

/-- A flatten field pointing at the child message. -/
def sampleFlattenField : FieldDescriptor :=
  .mk "test.Root.child" .message false false .bool .bool (some sampleChildDesc)
    ⟨none, none, true, none⟩

/-- The parent's own fields. -/
def sampleParentOwn : List FieldDescriptor :=
  [sampleAttrField "test.Root.name" "name"]

/-- The parent message: one attribute plus a flatten field. -/
def sampleRootDesc : MessageDescriptor :=
  .mk "test.Root" (sampleParentOwn ++ [sampleFlattenField]) []

/-- The field walk of an empty field list returns the state unchanged. -/
theorem bodySchemaFields_nil (desc : MessageDescriptor) (st : SchemaBuildState) :
    bodySchemaFields desc [] st = .ok st := by
  rw [bodySchemaFields]

/-- An empty field list is well-formed. -/
theorem fieldsWellFormed_nil : fieldsWellFormed [] = true := by
  rw [fieldsWellFormed.eq_def]

/-- An empty field list contributes no attribute schemas. -/
theorem fieldsAttrSchemas_nil : fieldsAttrSchemas [] = [] := by
  rw [fieldsAttrSchemas.eq_def]

/-- An empty field list contributes no block schemas. -/
theorem fieldsBlockSchemas_nil : fieldsBlockSchemas [] = [] := by
  rw [fieldsBlockSchemas.eq_def]

/-- Resolution of the sample flatten field. -/
theorem sampleFlattenField_elem : getFieldElem sampleFlattenField
    = .ok (some (.flattened sampleChildDesc)) := rfl

/-- Evaluation of schema compilation on the parent's own fields. -/
theorem bodySchema_sampleParent_eval :
    bodySchema (.mk "test.Root" sampleParentOwn []) = .ok ⟨[⟨"name", false⟩], []⟩ := by
  have hE : getFieldElem (sampleAttrField "test.Root.name" "name")
      = .ok (some (.attr ⟨"name", false, "", .notRaw, sampleAttrField "test.Root.name" "name"⟩)) := rfl
  rw [bodySchema]
  simp only [MessageDescriptor.oneofs, MessageDescriptor.fields, List.find?, sampleParentOwn]
  rw [bodySchemaFields_cons_attr hE]
  simp [registerAttr, regLookup, attributeSchema, bodySchemaFields]

/-- Evaluation of schema compilation on the sample child message. -/
theorem bodySchema_sampleChild_eval :
    bodySchema sampleChildDesc = .ok ⟨[⟨"species", false⟩], []⟩ := by
  have hE2 : getFieldElem (sampleAttrField "test.Child.species" "species")
      = .ok (some (.attr ⟨"species", false, "", .notRaw, sampleAttrField "test.Child.species" "species"⟩)) := rfl
  rw [bodySchema]
  simp only [MessageDescriptor.oneofs, MessageDescriptor.fields, List.find?, sampleChildDesc]
  rw [bodySchemaFields_cons_attr hE2]
  simp [registerAttr, regLookup, attributeSchema, bodySchemaFields]

/-- The sample root descriptor is free of annotation conflicts. -/
theorem sampleRootDesc_wellFormed : descWellFormed sampleRootDesc = true := by
  have hE : getFieldElem (sampleAttrField "test.Root.name" "name")
      = .ok (some (.attr ⟨"name", false, "", .notRaw, sampleAttrField "test.Root.name" "name"⟩)) := rfl
  have hE2 : getFieldElem (sampleAttrField "test.Child.species" "species")
      = .ok (some (.attr ⟨"species", false, "", .notRaw, sampleAttrField "test.Child.species" "species"⟩)) := rfl
  rw [descWellFormed]
  simp only [sampleRootDesc, MessageDescriptor.oneofs, MessageDescriptor.fields, sampleParentOwn,
    List.all_nil, List.cons_append, List.nil_append]
  rw [fieldsWellFormed_cons_attr hE, fieldsWellFormed_cons_flattened sampleFlattenField_elem,
    fieldsWellFormed_nil]
  rw [descWellFormed]
  simp only [sampleChildDesc, MessageDescriptor.oneofs, MessageDescriptor.fields, List.all_nil]
  rw [fieldsWellFormed_cons_attr hE2, fieldsWellFormed_nil]
  simp only [fieldsRegSeq, hE, hE2, sampleFlattenField_elem]
  simp only [sampleChildDesc, MessageDescriptor.fields]
  rw [fieldsAttrSchemas_cons_attr hE2, fieldsAttrSchemas_nil,
    fieldsBlockSchemas_cons_attr hE2, fieldsBlockSchemas_nil]
  simp [nodupB, fieldsRegSeq, attributeSchema]

/-- Witness for C4: the sample root descriptor is conflict-free, compiles,
with pairwise-distinct names, and flattening the sample child into the
parent produces the concatenated schema. -/
theorem bodySchema_conflictFree_and_flatten_transparent_witness :
    (∃ s, bodySchema sampleRootDesc = .ok s
        ∧ ((s.attributes.map AttributeSchema.name)
            ++ (s.blocks.map BlockHeaderSchema.type)
            ++ fieldsLabelNames sampleRootDesc.fields).Nodup)
    ∧ bodySchema (.mk "test.Root" (sampleParentOwn ++ [sampleFlattenField]) [])
        = .ok ⟨[⟨"name", false⟩, ⟨"species", false⟩], []⟩ := by
  constructor
  · exact bodySchema_conflictFree_and_flatten_transparent.1 sampleRootDesc sampleRootDesc_wellFormed
  · have h := bodySchema_conflictFree_and_flatten_transparent.2 "test.Root" sampleParentOwn []
      sampleFlattenField sampleChildDesc ⟨[⟨"name", false⟩], []⟩ ⟨[⟨"species", false⟩], []⟩
      sampleFlattenField_elem bodySchema_sampleParent_eval bodySchema_sampleChild_eval
      (by decide)
    simpa using h

/-- Element type inference for a field, ignoring list-ness and map-ness
(autoTypeConstraintForFieldElement).  `nilType` signals that no inference
is possible and the schema author must specify a type. -/
def autoTypeConstraintForFieldElement (field : FieldDescriptor) : CtyType :=
  match field.kind with
  | .bool => .bool
  | .enum => .string
  | .int32 => .number
  | .sint32 => .number
  | .uint32 => .number
  | .int64 => .number
  | .sint64 => .number
  | .uint64 => .number
  | .sfixed32 => .number
  | .fixed32 => .number
  | .sfixed64 => .number
  | .fixed64 => .number
  | .float => .number
  | .double => .number
  | .string => .string
  | .message => .nilType
  | .bytes => .nilType
  | _ => .nilType

/-- Collection wrapping step of autoTypeConstraintForField. -/
def autoTypeConstraintWrap (field : FieldDescriptor) (ety : CtyType) : CtyType :=
  match ety with
  | .nilType => .nilType
  | _ =>
    if field.isList then
      if ety.hasDynamicTypes then .dynamic else .list ety
    else if field.isMap then
      if ety.hasDynamicTypes then .dynamic else .map ety
    else ety

/-- Automatic type constraint selection for a field when the schema author
did not specify one (autoTypeConstraintForField). -/
def autoTypeConstraintForField (field : FieldDescriptor) : CtyType :=
  autoTypeConstraintWrap field
    (autoTypeConstraintForFieldElement (if field.isMap then field.mapValueField else field))

/-- Modelled from the spec: the embedded type-expression subgrammar parser
(an external collaborator, spec section 2) used for non-empty type
expression strings.  The model recognizes the primitive keywords and the
`any` constraint and reports a parse diagnostic otherwise. -/
def parseTypeConstraintExpr (s : String) : Except (List Diagnostic) CtyType :=
  if s = "any" then .ok .dynamic
  else if s = "string" then .ok .string
  else if s = "number" then .ok .number
  else if s = "bool" then .ok .bool
  else
    .error [⟨.error, "Invalid type specification",
      "The given expression is not a valid type constraint expression.", none, none⟩]

/-- Automatic constraint resolution for an attribute with an empty type
expression (FieldAttribute.autoTypeConstraint): raw-mode attributes must
declare a type, and otherwise the inference must produce a usable type. -/
def FieldAttribute.autoTypeConstraint (fa : FieldAttribute) : Except SchemaError CtyType :=
  if fa.rawMode ≠ RawMode.notRaw then
    .error (schemaErrorf fa.targetField.fullName "must set explicit HCL type constraint for this raw-mode attribute")
  else
    match autoTypeConstraintForField fa.targetField with
    | .nilType =>
      .error (schemaErrorf fa.targetField.fullName "can't infer HCL type constraint for this field; must specify (hcl.attr).type option explicitly")
    | ty => .ok ty

/-- The declared or inferred type constraint of an attribute together with
any diagnostics (FieldAttribute.TypeConstraint).  An empty type-expression
string falls back to inference; a non-empty one is parsed. -/
def FieldAttribute.typeConstraint (fa : FieldAttribute) : CtyType × List Diagnostic :=
  if fa.typeExprString = "" then
    match fa.autoTypeConstraint with
    | .error e => (.dynamic, [schemaErrorDiagnostic e])
    | .ok ty => (ty, [])
  else
    match parseTypeConstraintExpr fa.typeExprString with
    | .error ds => (.dynamic, ds)
    | .ok ty => (ty, [])

/-- Whether a kind is one of the integer or floating kinds (the numeric
case list of the type reconciler). -/
def isNumericKind : FieldKind → Bool
  | .int32 | .sint32 | .sfixed32 | .int64 | .sint64 | .sfixed64
  | .uint32 | .fixed32 | .uint64 | .fixed64 | .float | .double => true
  | _ => false

/-- C7: for a non-raw attribute whose type-expression string is empty, the
inferred constraint is the primitive type determined by the field kind
(bool for bool, number for every integer and floating kind, string for
string and enum); for a repeated field it is list(elem) unless the element
constraint has dynamic parts, in which case dynamic; for a map field it is
map(elem) under the same exception. -/
theorem typeConstraint_empty_expr_inference (fa : FieldAttribute) (f : FieldDescriptor)
    (htf : fa.targetField = f) (hts : fa.typeExprString = "")
    (hraw : fa.rawMode = RawMode.notRaw) :
    (f.isList = false → f.isMap = false → f.kind = .bool →
      fa.typeConstraint = (.bool, []))
    ∧ (f.isList = false → f.isMap = false → isNumericKind f.kind = true →
      fa.typeConstraint = (.number, []))
    ∧ (f.isList = false → f.isMap = false → (f.kind = .string ∨ f.kind = .enum) →
      fa.typeConstraint = (.string, []))
    ∧ (∀ ety, f.isList = true → f.isMap = false →
      autoTypeConstraintForFieldElement f = ety → ety ≠ .nilType →
      fa.typeConstraint = ((if ety.hasDynamicTypes then .dynamic else .list ety), []))
    ∧ (∀ ety, f.isList = false → f.isMap = true →
      autoTypeConstraintForFieldElement f.mapValueField = ety → ety ≠ .nilType →
      fa.typeConstraint = ((if ety.hasDynamicTypes then .dynamic else .map ety), [])) := by
  refine ⟨?_, ?_, ?_, ?_, ?_⟩
  · intro hl hm hk
    simp [FieldAttribute.typeConstraint, hts, FieldAttribute.autoTypeConstraint, hraw,
      autoTypeConstraintForField, autoTypeConstraintWrap, autoTypeConstraintForFieldElement,
      htf, hl, hm, hk]
  · intro hl hm hk
    cases hkk : f.kind <;> simp [hkk, isNumericKind] at hk <;>
      simp [FieldAttribute.typeConstraint, hts, FieldAttribute.autoTypeConstraint, hraw,
        autoTypeConstraintForField, autoTypeConstraintWrap, autoTypeConstraintForFieldElement,
        htf, hl, hm, hkk]
  · intro hl hm hk
    rcases hk with hk | hk <;>
      simp [FieldAttribute.typeConstraint, hts, FieldAttribute.autoTypeConstraint, hraw,
        autoTypeConstraintForField, autoTypeConstraintWrap, autoTypeConstraintForFieldElement,
        htf, hl, hm, hk]
  · intro ety hl hm hety hne
    subst hety
    cases hkk : f.kind <;>
      simp [hkk, autoTypeConstraintForFieldElement] at hne ⊢ <;>
      simp [FieldAttribute.typeConstraint, hts, FieldAttribute.autoTypeConstraint, hraw,
        autoTypeConstraintForField, autoTypeConstraintWrap, autoTypeConstraintForFieldElement,
        htf, hl, hm, hkk, CtyType.hasDynamicTypes]
  · intro ety hl hm hety hne
    subst hety
    cases hkk : f.mapValueField.kind <;>
      simp [hkk, autoTypeConstraintForFieldElement] at hne ⊢ <;>
      simp [FieldAttribute.typeConstraint, hts, FieldAttribute.autoTypeConstraint, hraw,
        autoTypeConstraintForField, autoTypeConstraintWrap, autoTypeConstraintForFieldElement,
        htf, hl, hm, hkk, CtyType.hasDynamicTypes]

/-- An int32 attribute field for exercising type inference. -/
def sampleNumField : FieldDescriptor :=
  .mk "t.num" .int32 false false .bool .bool none
    ⟨some ⟨"num", false, "", .notRaw⟩, none, false, none⟩

/-- The resolved attribute element of sampleNumField. -/
def sampleNumAttr : FieldAttribute := ⟨"num", false, "", .notRaw, sampleNumField⟩

/-- A repeated string attribute field for exercising type inference. -/
def sampleListField : FieldDescriptor :=
  .mk "t.names" .string true false .bool .bool none
    ⟨some ⟨"names", false, "", .notRaw⟩, none, false, none⟩

/-- The resolved attribute element of sampleListField. -/
def sampleListAttr : FieldAttribute := ⟨"names", false, "", .notRaw, sampleListField⟩

/-- Witness for C7: an int32 attribute infers number, and a repeated
string attribute infers list(string). -/
theorem typeConstraint_empty_expr_inference_witness :
    sampleNumAttr.typeConstraint = (.number, [])
    ∧ sampleListAttr.typeConstraint = (.list .string, []) := by
  constructor
  · exact (typeConstraint_empty_expr_inference sampleNumAttr sampleNumField
      rfl rfl rfl).2.1 rfl rfl rfl
  · have h := (typeConstraint_empty_expr_inference sampleListAttr sampleListField
      rfl rfl rfl).2.2.2.1 CtyType.string rfl rfl rfl (by simp)
    simpa [CtyType.hasDynamicTypes] using h

mutual

/-- A protobuf field value as protoreflect.Value presents it: scalars,
byte strings, messages, lists, and string-keyed maps. -/
inductive ProtoFieldValue where
  | boolV (b : Bool)
  | int32V (i : Int)
  | int64V (i : Int)
  | uint32V (n : Nat)
  | uint64V (n : Nat)
  | floatV (q : ℚ)
  | doubleV (q : ℚ)
  | enumV (n : Int)
  | stringV (s : String)
  | bytesV (bs : List Nat)
  | messageV (m : ProtoMessage)
  | listV (elems : List ProtoFieldValue)
  | mapV (entries : List (String × ProtoFieldValue))

/-- A protobuf message as a store of per-field values, keyed by the
field's fully-qualified name.  An absent or `none` entry is an unset
(cleared) field. -/
inductive ProtoMessage where
  | mk (entries : List (String × Option ProtoFieldValue))

end

/-- The entry list of a message. -/
def ProtoMessage.entries : ProtoMessage → List (String × Option ProtoFieldValue)
  | .mk es => es

/-- Reading a field's stored value (none when unset). -/
def ProtoMessage.getField (m : ProtoMessage) (k : String) : Option ProtoFieldValue :=
  match m.entries.find? (fun p => p.1 == k) with
  | some p => p.2
  | none => none

/-- Replacement or insertion of an entry in an entry list. -/
def setEntry : List (String × Option ProtoFieldValue) → String → Option ProtoFieldValue
    → List (String × Option ProtoFieldValue)
  | [], k, v => [(k, v)]
  | (k0, v0) :: rest, k, v =>
    if k0 = k then (k0, v) :: rest else (k0, v0) :: setEntry rest k v

/-- Writing a field: `some v` models msg.Set, `none` models msg.Clear. -/
def ProtoMessage.setField (m : ProtoMessage) (k : String) (v : Option ProtoFieldValue) :
    ProtoMessage :=
  .mk (setEntry m.entries k v)

/-- A fresh message for a descriptor (newMessageMaybeDynamic): every field
unset.  Generated and dynamic messages present the same reflection
surface, so one constructor models both. -/
def newMessage (_desc : MessageDescriptor) : ProtoMessage := .mk []

/-- An HCL expression, modelled by its evaluation outcome against the
ambient evaluation context: the host's Expr.Value(ctx) result value and
diagnostics, plus the expression's source range. -/
structure Expression where
  value : CtyValue
  diags : List Diagnostic
  range : SourceRange

/-- An attribute of a body (hcl.Attribute): name, expression, and the
range of the name token. -/
structure BodyAttribute where
  name : String
  expr : Expression
  nameRange : SourceRange

mutual

/-- A configuration body (hcl.Body): attributes, nested blocks, and the
missing-item range the host reports for absent content. -/
inductive Body where
  | mk (attributes : List BodyAttribute) (blocks : List Block)
       (missingRange : SourceRange)

/-- A block within a body (hcl.Block): type, labels, nested body, and the
definition and type-name source ranges. -/
inductive Block where
  | mk (btype : String) (labels : List String) (body : Body)
       (defRange : SourceRange) (typeRange : SourceRange)

end

/-- Attributes of a body. -/
def Body.attributes : Body → List BodyAttribute
  | .mk as_ _ _ => as_

/-- Blocks of a body. -/
def Body.blocks : Body → List Block
  | .mk _ bs _ => bs

/-- Missing-item range of a body (hcl.Body.MissingItemRange). -/
def Body.missingRange : Body → SourceRange
  | .mk _ _ r => r

/-- Type of a block. -/
def Block.btype : Block → String
  | .mk t _ _ _ _ => t

/-- Labels of a block. -/
def Block.labels : Block → List String
  | .mk _ ls _ _ _ => ls

/-- Body of a block. -/
def Block.body : Block → Body
  | .mk _ _ b _ _ => b

/-- Definition range of a block. -/
def Block.defRange : Block → SourceRange
  | .mk _ _ _ d _ => d

/-- Type-name range of a block. -/
def Block.typeRange : Block → SourceRange
  | .mk _ _ _ _ t => t

/-- The content a body yields for a schema (hcl.BodyContent). -/
structure BodyContent where
  attributes : List BodyAttribute
  blocks : List Block

/-- Modelled from the spec: the host's Content(schema) operation (spec
section 1), which extracts the attributes and blocks named by the schema.
`none` stands for the nil schema the decoder passes after a schema-
compilation failure; extraction against it yields no content.  Host-side
diagnostics (extraneous or missing items) are not modelled: no claim
depends on them. -/
def contentOfBody (b : Body) (schema : Option BodySchema) : BodyContent × List Diagnostic :=
  match schema with
  | none => (⟨[], []⟩, [])
  | some s =>
    (⟨b.attributes.filter (fun a => s.attributes.any (fun as_ => as_.name == a.name)),
      b.blocks.filter (fun bl => s.blocks.any (fun bs => bs.type == bl.btype))⟩, [])

/-- The rational carried by a number value (cty Value.AsBigFloat; callers
only reach this with number-typed values). -/
def ratOfValue : CtyValue → ℚ
  | .number q => q
  | _ => 0

/-- Truncation of a rational toward zero, as big.Float.Int performs. -/
def ratTruncInt (q : ℚ) : Int :=
  if q < 0 then ⌈q⌉ else ⌊q⌋

/-- The boolean carried by a bool value (cty Value.True). -/
def ctyTrue : CtyValue → Bool
  | .bool b => b
  | _ => false

/-- The string carried by a string value (cty Value.AsString). -/
def ctyString : CtyValue → String
  | .string s => s
  | _ => ""

/-- Elements of a sequence value (cty Value.AsValueSlice). -/
def asValueSlice : CtyValue → List CtyValue
  | .list _ es => es
  | .set _ es => es
  | .tuple es => es
  | _ => []

/-- Entries of a mapping value (cty Value.AsValueMap). -/
def asValueMap : CtyValue → List (String × CtyValue)
  | .map _ es => es
  | .object es => es
  | _ => []

mutual

/-- Whether a value contains an unknown anywhere inside it. -/
def ctyHasUnknown : CtyValue → Bool
  | .unknown _ => true
  | .list _ es => ctyHasUnknownList es
  | .set _ es => ctyHasUnknownList es
  | .tuple es => ctyHasUnknownList es
  | .map _ es => ctyHasUnknownAtys es
  | .object es => ctyHasUnknownAtys es
  | _ => false

/-- Helper for element lists. -/
def ctyHasUnknownList : List CtyValue → Bool
  | [] => false
  | v :: vs => ctyHasUnknown v || ctyHasUnknownList vs

/-- Helper for mapping entries. -/
def ctyHasUnknownAtys : List (String × CtyValue) → Bool
  | [] => false
  | (_, v) :: vs => ctyHasUnknown v || ctyHasUnknownAtys vs

end

/-- Byte encoding of an integer by sign and magnitude. -/
def encodeIntBytes (i : Int) : List Nat :=
  if i < 0 then [0, i.natAbs] else [1, i.natAbs]

mutual

/-- Modelled from the spec: the serialized form of a value under the raw
codecs (spec section 1).  The codecs are external collaborators; only
totality and injectivity on the values the package stores matter here, so
a simple tagged structural encoding stands in for the wire formats. -/
def encodeCtyValueBytes : CtyValue → List Nat
  | .bool b => [0, cond b 1 0]
  | .number q => [1] ++ encodeIntBytes q.num ++ [q.den]
  | .string s => [2, s.length] ++ s.toList.map Char.toNat
  | .nullV _ => [3]
  | .unknown _ => [4]
  | .list _ es => [5, es.length] ++ encodeCtyValueListBytes es
  | .set _ es => [6, es.length] ++ encodeCtyValueListBytes es
  | .map _ es => [7, es.length] ++ encodeCtyValueAtysBytes es
  | .tuple es => [8, es.length] ++ encodeCtyValueListBytes es
  | .object es => [9, es.length] ++ encodeCtyValueAtysBytes es

/-- Helper for element lists. -/
def encodeCtyValueListBytes : List CtyValue → List Nat
  | [] => []
  | v :: vs => encodeCtyValueBytes v ++ encodeCtyValueListBytes vs

/-- Helper for mapping entries. -/
def encodeCtyValueAtysBytes : List (String × CtyValue) → List Nat
  | [] => []
  | (k, v) :: vs =>
    [k.length] ++ k.toList.map Char.toNat ++ encodeCtyValueBytes v ++ encodeCtyValueAtysBytes vs

end

/-- Modelled from the spec: marshalling of a value under a raw mode's
codec (ctymsgpack.Marshal / ctyjson.Marshal, spec section 1).  The
MessagePack codec accepts every value including unknowns; the JSON codec
cannot carry unknown values and fails on them. -/
def rawMarshal (mode : RawMode) (v : CtyValue) (_ty : CtyType) : Except String (List Nat) :=
  match mode with
  | .json =>
    if ctyHasUnknown v then .error "unknown value is not serializable"
    else .ok (encodeCtyValueBytes v)
  | _ => .ok (encodeCtyValueBytes v)

/-- The fresh (default) value protoreflect msg.NewField produces for a
field: an empty list for repeated fields, an empty map for map fields,
and the kind's zero value otherwise. -/
def newFieldDefault (f : FieldDescriptor) : ProtoFieldValue :=
  if f.isList then .listV []
  else if f.isMap then .mapV []
  else match f.kind with
  | .bool => .boolV false
  | .enum => .enumV 0
  | .int32 | .sint32 | .sfixed32 => .int32V 0
  | .int64 | .sint64 | .sfixed64 => .int64V 0
  | .uint32 | .fixed32 => .uint32V 0
  | .uint64 | .fixed64 => .uint64V 0
  | .float => .floatV 0
  | .double => .doubleV 0
  | .string => .stringV ""
  | .bytes => .bytesV []
  | .message | .group => .messageV (.mk [])

/-- Whole-number and range checking of a number value destined for a
fixed-size integer field (intValueForFixedIntegerField).  The returned
integer is the truncation of the value, always produced; the diagnostics
report a fractional value, or a value below `mn` or above `mx` (both
bounds inclusive). -/
def intValueForFixedIntegerField (val : CtyValue) (rng : SourceRange) (mn : Int) (mx : Nat) :
    Int × List Diagnostic :=
  if (ratOfValue val).den ≠ 1 then
    (ratTruncInt (ratOfValue val),
     [⟨.error, unsuitableValueSummary, "The value must be a whole number.", some rng, none⟩])
  else if ratTruncInt (ratOfValue val) < mn then
    (ratTruncInt (ratOfValue val),
     [⟨.error, unsuitableValueSummary,
       "The value must be greater than or equal to " ++ toString mn ++ ".", some rng, none⟩])
  else if (mx : Int) < ratTruncInt (ratOfValue val) then
    (ratTruncInt (ratOfValue val),
     [⟨.error, unsuitableValueSummary,
       "The value must be less than or equal to " ++ toString mx ++ ".", some rng, none⟩])
  else
    (ratTruncInt (ratOfValue val), [])

/-- Reduction of an integer to int32 range by wrapping, as the Go
conversion int32(x) performs on an int64. -/
def wrapInt32 (i : Int) : Int := (i + 2 ^ 31).emod (2 ^ 32) - 2 ^ 31

/-- Reduction of an integer to int64 range by wrapping (big.Int.Int64 on
the low 64 bits). -/
def wrapInt64 (i : Int) : Int := (i + 2 ^ 63).emod (2 ^ 64) - 2 ^ 63

/-- Reduction of an integer to uint32 range by wrapping. -/
def wrapUint32 (i : Int) : Nat := (i.emod (2 ^ 32)).toNat

/-- Reduction of an integer to uint64 range by wrapping (big.Int.Uint64 on
the low 64 bits). -/
def wrapUint64 (i : Int) : Nat := (i.emod (2 ^ 64)).toNat

/-- The unknown-value diagnostic of the singleton and map decoders; the
range is attached as context, as in the source. -/
def unknownValueDiag (rng : SourceRange) : Diagnostic :=
  ⟨.error, unsuitableValueSummary, "Unknown values are not allowed here.", none, some rng⟩

/-- Decoding of a known, non-null, physically-constrained value by field
kind alone (protoValueForSingletonFieldKind).  Enum- and message-typed
fields are unsupported and yield a diagnostic with the fresh field value;
the float, double, bytes and group kinds are rejected earlier by
physicalConstraintForFieldKindSingle and the code panics on them, which
the model leaves as the fresh field value. -/
def protoValueForSingletonFieldKind (val : CtyValue) (rng : SourceRange)
    (f : FieldDescriptor) : ProtoFieldValue × List Diagnostic :=
  match f.kind with
  | .bool => (.boolV (ctyTrue val), [])
  | .enum =>
    (newFieldDefault f,
     [⟨.error, unsuitableValueSummary, "Decoding enum-typed fields isn't supported yet.",
       none, some rng⟩])
  | .int32 | .sint32 | .sfixed32 =>
    match intValueForFixedIntegerField val rng (-2147483648) 2147483647 with
    | (bi, ds) => (.int32V (wrapInt32 (wrapInt64 bi)), ds)
  | .int64 | .sint64 | .sfixed64 =>
    match intValueForFixedIntegerField val rng (-9223372036854775808) 9223372036854775807 with
    | (bi, ds) => (.int64V (wrapInt64 bi), ds)
  | .uint32 | .fixed32 =>
    match intValueForFixedIntegerField val rng 0 4294967295 with
    | (bi, ds) => (.uint32V (wrapUint32 (wrapUint64 bi : Nat)), ds)
  | .uint64 | .fixed64 =>
    match intValueForFixedIntegerField val rng 0 18446744073709551615 with
    | (bi, ds) => (.uint64V (wrapUint64 bi), ds)
  | .string => (.stringV (ctyString val), [])
  | .message =>
    (newFieldDefault f,
     [⟨.error, unsuitableValueSummary, "Decoding message-typed fields isn't supported yet.",
       none, some rng⟩])
  | _ => (newFieldDefault f, [])

/-- Raw-mode decoding of a singleton attribute value
(protoValueForSingletonRawField).  Faithful to the source: the
TypeConstraint error check inspects the still-empty local diagnostics
list instead of the constraint's own diagnostics, so that branch never
runs and the constraint's diagnostics are discarded. -/
def protoValueForSingletonRawField (val : CtyValue) (_rng : SourceRange)
    (attr : FieldAttribute) : ProtoFieldValue × List Diagnostic :=
  match rawMarshal attr.rawMode val attr.typeConstraint.1 with
  | .error msg =>
    (.bytesV [],
     [⟨.error, "Internal error while decoding configuration",
       "This attribute value is not compatible with the "
         ++ (if attr.rawMode = RawMode.json then "JSON" else "MessagePack")
         ++ " field where it'll be stored internally: " ++ msg
         ++ ".\n\nThis is a bug in the configuration schema.", none, none⟩])
  | .ok bs => (.bytesV bs, [])

/-- Decoding of a value into a non-repeated, non-map field
(protoValueForSingletonField): annotation resolution is repeated, raw
mode short-circuits to the raw path, unknown values are rejected, and
the remainder dispatches on the field kind.  The two panics (raw mode on
a non-bytes field, and a bytes field without raw mode) cannot be reached
through schema-checked fields; the model returns the fresh field value
for them. -/
def protoValueForSingletonField (val : CtyValue) (rng : SourceRange)
    (f : FieldDescriptor) : ProtoFieldValue × List Diagnostic :=
  match getFieldElem f with
  | .error e => (newFieldDefault f, [schemaErrorDiagnostic e])
  | .ok (some (.attr a)) =>
    if a.rawMode ≠ RawMode.notRaw then
      protoValueForSingletonRawField val rng a
    else if f.kind = FieldKind.bytes then
      (newFieldDefault f, [])
    else if !val.isKnown then
      (newFieldDefault f, [unknownValueDiag rng])
    else
      protoValueForSingletonFieldKind val rng f
  | .ok _ => (newFieldDefault f, [])

/-- Decoding of the elements of a sequence value into a repeated field
(the loop of protoValueForListField): each element goes through the full
singleton path; elements whose diagnostics contain errors are skipped. -/
def protoValueForListElems (vals : List CtyValue) (rng : SourceRange)
    (f : FieldDescriptor) : List ProtoFieldValue × List Diagnostic :=
  match vals with
  | [] => ([], [])
  | v :: rest =>
    match protoValueForSingletonField v rng f with
    | (pv, ds) =>
      match protoValueForListElems rest rng f with
      | (pvs, ds2) =>
        (if diagsHasErrors ds then pvs else pv :: pvs, ds ++ ds2)

/-- Decoding of the entries of a mapping value into a map field (the loop
of protoValueForMapField): an unknown element aborts the whole map
(`none`), and entries whose diagnostics contain errors are skipped.  Each
value decodes against the hidden map-value field by kind.  The Go map
iteration order is unspecified; the model iterates in list order. -/
def protoValueForMapEntries (entries : List (String × CtyValue)) (rng : SourceRange)
    (f : FieldDescriptor) : Option (List (String × ProtoFieldValue)) × List Diagnostic :=
  match entries with
  | [] => (some [], [])
  | (k, v) :: rest =>
    if !v.isKnown then (none, [unknownValueDiag rng])
    else
      match protoValueForSingletonFieldKind v rng f.mapValueField with
      | (pv, ds) =>
        match protoValueForMapEntries rest rng f with
        | (restRes, ds2) =>
          match restRes with
          | none => (none, ds ++ ds2)
          | some es => (some (if diagsHasErrors ds then es else (k, pv) :: es), ds ++ ds2)

/-- Decoding of a converted value into a field (protoValueForField):
repeated fields require a sequence, map fields require a mapping, and
everything else is a singleton. -/
def protoValueForField (val : CtyValue) (rng : SourceRange)
    (f : FieldDescriptor) : ProtoFieldValue × List Diagnostic :=
  if f.isList then
    match ctyTypeOf val with
    | .list _ | .set _ | .tuple _ =>
      match protoValueForListElems (asValueSlice val) rng f with
      | (pvs, ds) => (.listV pvs, ds)
    | _ =>
      (newFieldDefault f,
       [⟨.error, unsuitableValueSummary, "This argument requires a sequence of values.",
         some rng, none⟩])
  else if f.isMap then
    match ctyTypeOf val with
    | .map _ | .object _ =>
      match protoValueForMapEntries (asValueMap val) rng f with
      | (none, ds) => (newFieldDefault f, ds)
      | (some es, ds) => (.mapV es, ds)
    | _ =>
      (newFieldDefault f,
       [⟨.error, unsuitableValueSummary,
         "This argument requires a mapping from strings to values.", some rng, none⟩])
  else protoValueForSingletonField val rng f

/-- Human-oriented name of a type (cty Type.FriendlyName), used only
inside error text. -/
def ctyFriendlyName : CtyType → String
  | .bool => "bool"
  | .number => "number"
  | .string => "string"
  | .dynamic => "any type"
  | .nilType => "nil"
  | .list e => "list of " ++ ctyFriendlyName e
  | .set e => "set of " ++ ctyFriendlyName e
  | .map e => "map of " ++ ctyFriendlyName e
  | .tuple _ => "tuple"
  | .object _ => "object"

/-- Physical storage constraint of a field by kind, ignoring
list-ness and map-ness (physicalConstraintForFieldKindSingle). -/
def physicalConstraintForFieldKindSingle (f : FieldDescriptor) :
    Except SchemaError CtyType :=
  match f.kind with
  | .bool => .ok .bool
  | .enum => .ok .string
  | .int32 | .sint32 | .sfixed32 | .int64 | .sint64 | .sfixed64
  | .uint32 | .fixed32 | .uint64 | .fixed64 | .float | .double => .ok .number
  | .string => .ok .string
  | .message => .error (schemaErrorf f.fullName "cannot decode a HCL value into a message-typed field")
  | .bytes => .ok .dynamic
  | .group => .error (schemaErrorf f.fullName "cannot decode a HCL value into a group field")

/-- Physical storage constraint of a field for a value of the given type
(valuePhysicalConstraintForFieldKind): a repeated field maps a tuple to a
tuple of per-element constraints and a list or set to a list; a map field
maps an object to an object of per-attribute constraints and a map to a
map; anything else of the right element kind is a shape mismatch. -/
def valuePhysicalConstraintForFieldKind (ty : CtyType) (f : FieldDescriptor) :
    Except SchemaError CtyType :=
  if f.isList then
    match physicalConstraintForFieldKindSingle f with
    | .error e => .error e
    | .ok ety =>
      match ty with
      | .tuple etys => .ok (.tuple (etys.map (fun _ => ety)))
      | .list _ => .ok (.list ety)
      | .set _ => .ok (.list ety)
      | _ => .error (schemaErrorf f.fullName ("can't populate list field from HCL " ++ ctyFriendlyName ty))
  else if f.isMap then
    match physicalConstraintForFieldKindSingle f.mapValueField with
    | .error e => .error e
    | .ok ety =>
      match ty with
      | .object atys => .ok (.object (atys.map (fun p => (p.1, ety))))
      | .map _ => .ok (.map ety)
      | _ => .error (schemaErrorf f.fullName ("can't populate map field from HCL " ++ ctyFriendlyName ty))
  else physicalConstraintForFieldKindSingle f

/-- The missing-required-argument diagnostic of the attribute decoder. -/
def missingArgDiag (name : String) (missingRange : SourceRange) : Diagnostic :=
  ⟨.error, "Missing required argument",
   "The argument " ++ quoteGo name ++ " is required, but no definition was found.",
   some missingRange, none⟩

/-- The inappropriate-value diagnostic emitted when a conversion fails. -/
def attrConvDiag (name : String) (msg : String) (attr : BodyAttribute) : Diagnostic :=
  ⟨.error, unsuitableValueSummary,
   "Inappropriate value for attribute " ++ quoteGo name ++ ": " ++ msg ++ ".",
   some attr.expr.range, some (rangeBetween attr.nameRange attr.expr.range)⟩

/-- The diagnostic for a required attribute whose value is null. -/
def attrNullDiag (name : String) (attr : BodyAttribute) : Diagnostic :=
  ⟨.error, unsuitableValueSummary,
   "Attribute " ++ quoteGo name ++ " is required, so must not be null.",
   some attr.expr.range, some (rangeBetween attr.nameRange attr.expr.range)⟩

/-- Tail of the attribute pipeline: the physical-constraint conversion
followed by field decoding.  `physDs` carries a schema-error diagnostic
when the physical constraint could not be computed, in which case the
conversion target is the dynamic pseudo-type, exactly as the source
proceeds with the error's accompanying DynamicPseudoType result. -/
def fillAttrWithValue (f : FieldDescriptor) (a : FieldAttribute) (attr : BodyAttribute)
    (val1 : CtyValue) (needTy : CtyType) (physDs : List Diagnostic) :
    Option ProtoFieldValue × List Diagnostic :=
  match convert val1 needTy with
  | .error msg => (none, physDs ++ [attrConvDiag a.name msg attr])
  | .ok val2 =>
    match protoValueForField val2 attr.expr.range f with
    | (pv, pvDs) =>
      if diagsHasErrors pvDs then (none, physDs ++ pvDs)
      else (some pv, physDs ++ pvDs)

/-- Physical-constraint stage of the attribute pipeline. -/
def fillAttrKnown (f : FieldDescriptor) (a : FieldAttribute) (attr : BodyAttribute)
    (val1 : CtyValue) : Option ProtoFieldValue × List Diagnostic :=
  match valuePhysicalConstraintForFieldKind (ctyTypeOf val1) f with
  | .error e => fillAttrWithValue f a attr val1 .dynamic [schemaErrorDiagnostic e]
  | .ok t => fillAttrWithValue f a attr val1 t []

/-- The per-attribute-field step of fillMessageFromContent: the field's
resulting value (none leaves the field cleared) and the diagnostics of
the whole pipeline — missing lookup, expression evaluation, the
HCL-level type constraint and conversion, the null check, the physical
constraint and conversion, and value decoding. -/
def fillAttributeField (content : BodyContent) (missingRange : SourceRange)
    (f : FieldDescriptor) (a : FieldAttribute) :
    Option ProtoFieldValue × List Diagnostic :=
  match content.attributes.find? (fun x => x.name == a.name) with
  | none => (none, if a.required then [missingArgDiag a.name missingRange] else [])
  | some attr =>
    if diagsHasErrors attr.expr.diags then (none, attr.expr.diags)
    else if diagsHasErrors a.typeConstraint.2 then
      (none, attr.expr.diags ++ a.typeConstraint.2)
    else
      match convert attr.expr.value a.typeConstraint.1 with
      | .error msg =>
        (none, attr.expr.diags ++ a.typeConstraint.2 ++ [attrConvDiag a.name msg attr])
      | .ok val1 =>
        if val1.isNull then
          (none, attr.expr.diags ++ a.typeConstraint.2
            ++ (if a.required then [attrNullDiag a.name attr] else []))
        else
          match fillAttrKnown f a attr val1 with
          | (res, ds) => (res, attr.expr.diags ++ a.typeConstraint.2 ++ ds)

/-- The duplicate-singleton-block diagnostic: its detail names the
definition range of the previously found block, its subject is the
duplicate's type-name range, and its context is the duplicate's
definition range. -/
def dupBlockDiag (typeName : String) (foundBlock dupBlock : Block) : Diagnostic :=
  ⟨.error, "Duplicate " ++ typeName ++ " block",
   "There may be no more than one " ++ typeName ++ " block. Previous block declared at "
     ++ foundBlock.defRange.render ++ ".",
   some dupBlock.typeRange, some dupBlock.defRange⟩

/-- Binding of a block's labels into label-annotated fields of the decoded
message, in field order (the label loop of newMessageForBlock).  The
source indexes the label slice directly, relying on the content
extraction having matched the label count; a missing label is modelled as
the empty string. -/
def bindBlockLabels (fields : List FieldDescriptor) (labels : List String)
    (m : ProtoMessage) : ProtoMessage :=
  match fields with
  | [] => m
  | f :: rest =>
    match getFieldElem f with
    | .ok (some (.label _)) =>
      match labels with
      | [] => bindBlockLabels rest [] (m.setField f.fullName (some (.stringV "")))
      | l :: ls => bindBlockLabels rest ls (m.setField f.fullName (some (.stringV l)))
    | _ => bindBlockLabels rest labels m

/-- Filtering a list never increases its size. -/
theorem sizeOf_filter_le {α} [SizeOf α] (p : α → Bool) :
    (l : List α) → sizeOf (l.filter p) ≤ sizeOf l
  | [] => le_refl _
  | a :: t => by
    simp only [List.filter]
    cases p a <;> simp only [List.cons.sizeOf_spec] <;>
      have := sizeOf_filter_le p t <;> omega

/-- The content extracted from a body is smaller than the body. -/
theorem sizeOf_contentOfBody_lt (body : Body) (s : Option BodySchema) :
    sizeOf (contentOfBody body s).1 < sizeOf body := by
  cases body with
  | mk attrs blocks mr =>
    have hmr : 0 < sizeOf mr := by cases mr; simp
    have ha : 0 < sizeOf attrs := by cases attrs <;> simp <;> omega
    have hb : 0 < sizeOf blocks := by cases blocks <;> simp <;> omega
    cases s with
    | none => simp [contentOfBody]; omega
    | some sc =>
      have h1 := sizeOf_filter_le
        (fun a => sc.attributes.any (fun as_ => as_.name == a.name)) attrs
      have h2 := sizeOf_filter_le
        (fun bl => sc.blocks.any (fun bs => bs.type == bl.btype)) blocks
      simp [contentOfBody, Body.attributes, Body.blocks]
      omega

/-- The block list of a content is smaller than the content. -/
theorem sizeOf_content_blocks_lt (c : BodyContent) : sizeOf c.blocks < sizeOf c := by
  cases c; simp

/-- The body of a block is smaller than the block. -/
theorem sizeOf_block_body_lt (bl : Block) : sizeOf bl.body < sizeOf bl := by
  cases bl with
  | mk t ls b dr tr =>
    have ht : 0 < sizeOf t := by cases t; simp
    simp [Block.body]
    omega

mutual

/-- Decoding of a body into a fresh message for a descriptor (DecodeBody):
schema compilation (a failure becoming a diagnostic and a nil schema),
content extraction, and field filling from the content.  Decoding always
returns a readable message alongside the diagnostics. -/
def decodeBody (body : Body) (desc : MessageDescriptor) : ProtoMessage × List Diagnostic :=
  match bodySchema desc with
  | .error e =>
    ((fillFields (contentOfBody body none).1 body.missingRange desc.fields
        (newMessage desc) true).1,
     [schemaErrorDiagnostic e] ++ (contentOfBody body none).2
       ++ (fillFields (contentOfBody body none).1 body.missingRange desc.fields
            (newMessage desc) true).2)
  | .ok s =>
    ((fillFields (contentOfBody body (some s)).1 body.missingRange desc.fields
        (newMessage desc) (diagsHasErrors (contentOfBody body (some s)).2)).1,
     (contentOfBody body (some s)).2
       ++ (fillFields (contentOfBody body (some s)).1 body.missingRange desc.fields
            (newMessage desc) (diagsHasErrors (contentOfBody body (some s)).2)).2)
  termination_by (sizeOf body, 0)
  decreasing_by
    all_goals (apply Prod.Lex.left; exact sizeOf_contentOfBody_lt body _)

/-- The field loop of fillMessageFromContent, walking the descriptor's
fields: every annotated field is cleared and then possibly repopulated;
an annotation-resolution error becomes a diagnostic and leaves the field
untouched; a repeated nested-block field decodes its blocks but the
source never attaches the assembled list to the message, so the field
stays cleared; a flattened field is rebuilt from the same content. -/
def fillFields (content : BodyContent) (missingRange : SourceRange)
    (fields : List FieldDescriptor) (msg : ProtoMessage) (recovering : Bool) :
    ProtoMessage × List Diagnostic :=
  match fields with
  | [] => (msg, [])
  | f :: rest =>
    match h : getFieldElem f with
    | .error e =>
      match fillFields content missingRange rest msg recovering with
      | (m, ds) => (m, schemaErrorDiagnostic e :: ds)
    | .ok none =>
      fillFields content missingRange rest msg recovering
    | .ok (some (.label _)) =>
      fillFields content missingRange rest msg recovering
    | .ok (some (.attr a)) =>
      match fillAttributeField content missingRange f a with
      | (res, ds) =>
        match fillFields content missingRange rest (msg.setField f.fullName res) recovering with
        | (m, ds2) => (m, ds ++ ds2)
    | .ok (some (.block b)) =>
      if b.repeated then
        match fillRepeatedBlocks content.blocks b with
        | (_, ds) =>
          match fillFields content missingRange rest (msg.setField f.fullName none) recovering with
          | (m, ds2) => (m, ds ++ ds2)
      else
        match fillSingletonBlocks content.blocks b none none with
        | (res, ds) =>
          match fillFields content missingRange rest
              (msg.setField f.fullName (res.map (fun nm => ProtoFieldValue.messageV nm)))
              recovering with
          | (m, ds2) => (m, ds ++ ds2)
    | .ok (some (.flattened child)) =>
      match fillFields content missingRange child.fields (newMessage child) recovering with
      | (childMsg, ds) =>
        match fillFields content missingRange rest
            (msg.setField f.fullName (some (.messageV childMsg))) recovering with
        | (m, ds2) => (m, ds ++ ds2)
  termination_by (sizeOf content, 1 + sizeOf fields)
  decreasing_by
    all_goals first
    | (apply Prod.Lex.left; exact sizeOf_content_blocks_lt content)
    | (apply Prod.Lex.right
       first
       | (simp only [List.cons.sizeOf_spec]; omega)
       | (have h1 := sizeOf_fields_lt child
          have h2 := sizeOf_message_lt (getFieldElem_flattened_message h)
          simp only [List.cons.sizeOf_spec]
          omega))

/-- The repeated-block loop: every matching block is decoded in order. -/
def fillRepeatedBlocks (blocks : List Block) (b : FieldNestedBlockType) :
    List ProtoMessage × List Diagnostic :=
  match blocks with
  | [] => ([], [])
  | bl :: rest =>
    if bl.btype = b.typeName then
      match newMessageForBlock bl b with
      | (m, ds) =>
        match fillRepeatedBlocks rest b with
        | (ms, ds2) => (m :: ms, ds ++ ds2)
    else fillRepeatedBlocks rest b
  termination_by (sizeOf blocks, 0)
  decreasing_by
    all_goals (apply Prod.Lex.left; simp only [List.cons.sizeOf_spec]; omega)

/-- The singleton-block loop: the first matching block is decoded and
kept; a second match emits the duplicate diagnostic and stops the scan. -/
def fillSingletonBlocks (blocks : List Block) (b : FieldNestedBlockType)
    (found : Option Block) (acc : Option ProtoMessage) :
    Option ProtoMessage × List Diagnostic :=
  match blocks with
  | [] => (acc, [])
  | bl :: rest =>
    if bl.btype = b.typeName then
      match found with
      | some fb => (acc, [dupBlockDiag b.typeName fb bl])
      | none =>
        match newMessageForBlock bl b with
        | (m, ds) =>
          match fillSingletonBlocks rest b (some bl) (some m) with
          | (res, ds2) => (res, ds ++ ds2)
    else fillSingletonBlocks rest b found acc
  termination_by (sizeOf blocks, 0)
  decreasing_by
    all_goals (apply Prod.Lex.left; simp only [List.cons.sizeOf_spec]; omega)

/-- Decoding of one nested block (newMessageForBlock): the block body is
decoded against the nested descriptor and the block labels are bound
into label-annotated fields. -/
def newMessageForBlock (bl : Block) (b : FieldNestedBlockType) :
    ProtoMessage × List Diagnostic :=
  match decodeBody bl.body b.nested with
  | (m, ds) => (bindBlockLabels b.nested.fields bl.labels m, ds)
  termination_by (sizeOf bl, 0)
  decreasing_by
    all_goals (apply Prod.Lex.left; exact sizeOf_block_body_lt bl)

end

/-- Filling of a message from extracted content (fillMessageFromContent):
the walk over the descriptor's fields. -/
def fillMessageFromContent (content : BodyContent) (missingRange : SourceRange)
    (desc : MessageDescriptor) (msg : ProtoMessage) (recovering : Bool) :
    ProtoMessage × List Diagnostic :=
  fillFields content missingRange desc.fields msg recovering

/-- The message carried by a message-valued field value (protoreflect
Value.Message); an empty message for any other value, which the source
reaches only by panicking. -/
def ProtoFieldValue.messageContent : ProtoFieldValue → ProtoMessage
  | .messageV m => m
  | _ => .mk []

/-- Reading a field as protoreflect msg.Get does: the stored value, or
the field's fresh default when the field is unset. -/
def ProtoMessage.getOrDefault (m : ProtoMessage) (f : FieldDescriptor) : ProtoFieldValue :=
  match m.getField f.fullName with
  | some v => v
  | none => newFieldDefault f

/-- The elements of a list-valued field value (protoreflect Value.List). -/
def ProtoFieldValue.listElems : ProtoFieldValue → List ProtoFieldValue
  | .listV es => es
  | _ => []

/-- The entries of a map-valued field value (protoreflect Value.Map). -/
def ProtoFieldValue.mapEntries : ProtoFieldValue → List (String × ProtoFieldValue)
  | .mapV es => es
  | _ => []

/-- protoreflect Kind.String, used inside error text. -/
def fieldKindName : FieldKind → String
  | .bool => "bool"
  | .enum => "enum"
  | .int32 => "int32"
  | .sint32 => "sint32"
  | .sfixed32 => "sfixed32"
  | .int64 => "int64"
  | .sint64 => "sint64"
  | .sfixed64 => "sfixed64"
  | .uint32 => "uint32"
  | .fixed32 => "fixed32"
  | .uint64 => "uint64"
  | .fixed64 => "fixed64"
  | .float => "float"
  | .double => "double"
  | .string => "string"
  | .bytes => "bytes"
  | .message => "message"
  | .group => "group"

/-- The rendered message of a schema error raised inside the reflector,
where errors travel as plain Go error values. -/
def schemaErrStr (decl msg : String) : String := (schemaErrorf decl msg).errorString

/-- Ordered insertion (with overwrite) into a name-sorted association
list: the canonical form of a Go map under construction. -/
def insertAtySorted {α} (k : String) (v : α) : List (String × α) → List (String × α)
  | [] => [(k, v)]
  | (k0, v0) :: rest =>
    if k < k0 then (k, v) :: (k0, v0) :: rest
    else if k = k0 then (k, v) :: rest
    else (k0, v0) :: insertAtySorted k v rest

/-- Element-type hint for the type-directed byte decoder. -/
def ctyElemType : CtyType → CtyType
  | .list e => e
  | .set e => e
  | .map e => e
  | _ => .dynamic

mutual

/-- Modelled from the spec: the decoding half of the raw codecs
(ctyjson.Unmarshal / ctymsgpack.Unmarshal, spec section 1), a
type-directed parser of the structural encoding used by rawMarshal.  The
fuel argument bounds the recursion depth. -/
def decodeCtyValueBytes : Nat → List Nat → CtyType → Option (CtyValue × List Nat)
  | 0, _, _ => none
  | fuel + 1, bs, ty =>
    match bs with
    | 0 :: b :: rest => some (.bool (b == 1), rest)
    | 1 :: s :: m :: d :: rest =>
      some (.number (mkRat (if s = 0 then -(m : Int) else (m : Int)) d), rest)
    | 2 :: n :: rest =>
      if n ≤ rest.length then
        some (.string (String.mk ((rest.take n).map Char.ofNat)), rest.drop n)
      else none
    | 3 :: rest => some (.nullV ty, rest)
    | 4 :: rest => some (.unknown ty, rest)
    | 5 :: n :: rest =>
      match decodeCtyValueListBytes fuel n rest (ctyElemType ty) with
      | some (es, r) => some (.list (ctyElemType ty) es, r)
      | none => none
    | 6 :: n :: rest =>
      match decodeCtyValueListBytes fuel n rest (ctyElemType ty) with
      | some (es, r) => some (.set (ctyElemType ty) es, r)
      | none => none
    | 7 :: n :: rest =>
      match decodeCtyValueAtysBytes fuel n rest (ctyElemType ty) with
      | some (es, r) => some (.map (ctyElemType ty) es, r)
      | none => none
    | 8 :: n :: rest =>
      match decodeCtyValueListBytes fuel n rest .dynamic with
      | some (es, r) => some (.tuple es, r)
      | none => none
    | 9 :: n :: rest =>
      match decodeCtyValueAtysBytes fuel n rest .dynamic with
      | some (es, r) => some (.object es, r)
      | none => none
    | _ => none

/-- Element-list half of the byte decoder: a fixed number of elements. -/
def decodeCtyValueListBytes : Nat → Nat → List Nat → CtyType → Option (List CtyValue × List Nat)
  | 0, _, _, _ => none
  | _ + 1, 0, bs, _ => some ([], bs)
  | fuel + 1, count + 1, bs, ety =>
    match decodeCtyValueBytes fuel bs ety with
    | some (v, r) =>
      match decodeCtyValueListBytes fuel count r ety with
      | some (vs, r2) => some (v :: vs, r2)
      | none => none
    | none => none

/-- Entry-list half of the byte decoder. -/
def decodeCtyValueAtysBytes : Nat → Nat → List Nat → CtyType → Option (List (String × CtyValue) × List Nat)
  | 0, _, _, _ => none
  | _ + 1, 0, bs, _ => some ([], bs)
  | fuel + 1, count + 1, bs, ety =>
    match bs with
    | n :: rest =>
      if n ≤ rest.length then
        match decodeCtyValueBytes fuel (rest.drop n) ety with
        | some (v, r) =>
          match decodeCtyValueAtysBytes fuel count r ety with
          | some (vs, r2) =>
            some ((String.mk ((rest.take n).map Char.ofNat), v) :: vs, r2)
          | none => none
        | none => none
      else none
    | [] => none

end

/-- Modelled from the spec: unmarshalling of raw bytes under a raw mode's
codec; fails when the bytes are not a complete encoding of one value. -/
def rawUnmarshal (_mode : RawMode) (bs : List Nat) (ty : CtyType) : Except String CtyValue :=
  match decodeCtyValueBytes (bs.length + 1) bs ty with
  | some (v, []) => .ok v
  | _ => .error "invalid serialization of value"

mutual

/-- The object type constraint all reflection results for a descriptor
conform to (ObjectTypeConstraintForMessageDesc). -/
def objectTypeConstraintForMessageDesc (desc : MessageDescriptor) :
    Except SchemaError CtyType :=
  match buildObjectTypeAtys desc.fields [] with
  | .error e => .error e
  | .ok atys => .ok (.object atys)
  termination_by sizeOf desc
  decreasing_by
    have := sizeOf_fields_lt desc
    omega

/-- The field walk of buildObjectTypeAtysForMessageDesc, accumulating the
attribute types of the object constraint. -/
def buildObjectTypeAtys (fields : List FieldDescriptor)
    (atys : List (String × CtyType)) : Except SchemaError (List (String × CtyType)) :=
  match fields with
  | [] => .ok atys
  | f :: rest =>
    match h : getFieldElem f with
    | .error e => .error e
    | .ok none => buildObjectTypeAtys rest atys
    | .ok (some (.attr a)) =>
      if diagsHasErrors a.typeConstraint.2 then
        .error (schemaErrorf f.fullName "invalid type constraint expression")
      else buildObjectTypeAtys rest (insertAtySorted a.name a.typeConstraint.1 atys)
    | .ok (some (.block b)) =>
      match objectTypeConstraintForMessageDesc b.nested with
      | .error e => .error e
      | .ok nestedTy =>
        match b.collectionKind with
        | .auto => buildObjectTypeAtys rest (insertAtySorted b.typeName nestedTy atys)
        | .tuple => buildObjectTypeAtys rest (insertAtySorted b.typeName .dynamic atys)
        | .list =>
          if nestedTy.hasDynamicTypes then
            .error (schemaErrorf f.fullName "can't use (hcl.block).kind = LIST with a block type containing an attribute with an 'any' constraint")
          else buildObjectTypeAtys rest (insertAtySorted b.typeName (.list nestedTy) atys)
        | .set =>
          if nestedTy.hasDynamicTypes then
            .error (schemaErrorf f.fullName "can't use (hcl.block).kind = SET with a block type containing an attribute with an 'any' constraint")
          else buildObjectTypeAtys rest (insertAtySorted b.typeName (.set nestedTy) atys)
        | .other _ =>
          .error (schemaErrorf f.fullName "unsupported block collection kind")
    | .ok (some (.flattened child)) =>
      match buildObjectTypeAtys child.fields atys with
      | .error e => .error e
      | .ok atys2 => buildObjectTypeAtys rest atys2
    | .ok (some (.label n)) =>
      if f.kind ≠ FieldKind.string || f.isList || f.isMap then
        .error (schemaErrorf f.fullName "only string fields can be used for block labels")
      else buildObjectTypeAtys rest (insertAtySorted n .string atys)
  termination_by sizeOf fields
  decreasing_by
    all_goals simp only [List.cons.sizeOf_spec]
    all_goals first
    | omega
    | (have h1 := sizeOf_message_lt (getFieldElem_block_message h); omega)
    | (have h1 := sizeOf_message_lt (getFieldElem_flattened_message h)
       have h2 := sizeOf_fields_lt child
       omega)

end

mutual

/-- Reflection of a message into an HCL object value
(objectValueForMessage).  The message's descriptor travels alongside the
message, as the protoreflect message value carries it in the source. -/
def objectValueForMessage (msg : ProtoMessage) (desc : MessageDescriptor) :
    Except String CtyValue :=
  match buildObjectValueAttrs msg desc.fields [] with
  | .error e => .error e
  | .ok atys => .ok (.object atys)
  termination_by (sizeOf desc, 0)
  decreasing_by
    apply Prod.Lex.left
    exact sizeOf_fields_lt desc

/-- The field walk of buildObjectValueAttrsForMessage, accumulating the
object's attribute values in a name-sorted association list (the Go map
it models has no order). -/
def buildObjectValueAttrs (msg : ProtoMessage) (fields : List FieldDescriptor)
    (atys : List (String × CtyValue)) : Except String (List (String × CtyValue)) :=
  match fields with
  | [] => .ok atys
  | f :: rest =>
    match h : getFieldElem f with
    | .error e => .error e.errorString
    | .ok none => buildObjectValueAttrs msg rest atys
    | .ok (some (.attr a)) =>
      match hclValueForProtoFieldValue (msg.getOrDefault f) a false with
      | .error e => .error e
      | .ok v =>
        if diagsHasErrors a.typeConstraint.2 then
          .error (schemaErrStr f.fullName "invalid type constraint expression")
        else
          match convert v a.typeConstraint.1 with
          | .error msg2 =>
            .error ("invalid encoding of " ++ ctyFriendlyName a.typeConstraint.1
              ++ " value as " ++ fieldKindName f.kind ++ ": " ++ msg2)
          | .ok v2 => buildObjectValueAttrs msg rest (insertAtySorted a.name v2 atys)
    | .ok (some (.block b)) =>
      if hk : b.collectionKind = CollectionKind.auto then
        match objectValueForMessage (msg.getOrDefault f).messageContent b.nested with
        | .error e => .error e
        | .ok nestedObj =>
          buildObjectValueAttrs msg rest (insertAtySorted b.typeName nestedObj atys)
      else
        match objectValuesForMessages ((msg.getOrDefault f).listElems) b.nested with
        | .error e => .error e
        | .ok velems =>
          match b.collectionKind with
          | .tuple => buildObjectValueAttrs msg rest (insertAtySorted b.typeName (.tuple velems) atys)
          | .list =>
            match velems with
            | [] =>
              match f.message with
              | none => .error (schemaErrStr f.fullName "field has no message type")
              | some md =>
                match objectTypeConstraintForMessageDesc md with
                | .error e => .error e.errorString
                | .ok nestedTy =>
                  buildObjectValueAttrs msg rest (insertAtySorted b.typeName (.list nestedTy []) atys)
            | hd :: tl =>
              buildObjectValueAttrs msg rest
                (insertAtySorted b.typeName (.list (ctyTypeOf hd) (hd :: tl)) atys)
          | .set =>
            match velems with
            | [] =>
              match f.message with
              | none => .error (schemaErrStr f.fullName "field has no message type")
              | some md =>
                match objectTypeConstraintForMessageDesc md with
                | .error e => .error e.errorString
                | .ok nestedTy =>
                  buildObjectValueAttrs msg rest (insertAtySorted b.typeName (.set nestedTy []) atys)
            | hd :: tl =>
              buildObjectValueAttrs msg rest
                (insertAtySorted b.typeName (.set (ctyTypeOf hd) (hd :: tl)) atys)
          | _ => .error (schemaErrStr f.fullName "unsupported collection kind")
    | .ok (some (.flattened child)) =>
      match buildObjectValueAttrs (msg.getOrDefault f).messageContent child.fields atys with
      | .error e => .error e
      | .ok atys2 => buildObjectValueAttrs msg rest atys2
    | .ok (some (.label n)) =>
      match msg.getOrDefault f with
      | .stringV s => buildObjectValueAttrs msg rest (insertAtySorted n (.string s) atys)
      | _ => .error (schemaErrStr f.fullName "only string fields can be used for block labels")
  termination_by (sizeOf fields, 0)
  decreasing_by
    all_goals apply Prod.Lex.left
    all_goals first
    | (rw [getFieldElem_attr_target h]
       simp only [List.cons.sizeOf_spec]
       omega)
    | (simp only [List.cons.sizeOf_spec]
       first
       | omega
       | (have h1 := sizeOf_message_lt (getFieldElem_block_message h); omega)
       | (have h1 := sizeOf_message_lt (getFieldElem_flattened_message h)
          have h2 := sizeOf_fields_lt child
          omega))

/-- Reflection of each message of a repeated nested-block field, in
order (the element loop of the non-AUTO branch). -/
def objectValuesForMessages (vs : List ProtoFieldValue) (nested : MessageDescriptor) :
    Except String (List CtyValue) :=
  match vs with
  | [] => .ok []
  | v :: rest =>
    match objectValueForMessage v.messageContent nested with
    | .error e => .error e
    | .ok obj =>
      match objectValuesForMessages rest nested with
      | .error e => .error e
      | .ok objs => .ok (obj :: objs)
  termination_by (sizeOf nested + 1, sizeOf vs)
  decreasing_by
  · apply Prod.Lex.left; omega
  · apply Prod.Lex.right; simp only [List.cons.sizeOf_spec]; omega

/-- Reflection of a single field value into an HCL value
(hclValueForProtoFieldValue).  The field descriptor needed for the
nested-message case is the attribute's own target field, exactly as the
source reaches it through attr.TargetField. -/
def hclValueForProtoFieldValue (v : ProtoFieldValue) (attr : FieldAttribute)
    (subElem : Bool) : Except String CtyValue :=
  match v with
  | .boolV b => .ok (.bool b)
  | .int32V i => .ok (.number (i : ℚ))
  | .int64V i => .ok (.number (i : ℚ))
  | .uint32V n => .ok (.number (n : ℚ))
  | .uint64V n => .ok (.number (n : ℚ))
  | .floatV q => .ok (.number q)
  | .doubleV q => .ok (.number q)
  | .stringV s => .ok (.string s)
  | .bytesV bs =>
    if subElem then
      .error (schemaErrStr attr.targetField.fullName
        "can only use bytes directly as a raw field, not as element of collection in another field")
    else if bs = [] then .ok (.nullV .dynamic)
    else if diagsHasErrors attr.typeConstraint.2 then
      .error (schemaErrStr attr.targetField.fullName "invalid type constraint expression")
    else
      match attr.rawMode with
      | .notRaw => .error (schemaErrStr attr.targetField.fullName "unsupported raw mode NOT_RAW")
      | _ =>
        match rawUnmarshal attr.rawMode bs attr.typeConstraint.1 with
        | .error e =>
          .error ("invalid encoding of " ++ ctyFriendlyName attr.typeConstraint.1
            ++ " value as bytes: " ++ e)
        | .ok v2 => .ok v2
  | .enumV _ =>
    .error (schemaErrStr attr.targetField.fullName "can't convert enum value to HCL value yet")
  | .messageV m =>
    match hm : attr.targetField.message with
    | some md => objectValueForMessage m md
    | none => .error (schemaErrStr attr.targetField.fullName "field has no message type")
  | .listV [] => .ok (.tuple [])
  | .listV (e :: erest) =>
    match hclValuesForListElems (e :: erest) attr with
    | .error err => .error err
    | .ok velems => .ok (.tuple velems)
  | .mapV [] => .ok (.object [])
  | .mapV (e :: erest) =>
    match hclValuesForMapEntries (e :: erest) attr with
    | .error err => .error err
    | .ok ventries => .ok (.object ventries)
  termination_by (sizeOf attr.targetField, sizeOf v)
  decreasing_by
  · apply Prod.Lex.left
    exact sizeOf_message_lt hm
  · apply Prod.Lex.right
    simp only [ProtoFieldValue.listV.sizeOf_spec]
    omega
  · apply Prod.Lex.right
    simp only [ProtoFieldValue.mapV.sizeOf_spec]
    omega

/-- Reflection of the elements of a list-valued field, in order. -/
def hclValuesForListElems (es : List ProtoFieldValue) (attr : FieldAttribute) :
    Except String (List CtyValue) :=
  match es with
  | [] => .ok []
  | e :: rest =>
    match hclValueForProtoFieldValue e attr true with
    | .error err => .error err
    | .ok v =>
      match hclValuesForListElems rest attr with
      | .error err => .error err
      | .ok vs => .ok (v :: vs)
  termination_by (sizeOf attr.targetField, sizeOf es)
  decreasing_by
    all_goals (apply Prod.Lex.right; simp only [List.cons.sizeOf_spec]; omega)

/-- Reflection of the entries of a map-valued field, accumulated into a
name-sorted association list (the Go map it models has no order). -/
def hclValuesForMapEntries (es : List (String × ProtoFieldValue)) (attr : FieldAttribute) :
    Except String (List (String × CtyValue)) :=
  match es with
  | [] => .ok []
  | (k, e) :: rest =>
    match hclValueForProtoFieldValue e attr true with
    | .error err => .error err
    | .ok v =>
      match hclValuesForMapEntries rest attr with
      | .error err => .error err
      | .ok vs => .ok (insertAtySorted k v vs)
  termination_by (sizeOf attr.targetField, sizeOf es)
  decreasing_by
  · apply Prod.Lex.right
    simp only [List.cons.sizeOf_spec, Prod.mk.sizeOf_spec]
    omega
  · apply Prod.Lex.right
    simp only [List.cons.sizeOf_spec]
    omega

end

theorem find_setEntry_eq (es : List (String × Option ProtoFieldValue)) (k : String)
    (v : Option ProtoFieldValue) :
    (setEntry es k v).find? (fun p => p.1 == k) = some (k, v) := by
  induction es with
  | nil => simp [setEntry, List.find?]
  | cons p rest ih =>
    match p with
    | (k0, v0) =>
      by_cases hk : k0 = k
      · subst hk
        simp [setEntry, List.find?]
      · simp [setEntry, hk, List.find?, ih, Ne.symm hk]

theorem find_setEntry_ne (es : List (String × Option ProtoFieldValue)) (k k' : String)
    (v : Option ProtoFieldValue) (h : k ≠ k') :
    (setEntry es k' v).find? (fun p => p.1 == k) = es.find? (fun p => p.1 == k) := by
  have hbf : (k' == k) = false := by
    simp [beq_eq_false_iff_ne]
    exact Ne.symm h
  induction es with
  | nil => simp [setEntry, List.find?, hbf]
  | cons p rest ih =>
    match p with
    | (k0, v0) =>
      by_cases hk : k0 = k'
      · subst hk
        simp [setEntry, List.find?, hbf]
      · simp only [setEntry, hk, if_false, List.find?]
        cases hk2 : (k0 == k) <;> simp [ih]

/-- Reading back the field just written. -/
theorem getField_setField_eq (m : ProtoMessage) (k : String) (v : Option ProtoFieldValue) :
    (m.setField k v).getField k = v := by
  simp [ProtoMessage.setField, ProtoMessage.getField, ProtoMessage.entries,
    find_setEntry_eq]

/-- Writing one field leaves every other field unchanged. -/
theorem getField_setField_ne (m : ProtoMessage) (k k' : String) (v : Option ProtoFieldValue)
    (h : k ≠ k') : (m.setField k' v).getField k = m.getField k := by
  simp [ProtoMessage.setField, ProtoMessage.getField, ProtoMessage.entries,
    find_setEntry_ne _ _ _ _ h]

theorem fillFields_nil (c : BodyContent) (mr : SourceRange) (msg : ProtoMessage)
    (r : Bool) : fillFields c mr [] msg r = (msg, []) := by
  rw [fillFields]

theorem fillFields_cons_err {f : FieldDescriptor} {e : SchemaError}
    (h : getFieldElem f = .error e) (c : BodyContent) (mr : SourceRange)
    (rest : List FieldDescriptor) (msg : ProtoMessage) (r : Bool) :
    fillFields c mr (f :: rest) msg r
      = ((fillFields c mr rest msg r).1,
         schemaErrorDiagnostic e :: (fillFields c mr rest msg r).2) := by
  rw [fillFields]
  split <;> simp_all

theorem fillFields_cons_none {f : FieldDescriptor}
    (h : getFieldElem f = .ok none) (c : BodyContent) (mr : SourceRange)
    (rest : List FieldDescriptor) (msg : ProtoMessage) (r : Bool) :
    fillFields c mr (f :: rest) msg r = fillFields c mr rest msg r := by
  rw [fillFields]
  split <;> simp_all

theorem fillFields_cons_label {f : FieldDescriptor} {nm : String}
    (h : getFieldElem f = .ok (some (.label nm))) (c : BodyContent) (mr : SourceRange)
    (rest : List FieldDescriptor) (msg : ProtoMessage) (r : Bool) :
    fillFields c mr (f :: rest) msg r = fillFields c mr rest msg r := by
  rw [fillFields]
  split <;> simp_all

theorem fillFields_cons_attr {f : FieldDescriptor} {a : FieldAttribute}
    (h : getFieldElem f = .ok (some (.attr a))) (c : BodyContent) (mr : SourceRange)
    (rest : List FieldDescriptor) (msg : ProtoMessage) (r : Bool) :
    fillFields c mr (f :: rest) msg r
      = ((fillFields c mr rest (msg.setField f.fullName (fillAttributeField c mr f a).1) r).1,
         (fillAttributeField c mr f a).2
           ++ (fillFields c mr rest
                (msg.setField f.fullName (fillAttributeField c mr f a).1) r).2) := by
  rw [fillFields]
  split <;> simp_all

theorem fillFields_cons_block_rep {f : FieldDescriptor} {b : FieldNestedBlockType}
    (h : getFieldElem f = .ok (some (.block b))) (hrep : b.repeated = true)
    (c : BodyContent) (mr : SourceRange)
    (rest : List FieldDescriptor) (msg : ProtoMessage) (r : Bool) :
    fillFields c mr (f :: rest) msg r
      = ((fillFields c mr rest (msg.setField f.fullName none) r).1,
         (fillRepeatedBlocks c.blocks b).2
           ++ (fillFields c mr rest (msg.setField f.fullName none) r).2) := by
  rw [fillFields]
  split <;> simp_all

theorem fillFields_cons_block_single {f : FieldDescriptor} {b : FieldNestedBlockType}
    (h : getFieldElem f = .ok (some (.block b))) (hrep : b.repeated = false)
    (c : BodyContent) (mr : SourceRange)
    (rest : List FieldDescriptor) (msg : ProtoMessage) (r : Bool) :
    fillFields c mr (f :: rest) msg r
      = ((fillFields c mr rest
            (msg.setField f.fullName
              ((fillSingletonBlocks c.blocks b none none).1.map
                (fun nm => ProtoFieldValue.messageV nm))) r).1,
         (fillSingletonBlocks c.blocks b none none).2
           ++ (fillFields c mr rest
                (msg.setField f.fullName
                  ((fillSingletonBlocks c.blocks b none none).1.map
                    (fun nm => ProtoFieldValue.messageV nm))) r).2) := by
  rw [fillFields]
  split <;> simp_all

theorem fillFields_cons_flat {f : FieldDescriptor} {child : MessageDescriptor}
    (h : getFieldElem f = .ok (some (.flattened child))) (c : BodyContent) (mr : SourceRange)
    (rest : List FieldDescriptor) (msg : ProtoMessage) (r : Bool) :
    fillFields c mr (f :: rest) msg r
      = ((fillFields c mr rest
            (msg.setField f.fullName
              (some (.messageV (fillFields c mr child.fields (newMessage child) r).1))) r).1,
         (fillFields c mr child.fields (newMessage child) r).2
           ++ (fillFields c mr rest
                (msg.setField f.fullName
                  (some (.messageV (fillFields c mr child.fields (newMessage child) r).1)))
                r).2) := by
  rw [fillFields]
  split <;> simp_all

theorem fillSingletonBlocks_nil (b : FieldNestedBlockType) (found : Option Block)
    (acc : Option ProtoMessage) : fillSingletonBlocks [] b found acc = (acc, []) := by
  rw [fillSingletonBlocks]

theorem fillSingletonBlocks_cons_nomatch {bl : Block} {b : FieldNestedBlockType}
    (h : ¬ bl.btype = b.typeName) (rest : List Block) (found : Option Block)
    (acc : Option ProtoMessage) :
    fillSingletonBlocks (bl :: rest) b found acc = fillSingletonBlocks rest b found acc := by
  rw [fillSingletonBlocks.eq_def]
  simp [h]

theorem fillSingletonBlocks_cons_dup {bl : Block} {b : FieldNestedBlockType}
    (h : bl.btype = b.typeName) (rest : List Block) (fb : Block)
    (acc : Option ProtoMessage) :
    fillSingletonBlocks (bl :: rest) b (some fb) acc
      = (acc, [dupBlockDiag b.typeName fb bl]) := by
  rw [fillSingletonBlocks.eq_def]
  simp [h]

theorem fillSingletonBlocks_cons_first {bl : Block} {b : FieldNestedBlockType}
    (h : bl.btype = b.typeName) (rest : List Block) :
    fillSingletonBlocks (bl :: rest) b none none
      = ((fillSingletonBlocks rest b (some bl) (some (newMessageForBlock bl b).1)).1,
         (newMessageForBlock bl b).2
           ++ (fillSingletonBlocks rest b (some bl) (some (newMessageForBlock bl b).1)).2) := by
  rw [fillSingletonBlocks.eq_def]
  simp [h]

theorem fillSingletonBlocks_no_match (b : FieldNestedBlockType) :
    ∀ (blocks : List Block) (found : Option Block) (acc : Option ProtoMessage),
    blocks.filter (fun bl => bl.btype == b.typeName) = [] →
    fillSingletonBlocks blocks b found acc = (acc, [])
  | [], found, acc, _ => fillSingletonBlocks_nil b found acc
  | bl :: rest, found, acc, h => by
    by_cases hm : bl.btype = b.typeName
    · simp [List.filter_cons, hm] at h
    · rw [List.filter_cons] at h
      simp only [hm, beq_iff_eq, if_false] at h
      rw [fillSingletonBlocks_cons_nomatch hm]
      exact fillSingletonBlocks_no_match b rest found acc h

theorem fillSingletonBlocks_found_dup (b : FieldNestedBlockType) :
    ∀ (blocks : List Block) (fb : Block) (acc : Option ProtoMessage)
      (bl2 : Block) (restM : List Block),
    blocks.filter (fun bl => bl.btype == b.typeName) = bl2 :: restM →
    fillSingletonBlocks blocks b (some fb) acc
      = (acc, [dupBlockDiag b.typeName fb bl2])
  | [], fb, acc, bl2, restM, h => by simp [List.filter] at h
  | bl :: rest, fb, acc, bl2, restM, h => by
    by_cases hm : bl.btype = b.typeName
    · rw [List.filter_cons] at h
      simp only [hm, beq_self_eq_true, if_true] at h
      injection h with h1 h2
      subst h1
      exact fillSingletonBlocks_cons_dup hm rest fb acc
    · rw [List.filter_cons] at h
      simp only [hm, beq_iff_eq, if_false] at h
      rw [fillSingletonBlocks_cons_nomatch hm]
      exact fillSingletonBlocks_found_dup b rest fb acc bl2 restM h

theorem fillSingletonBlocks_dup_result (b : FieldNestedBlockType) :
    ∀ (blocks : List Block) (bl1 bl2 : Block) (restM : List Block),
    blocks.filter (fun bl => bl.btype == b.typeName) = bl1 :: bl2 :: restM →
    fillSingletonBlocks blocks b none none
      = (some (newMessageForBlock bl1 b).1,
         (newMessageForBlock bl1 b).2 ++ [dupBlockDiag b.typeName bl1 bl2])
  | [], bl1, bl2, restM, h => by simp [List.filter] at h
  | bl :: rest, bl1, bl2, restM, h => by
    by_cases hm : bl.btype = b.typeName
    · rw [List.filter_cons] at h
      simp only [hm, beq_self_eq_true, if_true] at h
      injection h with h1 h2
      subst h1
      rw [fillSingletonBlocks_cons_first hm]
      rw [fillSingletonBlocks_found_dup b rest bl
        (some (newMessageForBlock bl b).1) bl2 restM h2]
    · rw [List.filter_cons] at h
      simp only [hm, beq_iff_eq, if_false] at h
      rw [fillSingletonBlocks_cons_nomatch hm]
      exact fillSingletonBlocks_dup_result b rest bl1 bl2 restM h

set_option maxHeartbeats 800000 in
/-- C2: for a non-repeated nested-block field whose extracted content
holds two or more blocks of the matching type, the decoder stores the
first block's decoded message in the field and emits, beyond the first
block's own decode diagnostics, exactly the one duplicate-block
diagnostic: its summary names the type, its detail names the first
block's source range, its subject is the second block's type-name range
and its context the second block's definition range. -/
theorem duplicate_singleton_block_first_kept (b : FieldNestedBlockType)
    (blocks : List Block) (bl1 bl2 : Block) (restM : List Block)
    (h : blocks.filter (fun bl => bl.btype == b.typeName) = bl1 :: bl2 :: restM)
    (f : FieldDescriptor) (hf : getFieldElem f = .ok (some (.block b)))
    (hrep : b.repeated = false) (c : BodyContent) (hc : c.blocks = blocks)
    (mr : SourceRange) (msg : ProtoMessage) (r : Bool)
    (name : String) (oneofs : List OneofDescriptor) :
    fillSingletonBlocks blocks b none none
      = (some (newMessageForBlock bl1 b).1,
         (newMessageForBlock bl1 b).2 ++ [dupBlockDiag b.typeName bl1 bl2])
    ∧ (dupBlockDiag b.typeName bl1 bl2).summary = "Duplicate " ++ b.typeName ++ " block"
    ∧ (dupBlockDiag b.typeName bl1 bl2).detail
        = "There may be no more than one " ++ b.typeName
          ++ " block. Previous block declared at " ++ bl1.defRange.render ++ "."
    ∧ (dupBlockDiag b.typeName bl1 bl2).subject = some bl2.typeRange
    ∧ (dupBlockDiag b.typeName bl1 bl2).context = some bl2.defRange
    ∧ (fillMessageFromContent c mr (.mk name [f] oneofs) msg r).1.getField f.fullName
        = some (.messageV (newMessageForBlock bl1 b).1) := by
  have hres := fillSingletonBlocks_dup_result b blocks bl1 bl2 restM h
  refine ⟨hres, rfl, rfl, rfl, rfl, ?_⟩
  show (fillFields c mr (MessageDescriptor.fields (.mk name [f] oneofs)) msg r).1.getField
    f.fullName = _
  rw [show MessageDescriptor.fields (.mk name [f] oneofs) = [f] from rfl]
  rw [fillFields_cons_block_single hf hrep]
  rw [hc, hres]
  rw [fillFields_nil]
  simp [getField_setField_eq]

/-- Child descriptor of the duplicate-block example. -/
def c2Child : MessageDescriptor := .mk "test2.Doodad" [] []

/-- The resolved nested-block element of the example field. -/
def c2Block : FieldNestedBlockType := ⟨"doodad", c2Child, false, .auto⟩

/-- A singleton nested-block field of type name doodad. -/
def c2Field : FieldDescriptor :=
  .mk "test2.Root.doodad" .message false false .bool .bool (some c2Child)
    ⟨none, some ⟨"doodad", .auto⟩, false, none⟩

/-- An empty body for the example blocks. -/
def c2EmptyBody : Body := .mk [] [] ⟨"test.tf", ⟨1, 1, 0⟩, ⟨1, 1, 0⟩⟩

/-- First doodad block, declared at test.tf:2,4-10. -/
def c2Bl1 : Block :=
  .mk "doodad" [] c2EmptyBody ⟨"test.tf", ⟨2, 4, 13⟩, ⟨2, 10, 19⟩⟩
    ⟨"test.tf", ⟨2, 4, 13⟩, ⟨2, 8, 17⟩⟩

/-- Second doodad block. -/
def c2Bl2 : Block :=
  .mk "doodad" [] c2EmptyBody ⟨"test.tf", ⟨4, 4, 33⟩, ⟨4, 10, 39⟩⟩
    ⟨"test.tf", ⟨4, 4, 33⟩, ⟨4, 8, 37⟩⟩

/-- Witness for C2 on two concrete doodad blocks. -/
theorem duplicate_singleton_block_first_kept_witness :
    fillSingletonBlocks [c2Bl1, c2Bl2] c2Block none none
      = (some (newMessageForBlock c2Bl1 c2Block).1,
         (newMessageForBlock c2Bl1 c2Block).2
           ++ [dupBlockDiag c2Block.typeName c2Bl1 c2Bl2])
    ∧ (dupBlockDiag c2Block.typeName c2Bl1 c2Bl2).detail
        = "There may be no more than one doodad block. Previous block declared at test.tf:2,4-10."
    ∧ (dupBlockDiag c2Block.typeName c2Bl1 c2Bl2).subject = some c2Bl2.typeRange
    ∧ (fillMessageFromContent ⟨[], [c2Bl1, c2Bl2]⟩ c2EmptyBody.missingRange
        (.mk "test2.Root" [c2Field] []) (.mk []) false).1.getField c2Field.fullName
        = some (.messageV (newMessageForBlock c2Bl1 c2Block).1) := by
  have h := duplicate_singleton_block_first_kept c2Block [c2Bl1, c2Bl2] c2Bl1 c2Bl2 []
    (by rfl) c2Field (by rfl) (by rfl) ⟨[], [c2Bl1, c2Bl2]⟩ (by rfl)
    c2EmptyBody.missingRange (.mk []) false "test2.Root" []
  refine ⟨h.1, ?_, h.2.2.2.1, h.2.2.2.2.2⟩
  rw [h.2.2.1]
  rfl

/-- Whether a kind is one of the fixed-size integer kinds the decoder
range-checks. -/
def isIntKind : FieldKind → Bool
  | .int32 | .sint32 | .sfixed32 | .int64 | .sint64 | .sfixed64
  | .uint32 | .fixed32 | .uint64 | .fixed64 => true
  | _ => false

/-- Lower bound of a fixed-size integer kind. -/
def intKindMin : FieldKind → Int
  | .int32 | .sint32 | .sfixed32 => -2147483648
  | .int64 | .sint64 | .sfixed64 => -9223372036854775808
  | _ => 0

/-- Upper bound of a fixed-size integer kind. -/
def intKindMax : FieldKind → Nat
  | .int32 | .sint32 | .sfixed32 => 2147483647
  | .int64 | .sint64 | .sfixed64 => 9223372036854775807
  | .uint32 | .fixed32 => 4294967295
  | _ => 18446744073709551615

/-- The stored value a fixed-size integer kind produces from the checked
integer, including the Go narrowing conversions. -/
def intWrapByKind : FieldKind → Int → ProtoFieldValue
  | .int32, i | .sint32, i | .sfixed32, i => .int32V (wrapInt32 (wrapInt64 i))
  | .int64, i | .sint64, i | .sfixed64, i => .int64V (wrapInt64 i)
  | .uint32, i | .fixed32, i => .uint32V (wrapUint32 (wrapUint64 i : Nat))
  | .uint64, i | .fixed64, i => .uint64V (wrapUint64 i)
  | _, _ => .boolV false

/-- The truncation of a whole rational is its numerator. -/
theorem ratTruncInt_den_one {q : ℚ} (h : q.den = 1) : ratTruncInt q = q.num := by
  have hq : (q.num : ℚ) = q := (Rat.den_eq_one_iff q).mp h
  rw [← hq, ratTruncInt]
  split <;> simp

/-- The integer component of the range check is always the truncation. -/
theorem intValue_fst (v : CtyValue) (rng : SourceRange) (mn : Int) (mx : Nat) :
    (intValueForFixedIntegerField v rng mn mx).1 = ratTruncInt (ratOfValue v) := by
  rw [intValueForFixedIntegerField]
  split_ifs <;> rfl

/-- A single-attribute-field message walk stores exactly the attribute
pipeline's result for that field. -/
theorem fillFields_single_attr_getField {f : FieldDescriptor} {a : FieldAttribute}
    (hE : getFieldElem f = .ok (some (.attr a))) (content : BodyContent)
    (mr : SourceRange) (name : String) (oneofs : List OneofDescriptor)
    (msg : ProtoMessage) (r : Bool) :
    (fillMessageFromContent content mr (.mk name [f] oneofs) msg r).1.getField f.fullName
      = (fillAttributeField content mr f a).1 := by
  show (fillFields content mr (MessageDescriptor.fields (.mk name [f] oneofs)) msg r).1.getField
    f.fullName = _
  rw [show MessageDescriptor.fields (.mk name [f] oneofs) = [f] from rfl]
  rw [fillFields_cons_attr hE, fillFields_nil]
  simp [getField_setField_eq]

set_option maxHeartbeats 1600000 in
/-- Shared pipeline reduction: for a non-raw integer-kind attribute with
a number constraint and a clean number-valued expression, the whole
attribute pipeline reduces to the fixed-integer range check. -/
theorem fillAttributeField_int_pipeline {f : FieldDescriptor} {a : FieldAttribute}
    {content : BodyContent} {attr0 : BodyAttribute} {q : ℚ} {rng : SourceRange}
    (mr : SourceRange)
    (hE : getFieldElem f = .ok (some (.attr a)))
    (hraw : a.rawMode = RawMode.notRaw)
    (hlist : f.isList = false) (hmap : f.isMap = false)
    (hkind : isIntKind f.kind = true)
    (htc : a.typeConstraint = (.number, []))
    (hfind : content.attributes.find? (fun x => x.name == a.name) = some attr0)
    (hexpr : attr0.expr = ⟨.number q, [], rng⟩) :
    fillAttributeField content mr f a
      = (if diagsHasErrors
            (intValueForFixedIntegerField (.number q) rng (intKindMin f.kind)
              (intKindMax f.kind)).2
         then none
         else some (intWrapByKind f.kind (ratTruncInt q)),
         (intValueForFixedIntegerField (.number q) rng (intKindMin f.kind)
           (intKindMax f.kind)).2) := by
  cases hk : f.kind <;> simp [isIntKind, hk] at hkind <;>
    rcases hint : intValueForFixedIntegerField (.number q) rng (intKindMin f.kind)
      (intKindMax f.kind) with ⟨bi, ds⟩ <;>
    have hbi : bi = ratTruncInt q := by
      have := intValue_fst (.number q) rng (intKindMin f.kind) (intKindMax f.kind)
      rw [hint] at this
      simpa [ratOfValue] using this
  all_goals (
    subst hbi
    rw [hk] at hint
    simp only [intKindMin, intKindMax] at hint ⊢
    simp [fillAttributeField, hfind, hexpr, htc, diagsHasErrors, convert, CtyType.beq,
      ctyTypeOf, CtyValue.isNull, CtyValue.isKnown, fillAttrKnown,
      valuePhysicalConstraintForFieldKind, hlist, hmap, physicalConstraintForFieldKindSingle,
      hk, fillAttrWithValue, protoValueForField, protoValueForSingletonField, hE, hraw,
      protoValueForSingletonFieldKind, hint, intWrapByKind]
    split <;> simp_all [diagsHasErrors])

/-- Every fixed-integer lower bound is nonpositive. -/
theorem intKindMin_nonpos (k : FieldKind) : intKindMin k ≤ 0 := by
  cases k <;> simp [intKindMin]

set_option maxHeartbeats 800000 in
/-- C3: for a non-raw attribute of a fixed-size integer kind with a
number constraint and a cleanly evaluated number value: a fractional
value yields the whole-number diagnostic, a value below the kind's
minimum the greater-than-or-equal diagnostic naming the minimum, a value
above the kind's maximum the less-than-or-equal diagnostic naming the
maximum, and in each error case the field of the returned message is
cleared; a whole value within the inclusive bounds is stored without
diagnostics. -/
theorem integer_attr_range_diagnostics {f : FieldDescriptor} {a : FieldAttribute}
    {content : BodyContent} {attr0 : BodyAttribute} {q : ℚ} {rng : SourceRange}
    (mr : SourceRange) (name : String) (oneofs : List OneofDescriptor)
    (msg : ProtoMessage) (r : Bool)
    (hE : getFieldElem f = .ok (some (.attr a)))
    (hraw : a.rawMode = RawMode.notRaw)
    (hlist : f.isList = false) (hmap : f.isMap = false)
    (hkind : isIntKind f.kind = true)
    (htc : a.typeConstraint = (.number, []))
    (hfind : content.attributes.find? (fun x => x.name == a.name) = some attr0)
    (hexpr : attr0.expr = ⟨.number q, [], rng⟩) :
    (q.den ≠ 1 →
      fillAttributeField content mr f a
        = (none, [⟨.error, unsuitableValueSummary, "The value must be a whole number.",
            some rng, none⟩])
      ∧ (fillMessageFromContent content mr (.mk name [f] oneofs) msg r).1.getField
          f.fullName = none)
    ∧ (q.den = 1 → q.num < intKindMin f.kind →
      fillAttributeField content mr f a
        = (none, [⟨.error, unsuitableValueSummary,
            "The value must be greater than or equal to "
              ++ toString (intKindMin f.kind) ++ ".", some rng, none⟩])
      ∧ (fillMessageFromContent content mr (.mk name [f] oneofs) msg r).1.getField
          f.fullName = none)
    ∧ (q.den = 1 → (intKindMax f.kind : Int) < q.num →
      fillAttributeField content mr f a
        = (none, [⟨.error, unsuitableValueSummary,
            "The value must be less than or equal to "
              ++ toString (intKindMax f.kind) ++ ".", some rng, none⟩])
      ∧ (fillMessageFromContent content mr (.mk name [f] oneofs) msg r).1.getField
          f.fullName = none)
    ∧ (q.den = 1 → intKindMin f.kind ≤ q.num → q.num ≤ (intKindMax f.kind : Int) →
      fillAttributeField content mr f a = (some (intWrapByKind f.kind q.num), [])) := by
  have hpipe := fillAttributeField_int_pipeline mr hE hraw hlist hmap hkind htc hfind hexpr
  have hget := fillFields_single_attr_getField hE content mr name oneofs msg r
  refine ⟨?_, ?_, ?_, ?_⟩
  · intro hden
    have hiv : intValueForFixedIntegerField (.number q) rng (intKindMin f.kind)
        (intKindMax f.kind) = (ratTruncInt q, [⟨.error, unsuitableValueSummary,
          "The value must be a whole number.", some rng, none⟩]) := by
      rw [intValueForFixedIntegerField]
      simp [ratOfValue, hden]
    rw [hiv] at hpipe
    simp only [diagsHasErrors, List.any_cons, List.any_nil] at hpipe
    simp only [beq_self_eq_true, Bool.true_or, if_true] at hpipe
    refine ⟨hpipe, ?_⟩
    rw [hget, hpipe]
  · intro hden hlo
    have ht := ratTruncInt_den_one hden
    have hiv : intValueForFixedIntegerField (.number q) rng (intKindMin f.kind)
        (intKindMax f.kind) = (ratTruncInt q, [⟨.error, unsuitableValueSummary,
          "The value must be greater than or equal to "
            ++ toString (intKindMin f.kind) ++ ".", some rng, none⟩]) := by
      rw [intValueForFixedIntegerField]
      simp only [ratOfValue, hden, ht]
      simp [hlo]
    rw [hiv] at hpipe
    simp only [diagsHasErrors, List.any_cons, List.any_nil] at hpipe
    simp only [beq_self_eq_true, Bool.true_or, if_true] at hpipe
    refine ⟨hpipe, ?_⟩
    rw [hget, hpipe]
  · intro hden hhi
    have ht := ratTruncInt_den_one hden
    have hiv : intValueForFixedIntegerField (.number q) rng (intKindMin f.kind)
        (intKindMax f.kind) = (ratTruncInt q, [⟨.error, unsuitableValueSummary,
          "The value must be less than or equal to "
            ++ toString (intKindMax f.kind) ++ ".", some rng, none⟩]) := by
      rw [intValueForFixedIntegerField]
      simp only [ratOfValue, hden, ht]
      have hmn := intKindMin_nonpos f.kind
      have hnlo : ¬ q.num < intKindMin f.kind := by omega
      simp [hnlo, hhi]
    rw [hiv] at hpipe
    simp only [diagsHasErrors, List.any_cons, List.any_nil] at hpipe
    simp only [beq_self_eq_true, Bool.true_or, if_true] at hpipe
    refine ⟨hpipe, ?_⟩
    rw [hget, hpipe]
  · intro hden hlo hhi
    have ht := ratTruncInt_den_one hden
    have hiv : intValueForFixedIntegerField (.number q) rng (intKindMin f.kind)
        (intKindMax f.kind) = (ratTruncInt q, []) := by
      rw [intValueForFixedIntegerField]
      simp only [ratOfValue, hden, ht]
      have hnlo : ¬ q.num < intKindMin f.kind := by omega
      have hnhi : ¬ (intKindMax f.kind : Int) < q.num := by omega
      simp [hnlo, hnhi]
    rw [hiv] at hpipe
    simp only [diagsHasErrors, List.any_nil, if_false, Bool.false_eq_true] at hpipe
    rw [ht] at hpipe
    simpa using hpipe

/-- Expression range of the witness attribute. -/
def c3Rng : SourceRange := ⟨"test.tf", ⟨1, 7, 6⟩, ⟨1, 10, 9⟩⟩

/-- Name range of the witness attribute. -/
def c3NameRng : SourceRange := ⟨"test.tf", ⟨1, 1, 0⟩, ⟨1, 4, 3⟩⟩

/-- Missing-item range of the witness body. -/
def c3Mr : SourceRange := ⟨"test.tf", ⟨2, 1, 12⟩, ⟨2, 1, 12⟩⟩

/-- Content binding num to the fractional value 5/2. -/
def c3ContentFrac : BodyContent :=
  ⟨[⟨"num", ⟨.number (mkRat 5 2), [], c3Rng⟩, c3NameRng⟩], []⟩

/-- Content binding num to 2147483648, one above the int32 maximum. -/
def c3ContentBig : BodyContent :=
  ⟨[⟨"num", ⟨.number (mkRat 2147483648 1), [], c3Rng⟩, c3NameRng⟩], []⟩

/-- Content binding num to the int32 maximum itself. -/
def c3ContentMax : BodyContent :=
  ⟨[⟨"num", ⟨.number (mkRat 2147483647 1), [], c3Rng⟩, c3NameRng⟩], []⟩

/-- Witness for C3 on an int32 attribute: a fractional value and an
out-of-range value are rejected with the claimed diagnostics and leave
the field cleared; the inclusive maximum itself is stored cleanly. -/
theorem integer_attr_range_diagnostics_witness :
    (fillAttributeField c3ContentFrac c3Mr sampleNumField sampleNumAttr
      = (none, [⟨.error, unsuitableValueSummary, "The value must be a whole number.",
          some c3Rng, none⟩])
      ∧ (fillMessageFromContent c3ContentFrac c3Mr (.mk "t.M" [sampleNumField] [])
          (.mk []) false).1.getField sampleNumField.fullName = none)
    ∧ fillAttributeField c3ContentBig c3Mr sampleNumField sampleNumAttr
      = (none, [⟨.error, unsuitableValueSummary,
          "The value must be less than or equal to 2147483647.", some c3Rng, none⟩])
    ∧ fillAttributeField c3ContentMax c3Mr sampleNumField sampleNumAttr
      = (some (.int32V 2147483647), []) := by
  refine ⟨?_, ?_, ?_⟩
  · exact (@integer_attr_range_diagnostics sampleNumField sampleNumAttr c3ContentFrac
      ⟨"num", ⟨.number (mkRat 5 2), [], c3Rng⟩, c3NameRng⟩ (mkRat 5 2) c3Rng
      c3Mr "t.M" [] (.mk []) false
      (by rfl) (by rfl) (by rfl) (by rfl) (by rfl) (by rfl) (by rfl) (by rfl)).1
      (by decide)
  · have h := (@integer_attr_range_diagnostics sampleNumField sampleNumAttr c3ContentBig
      ⟨"num", ⟨.number (mkRat 2147483648 1), [], c3Rng⟩, c3NameRng⟩ (mkRat 2147483648 1) c3Rng
      c3Mr "t.M" [] (.mk []) false
      (by rfl) (by rfl) (by rfl) (by rfl) (by rfl) (by rfl) (by rfl) (by rfl)).2.2.1
      (by decide) (by decide)
    exact h.1
  · have h := (@integer_attr_range_diagnostics sampleNumField sampleNumAttr c3ContentMax
      ⟨"num", ⟨.number (mkRat 2147483647 1), [], c3Rng⟩, c3NameRng⟩ (mkRat 2147483647 1) c3Rng
      c3Mr "t.M" [] (.mk []) false
      (by rfl) (by rfl) (by rfl) (by rfl) (by rfl) (by rfl) (by rfl) (by rfl)).2.2.2
      (by decide) (by decide) (by decide)
    rw [h]
    have hval : intWrapByKind sampleNumField.kind (mkRat 2147483647 1).num
        = .int32V 2147483647 := by
      show intWrapByKind FieldKind.int32 2147483647 = _
      simp only [intWrapByKind]
      norm_num [wrapInt32, wrapInt64, Int.emod_emod_of_dvd]
    rw [hval]

/-- The value the field walk leaves in one field, as a function of that
field alone: `none` when the walk does not touch the field (no
annotation, a block label, or an annotation-resolution error), and
`some v` when the walk clears the field and then leaves it holding `v`
(`some v = some none` meaning it stays cleared). -/
def fieldFillResult (c : BodyContent) (mr : SourceRange) (f : FieldDescriptor)
    (r : Bool) : Option (Option ProtoFieldValue) :=
  match getFieldElem f with
  | .error _ => none
  | .ok none => none
  | .ok (some (.label _)) => none
  | .ok (some (.attr a)) => some (fillAttributeField c mr f a).1
  | .ok (some (.block b)) =>
    if b.repeated then some none
    else some ((fillSingletonBlocks c.blocks b none none).1.map
      (fun nm => ProtoFieldValue.messageV nm))
  | .ok (some (.flattened child)) =>
    some (some (.messageV (fillFields c mr child.fields (newMessage child) r).1))

/-- Frame property of the field walk: a name outside the walked fields is
never written. -/
theorem fillFields_frame (c : BodyContent) (mr : SourceRange) (r : Bool) (k : String) :
    ∀ (fields : List FieldDescriptor) (msg : ProtoMessage),
    k ∉ fields.map FieldDescriptor.fullName →
    (fillFields c mr fields msg r).1.getField k = msg.getField k
  | [], msg, _ => by rw [fillFields_nil]
  | f :: rest, msg, hk => by
    simp only [List.map_cons, List.mem_cons, not_or] at hk
    obtain ⟨hk1, hk2⟩ := hk
    cases h : getFieldElem f with
    | error e =>
      rw [fillFields_cons_err h]
      exact fillFields_frame c mr r k rest msg hk2
    | ok oe =>
      cases oe with
      | none =>
        rw [fillFields_cons_none h]
        exact fillFields_frame c mr r k rest msg hk2
      | some el =>
        cases el with
        | label nm =>
          rw [fillFields_cons_label h]
          exact fillFields_frame c mr r k rest msg hk2
        | attr a =>
          rw [fillFields_cons_attr h]
          exact (fillFields_frame c mr r k rest _ hk2).trans
            (getField_setField_ne msg k f.fullName _ hk1)
        | block b =>
          cases hrep : b.repeated with
          | true =>
            rw [fillFields_cons_block_rep h hrep]
            exact (fillFields_frame c mr r k rest _ hk2).trans
              (getField_setField_ne msg k f.fullName _ hk1)
          | false =>
            rw [fillFields_cons_block_single h hrep]
            exact (fillFields_frame c mr r k rest _ hk2).trans
              (getField_setField_ne msg k f.fullName _ hk1)
        | flattened child =>
          rw [fillFields_cons_flat h]
          exact (fillFields_frame c mr r k rest _ hk2).trans
            (getField_setField_ne msg k f.fullName _ hk1)

theorem fillFields_touched_closed (c : BodyContent) (mr : SourceRange) (r : Bool) :
    ∀ (fields : List FieldDescriptor) (msg : ProtoMessage),
    (fields.map FieldDescriptor.fullName).Nodup →
    ∀ f ∈ fields,
    (fillFields c mr fields msg r).1.getField f.fullName
      = match fieldFillResult c mr f r with
        | some v => v
        | none => msg.getField f.fullName
  | [], msg, _, f, hf => absurd hf (List.not_mem_nil f)
  | f0 :: rest, msg, hnd, f, hf => by
    simp only [List.map_cons, List.nodup_cons] at hnd
    obtain ⟨hni, hnd2⟩ := hnd
    rcases List.mem_cons.mp hf with hfe | hfr
    · subst hfe
      cases h : getFieldElem f with
      | error e =>
        rw [fillFields_cons_err h]
        simp only [fieldFillResult, h]
        exact fillFields_frame c mr r f.fullName rest msg hni
      | ok oe =>
        cases oe with
        | none =>
          rw [fillFields_cons_none h]
          simp only [fieldFillResult, h]
          exact fillFields_frame c mr r f.fullName rest msg hni
        | some el =>
          cases el with
          | label nm =>
            rw [fillFields_cons_label h]
            simp only [fieldFillResult, h]
            exact fillFields_frame c mr r f.fullName rest msg hni
          | attr a =>
            rw [fillFields_cons_attr h]
            simp only [fieldFillResult, h]
            exact (fillFields_frame c mr r f.fullName rest _ hni).trans
              (getField_setField_eq msg f.fullName _)
          | block b =>
            cases hrep : b.repeated with
            | true =>
              rw [fillFields_cons_block_rep h hrep]
              simp only [fieldFillResult, h, hrep, if_true]
              exact (fillFields_frame c mr r f.fullName rest _ hni).trans
                (getField_setField_eq msg f.fullName _)
            | false =>
              rw [fillFields_cons_block_single h hrep]
              simp only [fieldFillResult, h, hrep, Bool.false_eq_true, if_false]
              exact (fillFields_frame c mr r f.fullName rest _ hni).trans
                (getField_setField_eq msg f.fullName _)
          | flattened child =>
            rw [fillFields_cons_flat h]
            simp only [fieldFillResult, h]
            exact (fillFields_frame c mr r f.fullName rest _ hni).trans
              (getField_setField_eq msg f.fullName _)
    · have hne : f.fullName ≠ f0.fullName := by
        intro heq
        exact hni (heq ▸ List.mem_map_of_mem FieldDescriptor.fullName hfr)
      have step : ∀ msg2 : ProtoMessage,
          (fillFields c mr rest msg2 r).1.getField f.fullName
            = match fieldFillResult c mr f r with
              | some v => v
              | none => msg2.getField f.fullName :=
        fun msg2 => fillFields_touched_closed c mr r rest msg2 hnd2 f hfr
      cases h : getFieldElem f0 with
      | error e =>
        rw [fillFields_cons_err h, step msg]
      | ok oe =>
        cases oe with
        | none => rw [fillFields_cons_none h, step msg]
        | some el =>
          cases el with
          | label nm => rw [fillFields_cons_label h, step msg]
          | attr a =>
            rw [fillFields_cons_attr h, step _]
            cases hres : fieldFillResult c mr f r <;> simp only []
            rw [getField_setField_ne msg _ _ _ hne]
          | block b =>
            cases hrep : b.repeated with
            | true =>
              rw [fillFields_cons_block_rep h hrep, step _]
              cases hres : fieldFillResult c mr f r <;> simp only []
              rw [getField_setField_ne msg _ _ _ hne]
            | false =>
              rw [fillFields_cons_block_single h hrep, step _]
              cases hres : fieldFillResult c mr f r <;> simp only []
              rw [getField_setField_ne msg _ _ _ hne]
          | flattened child =>
            rw [fillFields_cons_flat h, step _]
            cases hres : fieldFillResult c mr f r <;> simp only []
            rw [getField_setField_ne msg _ _ _ hne]

/-- C9: in any field walk over a descriptor whose field names are
pairwise distinct, every field the decoder touches ends up exactly at the
value of its own per-field pipeline — cleared, or fully populated with
the converted value — regardless of the incoming message and of errors
arising at other fields, and a field the walk does not touch keeps its
prior value; so the returned message is always readable. -/
theorem decode_fields_cleared_or_populated (c : BodyContent) (mr : SourceRange)
    (desc : MessageDescriptor) (msg : ProtoMessage) (r : Bool)
    (hnd : (desc.fields.map FieldDescriptor.fullName).Nodup) :
    ∀ f ∈ desc.fields,
    (fillMessageFromContent c mr desc msg r).1.getField f.fullName
      = match fieldFillResult c mr f r with
        | some v => v
        | none => msg.getField f.fullName := by
  intro f hf
  exact fillFields_touched_closed c mr r desc.fields msg hnd f hf

/-- Witness for C9: over empty content, the attribute field and the
singleton-block field of a two-field descriptor are both left cleared in
the returned message, starting from a message that held junk in one of
them. -/
theorem decode_fields_cleared_or_populated_witness :
    (fillMessageFromContent ⟨[], []⟩ c3Mr (.mk "t.M2" [sampleNumField, c2Field] [])
        (ProtoMessage.mk [("t.num", some (.boolV true))]) false).1.getField
      sampleNumField.fullName = none
    ∧ (fillMessageFromContent ⟨[], []⟩ c3Mr (.mk "t.M2" [sampleNumField, c2Field] [])
        (ProtoMessage.mk [("t.num", some (.boolV true))]) false).1.getField
      c2Field.fullName = none := by
  have hnd : (((MessageDescriptor.mk "t.M2" [sampleNumField, c2Field] []).fields).map
      FieldDescriptor.fullName).Nodup := by
    simp [MessageDescriptor.fields, sampleNumField, c2Field, FieldDescriptor.fullName]
  have h1 := decode_fields_cleared_or_populated ⟨[], []⟩ c3Mr
    (.mk "t.M2" [sampleNumField, c2Field] [])
    (ProtoMessage.mk [("t.num", some (.boolV true))]) false hnd
    sampleNumField (List.mem_cons_self _ _)
  have h2 := decode_fields_cleared_or_populated ⟨[], []⟩ c3Mr
    (.mk "t.M2" [sampleNumField, c2Field] [])
    (ProtoMessage.mk [("t.num", some (.boolV true))]) false hnd
    c2Field (List.mem_cons_of_mem _ (List.mem_cons_self _ _))
  have hfr1 : fieldFillResult ⟨[], []⟩ c3Mr sampleNumField false = some none := by
    simp only [fieldFillResult]
    rw [show getFieldElem sampleNumField = .ok (some (.attr sampleNumAttr)) from rfl]
    rfl
  have hfr2 : fieldFillResult ⟨[], []⟩ c3Mr c2Field false = some none := by
    simp only [fieldFillResult]
    rw [show getFieldElem c2Field = .ok (some (.block c2Block)) from rfl]
    simp [c2Block, fillSingletonBlocks_nil]
  rw [hfr1] at h1
  rw [hfr2] at h2
  exact ⟨h1, h2⟩

/-- Reflection of a directly-annotated empty bytes value is an untyped
null. -/
theorem hclValue_empty_bytes (attr : FieldAttribute) :
    hclValueForProtoFieldValue (.bytesV []) attr false = .ok (.nullV .dynamic) := by
  rw [hclValueForProtoFieldValue]
  simp

set_option maxHeartbeats 800000 in
/-- C5: for a raw-mode bytes attribute field, an empty byte-string
reflects to a null of the dynamic pseudo-type; and decoding an
expression whose converted value is null leaves the field cleared, so
the stored bytes read back empty and reflect to null again — the two
representations round-trip in both directions. -/
theorem raw_bytes_null_roundtrip {f : FieldDescriptor} {a : FieldAttribute}
    {content : BodyContent} {attr0 : BodyAttribute} {vnull : CtyValue}
    (mr : SourceRange) (name : String) (oneofs : List OneofDescriptor)
    (msg : ProtoMessage) (r : Bool)
    (hE : getFieldElem f = .ok (some (.attr a)))
    (hkb : f.kind = FieldKind.bytes) (hlist : f.isList = false) (hmap : f.isMap = false)
    (hreq : a.required = false)
    (hfind : content.attributes.find? (fun x => x.name == a.name) = some attr0)
    (hched : diagsHasErrors attr0.expr.diags = false)
    (htc2 : diagsHasErrors a.typeConstraint.2 = false)
    (hconv : convert attr0.expr.value a.typeConstraint.1 = .ok vnull)
    (hnull : vnull.isNull = true) :
    hclValueForProtoFieldValue (.bytesV []) a false = .ok (.nullV .dynamic)
    ∧ fillAttributeField content mr f a = (none, attr0.expr.diags ++ a.typeConstraint.2)
    ∧ (fillMessageFromContent content mr (.mk name [f] oneofs) msg r).1.getField
        f.fullName = none
    ∧ (fillMessageFromContent content mr (.mk name [f] oneofs) msg r).1.getOrDefault f
        = .bytesV []
    ∧ hclValueForProtoFieldValue
        ((fillMessageFromContent content mr (.mk name [f] oneofs) msg r).1.getOrDefault f)
        a false = .ok (.nullV .dynamic) := by
  have hfill : fillAttributeField content mr f a
      = (none, attr0.expr.diags ++ a.typeConstraint.2) := by
    simp [fillAttributeField, hfind, hched, htc2, hconv, hnull, hreq]
  have hget : (fillMessageFromContent content mr (.mk name [f] oneofs) msg r).1.getField
      f.fullName = none := by
    rw [fillFields_single_attr_getField hE content mr name oneofs msg r, hfill]
  have hdef : (fillMessageFromContent content mr (.mk name [f] oneofs) msg r).1.getOrDefault f
      = .bytesV [] := by
    rw [ProtoMessage.getOrDefault, hget]
    simp [newFieldDefault, hlist, hmap, hkb]
  refine ⟨hclValue_empty_bytes a, hfill, hget, hdef, ?_⟩
  rw [hdef]
  exact hclValue_empty_bytes a

/-- A raw-mode JSON bytes attribute field with an explicit any
constraint. -/
def c5Field : FieldDescriptor :=
  .mk "t.raw" .bytes false false .bool .bool none
    ⟨some ⟨"raw", false, "any", .json⟩, none, false, none⟩

/-- The resolved attribute element of c5Field. -/
def c5Attr : FieldAttribute := ⟨"raw", false, "any", .json, c5Field⟩

/-- Content binding raw to a literal null. -/
def c5Content : BodyContent :=
  ⟨[⟨"raw", ⟨.nullV .dynamic, [], c3Rng⟩, c3NameRng⟩], []⟩

/-- Witness for C5: the concrete raw field decodes a null to a cleared
field whose bytes read back empty and reflect to null(dynamic). -/
theorem raw_bytes_null_roundtrip_witness :
    hclValueForProtoFieldValue (.bytesV []) c5Attr false = .ok (.nullV .dynamic)
    ∧ fillAttributeField c5Content c3Mr c5Field c5Attr = (none, [])
    ∧ (fillMessageFromContent c5Content c3Mr (.mk "t.M3" [c5Field] [])
        (.mk []) false).1.getOrDefault c5Field = .bytesV []
    ∧ hclValueForProtoFieldValue
        ((fillMessageFromContent c5Content c3Mr (.mk "t.M3" [c5Field] [])
          (.mk []) false).1.getOrDefault c5Field) c5Attr false
        = .ok (.nullV .dynamic) := by
  have h := @raw_bytes_null_roundtrip c5Field c5Attr c5Content
    ⟨"raw", ⟨.nullV .dynamic, [], c3Rng⟩, c3NameRng⟩ (.nullV .dynamic)
    c3Mr "t.M3" [] (.mk []) false
    (by rfl) (by rfl) (by rfl) (by rfl) (by rfl) (by rfl) (by rfl) (by rfl)
    (by rfl) (by rfl)
  refine ⟨h.1, ?_, h.2.2.2.1, h.2.2.2.2⟩
  have h2 := h.2.1
  simpa using h2

mutual

/-- Whether a stored field value carries no data: only a message value
all of whose own entries are hollow qualifies. -/
def ProtoFieldValue.isHollow : ProtoFieldValue → Bool
  | .messageV m => ProtoMessage.isHollow m
  | _ => false

/-- Whether every stored entry of a message is unset or hollow: the
message holds no data and reads as empty. -/
def ProtoMessage.isHollow : ProtoMessage → Bool
  | .mk es => entriesHollow es

/-- Helper over entry lists. -/
def entriesHollow : List (String × Option ProtoFieldValue) → Bool
  | [] => true
  | (_, none) :: rest => entriesHollow rest
  | (_, some v) :: rest => v.isHollow && entriesHollow rest

end

/-- Hollowness of an optional stored value. -/
def optionHollow : Option ProtoFieldValue → Bool
  | none => true
  | some v => v.isHollow

theorem entriesHollow_setEntry {es : List (String × Option ProtoFieldValue)}
    {v : Option ProtoFieldValue} (k : String)
    (hes : entriesHollow es = true) (hv : optionHollow v = true) :
    entriesHollow (setEntry es k v) = true := by
  induction es with
  | nil =>
    cases v with
    | none => simp [setEntry, entriesHollow]
    | some v0 => simpa [setEntry, entriesHollow, optionHollow] using hv
  | cons p rest ih =>
    match p with
    | (k0, v0) =>
      by_cases hk : k0 = k
      · subst hk
        cases v0 with
        | none =>
          simp only [entriesHollow] at hes
          cases v with
          | none => simpa [setEntry, entriesHollow]
          | some w => simpa [setEntry, entriesHollow, optionHollow, hes] using hv
        | some w =>
          simp only [entriesHollow, Bool.and_eq_true] at hes
          cases v with
          | none => simpa [setEntry, entriesHollow] using hes.2
          | some w2 =>
            simp only [setEntry, if_true, entriesHollow, Bool.and_eq_true]
            exact ⟨by simpa [optionHollow] using hv, hes.2⟩
      · cases v0 with
        | none =>
          simp only [entriesHollow] at hes
          simpa [setEntry, hk, entriesHollow] using ih hes
        | some w =>
          simp only [entriesHollow, Bool.and_eq_true] at hes
          simp only [setEntry, hk, if_false, entriesHollow, Bool.and_eq_true]
          exact ⟨hes.1, ih hes.2⟩

/-- Writing an unset or hollow value preserves hollowness. -/
theorem isHollow_setField {m : ProtoMessage} {v : Option ProtoFieldValue} (k : String)
    (hm : m.isHollow = true) (hv : optionHollow v = true) :
    (m.setField k v).isHollow = true := by
  cases m with
  | mk es =>
    simpa [ProtoMessage.setField, ProtoMessage.isHollow, ProtoMessage.entries]
      using entriesHollow_setEntry k (by simpa [ProtoMessage.isHollow] using hm) hv

/-- On empty content the attribute pipeline never produces a value. -/
theorem fillAttributeField_empty_none (mr : SourceRange) (f : FieldDescriptor)
    (a : FieldAttribute) : (fillAttributeField ⟨[], []⟩ mr f a).1 = none := by
  simp [fillAttributeField, List.find?]

set_option maxHeartbeats 800000 in
theorem fillFields_hollow_all (mr : SourceRange) (r : Bool) (n : Nat) :
    ∀ (fields : List FieldDescriptor) (msg : ProtoMessage), sizeOf fields < n →
    msg.isHollow = true →
    (fillFields ⟨[], []⟩ mr fields msg r).1.isHollow = true := by
  induction n using Nat.strong_induction_on with
  | _ n ih =>
    intro fields msg hsz hm
    match fields with
    | [] => rw [fillFields_nil]; exact hm
    | f :: rest =>
      have hszr : sizeOf rest < sizeOf (f :: rest) := by
        simp only [List.cons.sizeOf_spec]; omega
      have htail : ∀ msg2 : ProtoMessage, msg2.isHollow = true →
          (fillFields ⟨[], []⟩ mr rest msg2 r).1.isHollow = true := by
        intro msg2 hm2
        exact ih (sizeOf (f :: rest)) hsz rest msg2 hszr hm2
      cases h : getFieldElem f with
      | error e =>
        rw [fillFields_cons_err h]
        exact htail msg hm
      | ok oe =>
        cases oe with
        | none => rw [fillFields_cons_none h]; exact htail msg hm
        | some el =>
          cases el with
          | label nm => rw [fillFields_cons_label h]; exact htail msg hm
          | attr a =>
            rw [fillFields_cons_attr h]
            refine htail _ (isHollow_setField _ hm ?_)
            rw [fillAttributeField_empty_none]
            rfl
          | block b =>
            cases hrep : b.repeated with
            | true =>
              rw [fillFields_cons_block_rep h hrep]
              exact htail _ (isHollow_setField _ hm (by rfl))
            | false =>
              rw [fillFields_cons_block_single h hrep]
              refine htail _ (isHollow_setField _ hm ?_)
              rw [show BodyContent.blocks ⟨[], []⟩ = [] from rfl]
              rw [fillSingletonBlocks_nil]
              rfl
          | flattened child =>
            rw [fillFields_cons_flat h]
            refine htail _ (isHollow_setField _ hm ?_)
            have hchild : sizeOf child.fields < sizeOf (f :: rest) := by
              have h1 := sizeOf_message_lt (getFieldElem_flattened_message h)
              have h2 := sizeOf_fields_lt child
              simp only [List.cons.sizeOf_spec]
              omega
            have := ih (sizeOf (f :: rest)) hsz child.fields (newMessage child) hchild
              (by rfl)
            simpa [optionHollow, ProtoFieldValue.isHollow] using this

/-- Reduction of decodeBody when schema compilation fails: the nil
schema yields empty content and the walk starts from a fresh message,
with the schema-error diagnostic reported first. -/
theorem decodeBody_schema_error {desc : MessageDescriptor} {e : SchemaError}
    (he : bodySchema desc = .error e) (body : Body) :
    decodeBody body desc
      = ((fillFields ⟨[], []⟩ body.missingRange desc.fields (.mk []) true).1,
         schemaErrorDiagnostic e
           :: (fillFields ⟨[], []⟩ body.missingRange desc.fields (.mk []) true).2) := by
  rw [decodeBody]
  simp [he, contentOfBody, newMessage]

/-- C1: when schema compilation of the descriptor fails, decoding any
body reports the schema error as the first diagnostic (so the
diagnostics carry an error), and still returns a hollow message — every
field unset or holding only hollow flatten submessages — which the
caller may read. -/
theorem schema_error_decode_reports_and_returns_empty
    {desc : MessageDescriptor} {e : SchemaError} (body : Body)
    (he : bodySchema desc = .error e) :
    (decodeBody body desc).2.head? = some (schemaErrorDiagnostic e)
    ∧ diagsHasErrors (decodeBody body desc).2 = true
    ∧ (decodeBody body desc).1.isHollow = true := by
  rw [decodeBody_schema_error he body]
  refine ⟨rfl, ?_, ?_⟩
  · simp [diagsHasErrors, schemaErrorDiagnostic, SchemaError.diagnostic]
  · exact fillFields_hollow_all body.missingRange true (sizeOf desc.fields + 1)
      desc.fields (.mk []) (Nat.lt_succ_self _) (by rfl)

/-- A field annotated as both attribute and nested block: an invalid
schema. -/
def c1BadField : FieldDescriptor :=
  .mk "t.bad" .string false false .bool .bool none
    ⟨some ⟨"x", false, "", .notRaw⟩, some ⟨"x", .auto⟩, false, none⟩

/-- A descriptor whose schema compilation fails. -/
def c1BadDesc : MessageDescriptor := .mk "t.Bad" [c1BadField] []

/-- The schema error c1BadDesc produces. -/
def c1Err : SchemaError :=
  schemaErrorf "t.bad"
    ("cannot be both attribute " ++ quoteGo "x" ++ " and nested block type " ++ quoteGo "x")

/-- Schema compilation of the bad descriptor fails with c1Err. -/
theorem bodySchema_c1BadDesc : bodySchema c1BadDesc = .error c1Err := by
  have hE : getFieldElem c1BadField = .error c1Err := rfl
  rw [bodySchema]
  simp only [MessageDescriptor.oneofs, MessageDescriptor.fields, List.find?, c1BadDesc]
  rw [bodySchemaFields_cons_error hE]

/-- Witness for C1: decoding an empty body against the bad descriptor
reports the schema error first and returns a hollow message. -/
theorem schema_error_decode_witness :
    (decodeBody c2EmptyBody c1BadDesc).2.head? = some (schemaErrorDiagnostic c1Err)
    ∧ diagsHasErrors (decodeBody c2EmptyBody c1BadDesc).2 = true
    ∧ (decodeBody c2EmptyBody c1BadDesc).1.isHollow = true :=
  schema_error_decode_reports_and_returns_empty c2EmptyBody bodySchema_c1BadDesc

theorem buildObjectValueAttrs_nil (msg : ProtoMessage)
    (atys : List (String × CtyValue)) :
    buildObjectValueAttrs msg [] atys = .ok atys := by
  rw [buildObjectValueAttrs]

theorem objectValuesForMessages_nil (nested : MessageDescriptor) :
    objectValuesForMessages [] nested = .ok [] := by
  rw [objectValuesForMessages]

theorem objectValuesForMessages_cons_msg (m : ProtoMessage)
    (rest : List ProtoFieldValue) (nested : MessageDescriptor) :
    objectValuesForMessages (ProtoFieldValue.messageV m :: rest) nested
      = match objectValueForMessage m nested with
        | .error e => .error e
        | .ok obj =>
          match objectValuesForMessages rest nested with
          | .error e => .error e
          | .ok objs => .ok (obj :: objs) := by
  rw [objectValuesForMessages]
  rfl

/-- Reduction of the value walk at a LIST-kind repeated nested-block
field. -/
theorem buildObjectValueAttrs_cons_block_list {f : FieldDescriptor}
    {b : FieldNestedBlockType}
    (h : getFieldElem f = .ok (some (.block b)))
    (hk : b.collectionKind = CollectionKind.list)
    (msg : ProtoMessage) (rest : List FieldDescriptor)
    (atys : List (String × CtyValue)) :
    buildObjectValueAttrs msg (f :: rest) atys
      = match objectValuesForMessages ((msg.getOrDefault f).listElems) b.nested with
        | .error e => .error e
        | .ok velems =>
          match velems with
          | [] =>
            match f.message with
            | none => .error (schemaErrStr f.fullName "field has no message type")
            | some md =>
              match objectTypeConstraintForMessageDesc md with
              | .error e => .error e.errorString
              | .ok nestedTy =>
                buildObjectValueAttrs msg rest
                  (insertAtySorted b.typeName (.list nestedTy []) atys)
          | hd :: tl =>
            buildObjectValueAttrs msg rest
              (insertAtySorted b.typeName (.list (ctyTypeOf hd) (hd :: tl)) atys) := by
  have hka : ¬ b.collectionKind = CollectionKind.auto := by rw [hk]; intro hcon; cases hcon
  rw [buildObjectValueAttrs]
  split <;> simp_all

/-- Element-wise specification of the repeated-block reflection: result
count equals input count and each position reflects the corresponding
child message. -/
theorem objectValuesForMessages_ok_spec (nested : MessageDescriptor) :
    ∀ (ms : List ProtoMessage) (vs : List CtyValue),
    objectValuesForMessages (ms.map ProtoFieldValue.messageV) nested = .ok vs →
    vs.length = ms.length
      ∧ ∀ (i : Nat) (hi : i < vs.length) (hm : i < ms.length),
          objectValueForMessage (ms.get ⟨i, hm⟩) nested = .ok (vs.get ⟨i, hi⟩)
  | [], vs, h => by
    rw [List.map_nil, objectValuesForMessages_nil] at h
    injection h with h
    subst h
    exact ⟨rfl, fun i hi _ => absurd hi (by simp)⟩
  | m :: ms, vs, h => by
    rw [List.map_cons, objectValuesForMessages_cons_msg] at h
    cases ho : objectValueForMessage m nested with
    | error e => rw [ho] at h; exact Except.noConfusion h
    | ok obj =>
      rw [ho] at h
      cases hrest : objectValuesForMessages (ms.map ProtoFieldValue.messageV) nested with
      | error e => rw [hrest] at h; exact Except.noConfusion h
      | ok objs =>
        rw [hrest] at h
        injection h with h
        subst h
        have ih := objectValuesForMessages_ok_spec nested ms objs hrest
        refine ⟨by simp [ih.1], ?_⟩
        intro i hi hm
        cases i with
        | zero => simpa using ho
        | succ j =>
          have hj : j < objs.length := by simpa using hi
          have hjm : j < ms.length := by simpa using hm
          simpa using ih.2 j hj hjm

set_option maxHeartbeats 800000 in
/-- C6: for a repeated nested-block field with collection kind LIST
holding n child messages, the reflected attribute is a list of exactly n
object values, position i being the reflection of child i (order
preserved); with no children it is an empty list whose element type is
the child descriptor's object constraint. -/
theorem repeated_list_block_reflection {f : FieldDescriptor}
    {b : FieldNestedBlockType} (msg : ProtoMessage) (ms : List ProtoMessage)
    (h : getFieldElem f = .ok (some (.block b)))
    (hk : b.collectionKind = CollectionKind.list)
    (hfield : msg.getOrDefault f = .listV (ms.map ProtoFieldValue.messageV)) :
    (∀ vs, objectValuesForMessages (ms.map ProtoFieldValue.messageV) b.nested = .ok vs →
      vs.length = ms.length
        ∧ (∀ (i : Nat) (hi : i < vs.length) (hm : i < ms.length),
            objectValueForMessage (ms.get ⟨i, hm⟩) b.nested = .ok (vs.get ⟨i, hi⟩))
        ∧ ∀ hd tl, vs = hd :: tl →
            buildObjectValueAttrs msg [f] []
              = .ok [(b.typeName, .list (ctyTypeOf hd) (hd :: tl))])
    ∧ (ms = [] → ∀ nestedTy, objectTypeConstraintForMessageDesc b.nested = .ok nestedTy →
        buildObjectValueAttrs msg [f] []
          = .ok [(b.typeName, .list nestedTy [])]) := by
  have hmd : f.message = some b.nested := getFieldElem_block_message h
  have hred := buildObjectValueAttrs_cons_block_list h hk msg [] []
  rw [hfield] at hred
  rw [show (ProtoFieldValue.listV (ms.map ProtoFieldValue.messageV)).listElems
    = ms.map ProtoFieldValue.messageV from rfl] at hred
  constructor
  · intro vs hvs
    have hspec := objectValuesForMessages_ok_spec b.nested ms vs hvs
    refine ⟨hspec.1, hspec.2, ?_⟩
    intro hd tl hcons
    subst hcons
    rw [hred, hvs]
    simp [buildObjectValueAttrs_nil, insertAtySorted]
  · intro hnil nestedTy hty
    subst hnil
    rw [hred]
    simp [objectValuesForMessages_nil, hmd, hty, buildObjectValueAttrs_nil, insertAtySorted]

/-- A repeated LIST-kind doodad block field. -/
def c6Field : FieldDescriptor :=
  .mk "t.doodads" .message true false .bool .bool (some c2Child)
    ⟨none, some ⟨"doodad", .list⟩, false, none⟩

/-- The resolved nested-block element of c6Field. -/
def c6Block : FieldNestedBlockType := ⟨"doodad", c2Child, true, .list⟩

/-- A message holding two child messages in the repeated field. -/
def c6Msg : ProtoMessage :=
  .mk [("t.doodads", some (.listV [.messageV (.mk []), .messageV (.mk [])]))]

/-- A message holding no child messages in the repeated field. -/
def c6MsgEmpty : ProtoMessage := .mk [("t.doodads", some (.listV []))]

/-- Reflection of an empty child message is the empty object. -/
theorem objectValueForMessage_c2Child :
    objectValueForMessage (.mk []) c2Child = .ok (.object []) := by
  rw [objectValueForMessage]
  rw [show c2Child.fields = [] from rfl, buildObjectValueAttrs_nil]

/-- Object constraint of the empty child descriptor. -/
theorem objectTypeConstraint_c2Child :
    objectTypeConstraintForMessageDesc c2Child = .ok (.object []) := by
  rw [objectTypeConstraintForMessageDesc]
  rw [show c2Child.fields = [] from rfl]
  rw [show buildObjectTypeAtys [] [] = .ok [] from by rw [buildObjectTypeAtys]]

/-- Witness for C6: two children reflect to a two-element list of empty
objects in order, and no children reflect to an empty list typed by the
child's object constraint. -/
theorem repeated_list_block_reflection_witness :
    buildObjectValueAttrs c6Msg [c6Field] []
      = .ok [("doodad", .list (.object []) [.object [], .object []])]
    ∧ buildObjectValueAttrs c6MsgEmpty [c6Field] []
      = .ok [("doodad", .list (.object []) [])] := by
  have hvs : objectValuesForMessages
      ([ProtoMessage.mk [], ProtoMessage.mk []].map ProtoFieldValue.messageV) c2Child
      = .ok [.object [], .object []] := by
    rw [List.map_cons, objectValuesForMessages_cons_msg, objectValueForMessage_c2Child]
    rw [List.map_cons, objectValuesForMessages_cons_msg, objectValueForMessage_c2Child]
    rw [List.map_nil, objectValuesForMessages_nil]
  constructor
  · have h := (@repeated_list_block_reflection c6Field c6Block c6Msg
      [ProtoMessage.mk [], ProtoMessage.mk []] (by rfl) (by rfl) (by rfl)).1
      [.object [], .object []] hvs
    have h2 := h.2.2 (.object []) [.object []] rfl
    simpa using h2
  · have h := (@repeated_list_block_reflection c6Field c6Block c6MsgEmpty []
      (by rfl) (by rfl) (by rfl)).2 rfl (.object []) objectTypeConstraint_c2Child
    simpa using h

end ProtoHCL
